import Mathlib

/-!
# ESP8266 serial transport layer (yclw/mot_stm)

A shallow embedding of `Hardware/Communication/ESP8266/ESP8266.c`:

* the receive ring buffer (`USART1_RxBuffer`, `USART1_RxHead`, `USART1_RxTail`) written by
  `USART1_IRQHandler` and drained by `USART1_ReadByte`;
* the token scanner `ESP8266_WaitForResponse`;
* the command sequencer `ESP8266_Init` and the link supervisor `ESP8266_Restart`;
* the request writer `ESP8266_Send_http_post`;
* the response reader `ESP8266_Receive_http_response`;

of the upload cycle that drives it (`Upload_Data` of `User/main.c`, `App_UploadData` of
`User/App/app.c`), and of the sensor driver `Hardware/Sensor/DHT11/DHT11.c` with the filter
of `Hardware/Middlewares/Filter/Kalman.c`.

Bytes and machine integers are natural numbers, reduced modulo the width of the C type wherever
the C code can truncate.  Arrays are functions from the cell index to the cell value.
-/

namespace MotStm

/-! ## Receive ring buffer -/

/-- The constant `USART1_RX_BUFFER_SIZE`. -/
def USART1_RX_BUFFER_SIZE : Nat := 256

/-- The three file-scope variables of the receive channel: `USART1_RxBuffer` (cell index to
cell value), `USART1_RxHead` (written by the interrupt handler) and `USART1_RxTail` (written by
the reader). -/
structure Ring where
  buf : Nat → Nat
  head : Nat
  tail : Nat

/-- The state of the channel at program start: both indices are initialised to 0 and the
buffer, a zero-initialised global, holds zeros. -/
def Ring.empty : Ring := { buf := fun _ => 0, head := 0, tail := 0 }

/-- Both indices are valid cell numbers. -/
def Ring.Ok (s : Ring) : Prop := s.head < 256 ∧ s.tail < 256

instance (s : Ring) : Decidable s.Ok := by unfold Ring.Ok; infer_instance

/-- `USART1_IRQHandler`.  `rxne` is the result of `USART_GetITStatus(USART1, USART_IT_RXNE)
!= RESET`, `dr` is the value returned by `USART_ReceiveData(USART1)`, which the assignment to
`uint8_t data` truncates to 8 bits.  The handler returns nothing. -/
def USART1_IRQHandler (rxne : Bool) (dr : Nat) (s : Ring) : Ring :=
  if rxne then
    let data := dr % 256
    let nextHead := (s.head + 1) % USART1_RX_BUFFER_SIZE
    if nextHead ≠ s.tail then
      { s with buf := fun i => if i = s.head then data else s.buf i, head := nextHead }
    else s
  else s

/-- `USART1_ReadByte`.  The result `none` stands for the return value 0 (nothing is stored
through `data`), `some b` for the return value 1 with `*data = b`. -/
def USART1_ReadByte (s : Ring) : Option Nat × Ring :=
  if s.head = s.tail then (none, s)
  else (some (s.buf s.tail), { s with tail := (s.tail + 1) % USART1_RX_BUFFER_SIZE })

/-- Number of bytes stored in the channel: the distance from the tail to the head, going
round the buffer. -/
def Ring.count (s : Ring) : Nat := (s.head + 256 - s.tail) % 256

/-- The `n` cells of `buf` starting at `t`, going round the buffer. -/
def cellsFrom (buf : Nat → Nat) : Nat → Nat → List Nat
  | _, 0 => []
  | t, n + 1 => buf t :: cellsFrom buf ((t + 1) % 256) n

/-- The bytes stored in the channel, oldest first. -/
def Ring.contents (s : Ring) : List Nat := cellsFrom s.buf s.tail s.count

/-- The guard of `USART1_IRQHandler` fails: the channel is full. -/
def Ring.full (s : Ring) : Prop := (s.head + 1) % 256 = s.tail

instance (s : Ring) : Decidable s.full := by unfold Ring.full; infer_instance

/-- One event on the channel: the interrupt handler receiving the value `dr`, or one call
of `USART1_ReadByte`. -/
inductive Op where
  | push (dr : Nat)
  | pop
  deriving DecidableEq, Repr

/-- What a sequence of channel events has produced so far: the channel itself, the bytes
returned by the successful reads (in the order of the reads) and the bytes stored by the
handler (in the order of arrival; a byte whose push met a full channel is not among them). -/
structure Run where
  ring : Ring
  popped : List Nat
  accepted : List Nat

/-- Run one event. -/
def Run.step (r : Run) : Op → Run
  | Op.push dr =>
      { ring := USART1_IRQHandler true dr r.ring
        popped := r.popped
        accepted := if (r.ring.head + 1) % USART1_RX_BUFFER_SIZE ≠ r.ring.tail
                    then r.accepted ++ [dr % 256] else r.accepted }
  | Op.pop =>
      match USART1_ReadByte r.ring with
      | (some b, s) => { ring := s, popped := r.popped ++ [b], accepted := r.accepted }
      | (none, s) => { ring := s, popped := r.popped, accepted := r.accepted }

/-- Run a sequence of events from the empty channel. -/
def runOps (ops : List Op) : Run :=
  ops.foldl Run.step { ring := Ring.empty, popped := [], accepted := [] }

/-- The handler receiving the values `ds` one after the other. -/
def pushAll (ds : List Nat) (s : Ring) : Ring :=
  ds.foldl (fun r d => USART1_IRQHandler true d r) s

/-- The bytes returned by `n` successive calls of `USART1_ReadByte` (failed calls return
nothing), and the channel after them. -/
def popN : Nat → Ring → List Nat × Ring
  | 0, s => ([], s)
  | n + 1, s =>
      match USART1_ReadByte s with
      | (some b, s1) => (b :: (popN n s1).1, (popN n s1).2)
      | (none, s1) => popN n s1

/-! ## The application side: serial output, delays, polling -/

/-- The bytes of an ASCII string literal of the source. -/
def ascii (s : String) : List Nat := s.data.map Char.toNat

/-- An action of the application code that is visible from outside: one `printf` call (the
bytes it hands, in order, to `fputc` and so to `Serial_SendByte`), or one `Delay_ms` call. -/
inductive Effect where
  | write (bytes : List Nat)
  | delay (ms : Nat)
  deriving DecidableEq, Repr

/-- The state the driver runs in.  `ring` is the receive channel.  `rx` is the inbound line:
its first element holds the values the interrupt handler receives before the next call of
`USART1_ReadByte`, its second element those received before the call after that, and so on;
once the list is used up nothing arrives any more.  `trace` records the writes and delays
performed so far, `reads` the result of every `USART1_ReadByte` call made so far. -/
structure World where
  ring : Ring
  rx : List (List Nat)
  trace : List Effect
  reads : List (Option Nat)

/-- The output of one `printf` call. -/
def printf (out : List Nat) (w : World) : World :=
  { w with trace := w.trace ++ [Effect.write out] }

/-- `Delay_ms`. -/
def Delay_ms (ms : Nat) (w : World) : World :=
  { w with trace := w.trace ++ [Effect.delay ms] }

/-- One call of `USART1_ReadByte` by the application: the handler first stores what has
arrived since the previous call. -/
def World.readByte (w : World) : Option Nat × World :=
  let r := USART1_ReadByte (pushAll (w.rx.headD []) w.ring)
  (r.1, { w with ring := r.2, rx := w.rx.tail, reads := w.reads ++ [r.1] })

/-- Number of bytes still to arrive. -/
def World.pending (w : World) : Nat := (w.rx.map List.length).sum

/-- The trace without the 1 ms sleeps of the polling loops. -/
def visible (t : List Effect) : List Effect := t.filter (fun e => e ≠ Effect.delay 1)

/-! ## Token scanner -/

/-- The constant `ESP8266_TIMEOUT`. -/
def ESP8266_TIMEOUT : Nat := 1000

/-- The constant `ESP8266_MAX_RETRIES`. -/
def ESP8266_MAX_RETRIES : Nat := 3

/-- The `while` loop of `ESP8266_WaitForResponse`, one iteration per unit of `fuel`.
`response` is the 20-cell local array, `index` the `uint8_t` fill index, `timeout` the
`uint16_t` counter of empty polls; 79 and 75 are the characters O and K, and 19 is
`sizeof(response) - 1`.  With no fuel left the loop gives the result of its exit. -/
def ESP8266_WaitForResponse_loop :
    Nat → (Nat → Nat) → Nat → Nat → World → Bool × World
  | 0, _, _, _, w => (false, w)
  | fuel + 1, response, index, timeout, w =>
    if timeout < ESP8266_TIMEOUT then
      match w.readByte with
      | (some data, w1) =>
        let response1 := fun i => if i = index then data else response i
        let index1 := (index + 1) % 256
        let index2 := if index1 ≥ 19 then 0 else index1
        if index2 ≥ 2 ∧ response1 (index2 - 2) = 79 ∧ response1 (index2 - 1) = 75 then
          (true, w1)
        else
          ESP8266_WaitForResponse_loop fuel response1 index2 timeout w1
      | (none, w1) =>
        ESP8266_WaitForResponse_loop fuel response index ((timeout + 1) % 65536)
          (Delay_ms 1 w1)
    else (false, w)

/-- An upper bound on the number of iterations the loop can still make: every iteration
either takes a byte that is stored or still to arrive, or counts one empty poll. -/
def waitBound (timeout : Nat) (w : World) : Nat :=
  w.ring.count + w.pending + (ESP8266_TIMEOUT - timeout)

/-- `ESP8266_WaitForResponse`: `true` stands for the return value 1, `false` for 0. -/
def ESP8266_WaitForResponse (w : World) : Bool × World :=
  ESP8266_WaitForResponse_loop (waitBound 0 w) (fun _ => 0) 0 0 w

/-- The array after `response[index] = data`. -/
def storeByte (response : Nat → Nat) (index data : Nat) : Nat → Nat :=
  fun i => if i = index then data else response i

/-- The fill index after `index++` and the wrap `if (index >= sizeof(response) - 1) index = 0`. -/
def nextIndex (index : Nat) : Nat :=
  if (index + 1) % 256 ≥ 19 then 0 else (index + 1) % 256

/-- The test `index >= 2 && response[index-2] == 'O' && response[index-1] == 'K'`. -/
def tokenSeen (response : Nat → Nat) (index : Nat) : Prop :=
  index ≥ 2 ∧ response (index - 2) = 79 ∧ response (index - 1) = 75

instance (response : Nat → Nat) (index : Nat) : Decidable (tokenSeen response index) := by
  unfold tokenSeen; infer_instance

/-- What the loop of `ESP8266_WaitForResponse` answers on the bytes `ds` when they are all it
ever reads: the scan of the loop body alone. -/
def scanBytes : List Nat → (Nat → Nat) → Nat → Bool
  | [], _, _ => false
  | data :: ds, response, index =>
    let response1 := fun i => if i = index then data else response i
    let index1 := (index + 1) % 256
    let index2 := if index1 ≥ 19 then 0 else index1
    if index2 ≥ 2 ∧ response1 (index2 - 2) = 79 ∧ response1 (index2 - 1) = 75 then true
    else scanBytes ds response1 index2

/-- A world whose channel stores exactly `stream` and to which nothing more arrives. -/
def worldWith (stream : List Nat) : World :=
  { ring := pushAll stream Ring.empty, rx := [], trace := [], reads := [] }

/-! ## Command sequencer and link supervisor -/

/-- The array `commands` of `ESP8266_Init`. -/
def commands : List (List Nat) :=
  [ ascii "AT\r\n",
    ascii "AT+CIPSTART=\"TCP\",\"117.72.118.76\",3000\r\n",
    ascii "AT+CIPMODE=1\r\n",
    ascii "AT+CIPSEND\r\n" ]

/-- The local `cmdCount` of `ESP8266_Init`. -/
def cmdCount : Nat := 4

/-- One step of the command sequence: write the command, wait the settle delay, wait for
the token. -/
def ESP8266_Init_step (cmdIndex : Nat) (w : World) : Bool × World :=
  ESP8266_WaitForResponse (Delay_ms 1000 (printf (commands.getD cmdIndex []) w))

/-- The inner `while (cmdIndex < cmdCount)` loop of `ESP8266_Init`, entered with
`success = 1`; the result is the final `success`, the final `cmdIndex` and the state. -/
def ESP8266_Init_inner : Nat → Nat → World → Bool × Nat × World
  | 0, cmdIndex, w => (true, cmdIndex, w)
  | fuel + 1, cmdIndex, w =>
    if cmdIndex < cmdCount then
      match ESP8266_Init_step cmdIndex w with
      | (false, w1) => (false, cmdIndex, w1)
      | (true, w1) => ESP8266_Init_inner fuel (cmdIndex + 1) w1
    else (true, cmdIndex, w)

/-- The outer `while (retryCount < ESP8266_MAX_RETRIES && !success)` loop of
`ESP8266_Init`; the result is the final `retryCount`, the final `success` and the state. -/
def ESP8266_Init_outer : Nat → Nat → Bool → World → Nat × Bool × World
  | 0, retryCount, success, w => (retryCount, success, w)
  | fuel + 1, retryCount, success, w =>
    if retryCount < ESP8266_MAX_RETRIES ∧ success = false then
      match ESP8266_Init_inner cmdCount 0 w with
      | (false, _, w1) => ESP8266_Init_outer fuel (retryCount + 1) false (Delay_ms 2000 w1)
      | (true, _, w1) => ESP8266_Init_outer fuel retryCount true w1
    else (retryCount, success, w)

/-- The statement `USART1_RxHead = USART1_RxTail = 0` of `ESP8266_Init`. -/
def clearRx (w : World) : World :=
  { w with ring := { w.ring with head := 0, tail := 0 } }

/-- `ESP8266_Init` together with the final values of its locals `retryCount` and `success`.
`Serial_Init` configures the peripheral and touches none of the modelled state. -/
def ESP8266_Init_run (w : World) : Nat × Bool × World :=
  ESP8266_Init_outer ESP8266_MAX_RETRIES 0 false (clearRx w)

/-- `ESP8266_Init`. -/
def ESP8266_Init (w : World) : World := (ESP8266_Init_run w).2.2

/-- `ESP8266_Restart`. -/
def ESP8266_Restart (w : World) : World :=
  ESP8266_Init (Delay_ms 3000 (printf (ascii "AT+RST\r\n") (Delay_ms 500
    (printf (ascii "+++") w))))

/-- The waits of the `n` steps from step `cmdIndex` on all see the token. -/
def waitsSucceed : Nat → Nat → World → Bool
  | 0, _, _ => true
  | n + 1, cmdIndex, w =>
    (ESP8266_Init_step cmdIndex w).1 && waitsSucceed n (cmdIndex + 1) (ESP8266_Init_step cmdIndex w).2

/-- The state after `n` steps from step `cmdIndex` on. -/
def afterSteps : Nat → Nat → World → World
  | 0, _, w => w
  | n + 1, cmdIndex, w => afterSteps n (cmdIndex + 1) (ESP8266_Init_step cmdIndex w).2

/-- In the attempt that starts in `w`, the waits of the steps before step `k` (counting
from 1) see the token and the wait of step `k` times out. -/
def attemptFailsAt (k : Nat) (w : World) : Bool :=
  waitsSucceed (k - 1) 0 w && !(ESP8266_Init_step (k - 1) (afterSteps (k - 1) 0 w)).1

/-- The state after such an attempt and its backoff delay. -/
def afterFailedAttempt (k : Nat) (w : World) : World :=
  Delay_ms 2000 (ESP8266_Init_step (k - 1) (afterSteps (k - 1) 0 w)).2

/-- Each of the next `n` attempts, the first of which starts in `w`, fails at step `k`. -/
def attemptsFailAt (k : Nat) : Nat → World → Bool
  | 0, _ => true
  | n + 1, w => attemptFailsAt k w && attemptsFailAt k n (afterFailedAttempt k w)

/-- What one attempt that fails at step `k` writes and waits, polling sleeps aside: the
first `k` commands, each followed by the settle delay, then the backoff delay. -/
def failedAttemptTrace (k : Nat) : List Effect :=
  (commands.take k).flatMap (fun c => [Effect.write c, Effect.delay 1000]) ++ [Effect.delay 2000]

/-! ## Request writer -/

/-- The C string found at a pointer: of the bytes `s` stored from the pointer on, those before
the first zero byte. -/
def cstr (s : List Nat) : List Nat := s.takeWhile (fun b => b ≠ 0)

/-- `strlen`. -/
def strlen (s : List Nat) : Nat := (cstr s).length

/-- The value an unsigned number takes when it is stored in the 32-bit `int` of the target. -/
def toInt32 (n : Nat) : Int :=
  if n % 2 ^ 32 < 2 ^ 31 then ((n % 2 ^ 32 : Nat) : Int) else ((n % 2 ^ 32 : Nat) : Int) - 2 ^ 32

/-- Decimal digits of `n` as ASCII codes, most significant first, put in front of `acc`:
repeated division by 10, one digit per unit of `fuel`. -/
def decDigits : Nat → Nat → List Nat → List Nat
  | 0, _, acc => acc
  | fuel + 1, n, acc =>
    if n < 10 then (48 + n) :: acc else decDigits fuel (n / 10) ((48 + n % 10) :: acc)

/-- The conversion `%d` of `printf` for a 32-bit `int` (at most ten digits, after the sign
45 when the value is negative). -/
def fmt_d (i : Int) : List Nat :=
  if i < 0 then 45 :: decDigits 10 i.natAbs [] else decDigits 10 i.toNat []

/-- The output of the `printf` call of `ESP8266_Send_http_post`: the format string with its
four conversions `%s`, `%s`, `%d`, `%s` filled in from `POST`, `Host`, `length`, `json`. -/
def httpRequest (POST Host json : List Nat) : List Nat :=
  let length := toInt32 (strlen json)
  ascii "POST " ++ cstr POST ++ ascii " HTTP/1.1\r\n" ++
  ascii "Host: " ++ cstr Host ++ ascii "\r\n" ++
  ascii "Connection: keep-alive\r\n" ++
  ascii "User-Agent: ESP8266\r\n" ++
  ascii "Content-Type: application/json\r\n" ++
  ascii "Content-Length: " ++ fmt_d length ++ ascii "\r\n" ++
  ascii "\r\n" ++
  cstr json ++ ascii "\r\n"

/-- `ESP8266_Send_http_post`.  `ret` is the result of `printf`, the number of bytes written,
stored in an `int`. -/
def ESP8266_Send_http_post (POST Host json : List Nat) (w : World) : Nat × World :=
  let out := httpRequest POST Host json
  let ret := toInt32 out.length
  (if ret > 0 then 1 else 0, printf out w)

/-- Reading a decimal numeral back, digit by digit; `none` when a byte is not a digit. -/
def parseDigits : List Nat → Nat → Option Nat
  | [], acc => some acc
  | d :: ds, acc => if 48 ≤ d ∧ d ≤ 57 then parseDigits ds (acc * 10 + (d - 48)) else none

/-- The number a header value denotes: a non-empty run of decimal digits read back. -/
def parseDecimal (ds : List Nat) : Option Nat :=
  if ds = [] then none else parseDigits ds 0

/-- The bytes that follow the first occurrence of CR LF CR LF (13 10 13 10), if there is
one: what a receiver of the request takes for the body. -/
def afterHeaderEnd : List Nat → Option (List Nat)
  | [] => none
  | b :: bs =>
    if (b :: bs).take 4 = [13, 10, 13, 10] then some (bs.drop 3) else afterHeaderEnd bs

/-! ## Concrete lines -/

/-- The channel is empty and its indices are valid. -/
def Idle (w : World) : Prop := w.ring.Ok ∧ w.ring.head = w.ring.tail

instance (w : World) : Decidable (Idle w) := by unfold Idle; infer_instance

/-- What the modem sends in one attempt that stalls at the second step: the token in answer
to the first command (taken by the two polls of the first wait), then nothing during the 1000
polls of the second wait. -/
def stallReply : List (List Nat) := [79, 75] :: [] :: List.replicate 1000 []

/-- A line on which three attempts in a row stall at the second step. -/
def stallAtStep2 : World :=
  { ring := Ring.empty, rx := stallReply ++ (stallReply ++ (stallReply ++ [])),
    trace := [], reads := [] }

/-- A line on which the modem answers each of the four commands with the token. -/
def allReplies : World :=
  { ring := Ring.empty, rx := [[79, 75], [], [79, 75], [], [79, 75], [], [79, 75], []],
    trace := [], reads := [] }

/-! ## Response reader -/

/-- The C string held by the 256-cell array `response_buffer`: its bytes before the first
zero byte. -/
def bufferText (buf : Nat → Nat) : List Nat := cstr ((List.range 256).map buf)

/-- `strstr(hay, needle)` on two C strings given by their bytes: the part of `hay` that begins
at the first occurrence of `needle` (the pointer the C function returns), `none` for `NULL`. -/
def strstr : List Nat → List Nat → Option (List Nat)
  | [], needle => if needle = [] then some [] else none
  | h :: hs, needle =>
    if needle.isPrefixOf (h :: hs) then some (h :: hs) else strstr hs needle

/-- `isspace` in the C locale: space, and the controls from horizontal tab to carriage return. -/
def isSpace (c : Nat) : Bool := c = 32 || (9 ≤ c && c ≤ 13)

/-- `isdigit`. -/
def isDigit (c : Nat) : Bool := 48 ≤ c && c ≤ 57

/-- The value of a run of decimal digits. -/
def digitsValue (ds : List Nat) : Nat := ds.foldl (fun acc d => acc * 10 + (d - 48)) 0

/-- `sscanf(s, "%3u", code)` as the C standard defines it: white space is skipped, then the
input item is the longest run of at most three characters that is an optional sign (43 or 45)
followed by decimal digits.  With at least one digit in the item the call returns 1 and stores
the number (negated modulo 2^32 after a minus sign): that is the result `some`.  With no digit
it returns 0 or `EOF` and stores nothing: that is `none`. -/
def sscanf_3u (s : List Nat) : Option Nat :=
  match s.dropWhile isSpace with
  | [] => none
  | c :: rest =>
    if c = 43 ∨ c = 45 then
      let ds := (rest.take 2).takeWhile isDigit
      if ds = [] then none
      else some (if c = 45 then (2 ^ 32 - digitsValue ds) % 2 ^ 32 else digitsValue ds)
    else
      let ds := ((c :: rest).take 3).takeWhile isDigit
      if ds = [] then none else some (digitsValue ds)

/-- The locals of `ESP8266_Receive_http_response` when its loop ends: the array
`response_buffer`, the fill index, and the state; `writes` records, in order, the indices at
which the loop has stored a byte into the array. -/
structure RecvState where
  buf : Nat → Nat
  index : Nat
  world : World
  writes : List Nat

/-- The `while` loop of `ESP8266_Receive_http_response`, one iteration per unit of `fuel`;
15000 is `maxNoDataCount`, 255 is `sizeof(response_buffer) - 1`, and the needle is
"\r\n\r\n".  With no fuel left the loop gives the result of its exit. -/
def ESP8266_Receive_loop : Nat → (Nat → Nat) → Nat → Nat → List Nat → World → RecvState
  | 0, buf, index, _, writes, w => { buf := buf, index := index, world := w, writes := writes }
  | fuel + 1, buf, index, noDataCounter, writes, w =>
    if noDataCounter < 15000 then
      match w.readByte with
      | (some ch, w1) =>
        let buf1 := fun i => if i = index then ch else buf i
        let index1 := (index + 1) % 65536
        if index1 ≥ 255 then
          { buf := buf1, index := index1, world := w1, writes := writes ++ [index] }
        else if index1 ≥ 4 ∧ (strstr (bufferText buf1) [13, 10, 13, 10]).isSome then
          { buf := buf1, index := index1, world := w1, writes := writes ++ [index] }
        else
          ESP8266_Receive_loop fuel buf1 index1 0 (writes ++ [index]) w1
      | (none, w1) =>
        ESP8266_Receive_loop fuel buf index ((noDataCounter + 1) % 65536) writes w1
    else { buf := buf, index := index, world := w, writes := writes }

/-- An upper bound on the number of iterations the loop can still make: every byte but the
255th opens a new window of 15000 empty polls. -/
def recvBound (index noDataCounter : Nat) : Nat :=
  (254 - index) * 15000 + (15000 - noDataCounter)

/-- The loop of `ESP8266_Receive_http_response` from its initial locals. -/
def ESP8266_Receive_run (w : World) : RecvState :=
  ESP8266_Receive_loop (recvBound 0 0) (fun _ => 0) 0 0 [] w

/-- The part of `ESP8266_Receive_http_response` after the loop, on the text of the array:
find "HTTP/1.1 ", step over its 9 bytes, convert. -/
def statusOf (text : List Nat) : Option Nat :=
  match strstr text (ascii "HTTP/1.1 ") with
  | none => none
  | some http_header => sscanf_3u (http_header.drop 9)

/-- The same on the array itself, as it is after `response_buffer[index] = 0`. -/
def parseStatus (buf : Nat → Nat) : Option Nat := statusOf (bufferText buf)

/-- `ESP8266_Receive_http_response`: `some code` stands for the return value 1 with
`*code = code`, `none` for the return value 0. -/
def ESP8266_Receive_http_response (w : World) : Option Nat × World :=
  let st := ESP8266_Receive_run w
  (parseStatus (fun i => if i = st.index then 0 else st.buf i), st.world)

/-- The bytes among a list of poll results. -/
def bytesOf (rs : List (Option Nat)) : List Nat := rs.reduceOption

/-- The array that holds the bytes `acc` in its first cells and zeros after them. -/
def listBuf (acc : List Nat) : Nat → Nat := fun i => acc.getD i 0

/-- The test that ends the loop after a byte has been stored, on the bytes accumulated so
far: the array is full, or the text in it contains "\r\n\r\n". -/
def recvStop (acc : List Nat) : Prop :=
  acc.length ≥ 255 ∨ (acc.length ≥ 4 ∧ [13, 10, 13, 10] <:+: cstr acc)

/-- What the loop takes from the bytes `stream` stored in the channel when nothing more
arrives, `acc` being the bytes accumulated before: byte after byte up to and including the
first one at which the test `recvStop` holds, or all of them. -/
def recvTake : List Nat → List Nat → List Nat
  | _, [] => []
  | acc, ch :: rest =>
    if (acc ++ [ch]).length ≥ 255 ∨
        ((acc ++ [ch]).length ≥ 4 ∧ (strstr (cstr (acc ++ [ch])) [13, 10, 13, 10]).isSome) then
      [ch]
    else ch :: recvTake (acc ++ [ch]) rest

/-- The text begins with what `%3u` converts: a decimal digit, or a sign (43 or 45) and a
decimal digit. -/
def StartsNumeral : List Nat → Prop
  | [] => False
  | c :: rest =>
    isDigit c = true ∨ ((c = 43 ∨ c = 45) ∧ ∃ d rest2, rest = d :: rest2 ∧ isDigit d = true)

/-- Whether the loop, in the same situation, ends on the 15000 empty polls rather than on
the test `recvStop`. -/
def recvTimesOut : List Nat → List Nat → Bool
  | _, [] => true
  | acc, ch :: rest =>
    if (acc ++ [ch]).length ≥ 255 ∨
        ((acc ++ [ch]).length ≥ 4 ∧ (strstr (cstr (acc ++ [ch])) [13, 10, 13, 10]).isSome) then
      false
    else recvTimesOut (acc ++ [ch]) rest

/-! ## Detection rule and array accesses of the token scanner -/

/-- Among the bytes read in one call, the `n`-th (counting from 1) is K, the one before it is
O, and `n` leaves a remainder other than 0 and 1 when divided by 19. -/
def okAt (bytes : List Nat) (n : Nat) : Prop :=
  n % 19 ≠ 0 ∧ n % 19 ≠ 1 ∧ bytes[n - 1]? = some 75 ∧ bytes[n - 2]? = some 79

instance (bytes : List Nat) (n : Nat) : Decidable (okAt bytes n) := by
  unfold okAt; infer_instance

/-- One access to the 20-cell array `response`: a store at `response[index]`, or a load at
the index the expression `index - 2` or `index - 1` gives in `int` arithmetic. -/
inductive Access where
  | store (i : Nat)
  | load (i : Int)
  deriving DecidableEq, Repr

/-- The loop of `ESP8266_WaitForResponse` once more, this time recording in `log` every
access it makes to `response`.  The test `index >= 2 && response[index-2] == 'O' &&
response[index-1] == 'K'` loads `response[index-2]` only when `index >= 2`, and
`response[index-1]` only when the first comparison has held. -/
def ESP8266_WaitForResponse_logged :
    Nat → (Nat → Nat) → Nat → Nat → World → List Access → (Bool × World) × List Access
  | 0, _, _, _, w, log => ((false, w), log)
  | fuel + 1, response, index, timeout, w, log =>
    if timeout < ESP8266_TIMEOUT then
      match w.readByte with
      | (some data, w1) =>
        let response1 := fun i => if i = index then data else response i
        let index1 := (index + 1) % 256
        let index2 := if index1 ≥ 19 then 0 else index1
        let log1 := log ++ [Access.store index]
        let log2 :=
          if index2 ≥ 2 then
            if response1 (index2 - 2) = 79 then
              log1 ++ [Access.load ((index2 : Int) - 2), Access.load ((index2 : Int) - 1)]
            else log1 ++ [Access.load ((index2 : Int) - 2)]
          else log1
        if index2 ≥ 2 ∧ response1 (index2 - 2) = 79 ∧ response1 (index2 - 1) = 75 then
          ((true, w1), log2)
        else
          ESP8266_WaitForResponse_logged fuel response1 index2 timeout w1 log2
      | (none, w1) =>
        ESP8266_WaitForResponse_logged fuel response index ((timeout + 1) % 65536)
          (Delay_ms 1 w1) log
    else ((false, w), log)

/-- The log after one iteration that has read the byte `data`: the store, then the loads of
the test. -/
def stepLog (response : Nat → Nat) (index data : Nat) (log : List Access) : List Access :=
  if nextIndex index ≥ 2 then
    if storeByte response index data (nextIndex index - 2) = 79 then
      (log ++ [Access.store index]) ++
        [Access.load ((nextIndex index : Int) - 2), Access.load ((nextIndex index : Int) - 1)]
    else (log ++ [Access.store index]) ++ [Access.load ((nextIndex index : Int) - 2)]
  else log ++ [Access.store index]

/-- The accesses to `response` made by one call of `ESP8266_WaitForResponse`. -/
def waitAccesses (w : World) : List Access :=
  (ESP8266_WaitForResponse_logged (waitBound 0 w) (fun _ => 0) 0 0 w []).2

/-- The access stays inside the 20 cells; a store goes to a cell up to 18. -/
def Access.inBounds : Access → Prop
  | Access.store i => i ≤ 18
  | Access.load i => 0 ≤ i ∧ i ≤ 17

/-! ## Upload cycle -/

/-- The text that `sprintf` puts into `statusStr`, one constructor for each format string of
`Upload_Data`:
`"send:%4d       "`, `"err %d/%d       "`, `"restart wifi..."`, `"send err %d/%d  "` and
`"wait to retry  "`, with the values printed. -/
inductive Status
  | sent (code : Nat)
  | err (count max : Nat)
  | restartWifi
  | sendErr (count max : Nat)
  | waitToRetry
  deriving DecidableEq, Repr

/-- The state of the upload code: the serial channel, the two static variables
`network_error_count` (`uint8_t`) and `last_successful_time` (`uint32_t`), the texts passed to
`OLED_ShowString(4, 1, statusStr)` so far, and the number of calls of `ESP8266_Restart` so
far. -/
structure App where
  world : World
  network_error_count : Nat
  last_successful_time : Nat
  shown : List Status
  restarts : Nat

/-- The state before the first call: both static variables are 0. -/
def appStart (w : World) : App :=
  { world := w, network_error_count := 0, last_successful_time := 0, shown := [], restarts := 0 }

/-- `MAX_ERROR_COUNT` of `main.c`. -/
def MAX_ERROR_COUNT : Nat := 3

/-- `NETWORK_RETRY_INTERVAL` of `main.c`. -/
def NETWORK_RETRY_INTERVAL : Nat := 60000

/-- `POST` of `main.c`. -/
def POST : List Nat := ascii "/api/data"

/-- `HOST` of `main.c`. -/
def HOST : List Nat := ascii "117.72.118.76:3000"

/-- `Upload_Data` of `main.c`.  `json` is the text that `sprintf` has built from the three
measurements.  `current_time` is the local variable that the function sets to 0; the
subtraction is the one of `uint32_t`. -/
def Upload_Data (json : List Nat) (a : App) : App :=
  let current_time := 0
  if a.network_error_count = 0 ∨
      (current_time + 2 ^ 32 - a.last_successful_time) % 2 ^ 32 > NETWORK_RETRY_INTERVAL then
    match ESP8266_Send_http_post POST HOST json a.world with
    | (sent, w1) =>
      if sent ≠ 0 then
        match ESP8266_Receive_http_response w1 with
        | (some code, w2) =>
          { a with world := w2, last_successful_time := current_time, network_error_count := 0,
                   shown := a.shown ++ [Status.sent code] }
        | (none, w2) =>
          let count := (a.network_error_count + 1) % 256
          if count ≥ MAX_ERROR_COUNT then
            { a with world := Delay_ms 3000 (ESP8266_Restart w2), network_error_count := 0,
                     shown := a.shown ++ [Status.restartWifi], restarts := a.restarts + 1 }
          else
            { a with world := w2, network_error_count := count,
                     shown := a.shown ++ [Status.err count MAX_ERROR_COUNT] }
      else
        let count := (a.network_error_count + 1) % 256
        { a with world := w1, network_error_count := count,
                 shown := a.shown ++ [Status.sendErr count MAX_ERROR_COUNT] }
  else
    { a with shown := a.shown ++ [Status.waitToRetry] }

/-- `App_UploadData` of `app.c`.  Its constants come from a header that is not part of the
sources at hand, so they are parameters here: the threshold, the retry interval, the request
path and the host. -/
def App_UploadData (maxErrorCount retryInterval : Nat) (postPath serverHost json : List Nat)
    (a : App) : App :=
  let current_time := 0
  if a.network_error_count = 0 ∨
      (current_time + 2 ^ 32 - a.last_successful_time) % 2 ^ 32 > retryInterval then
    match ESP8266_Send_http_post postPath serverHost json a.world with
    | (sent, w1) =>
      if sent ≠ 0 then
        match ESP8266_Receive_http_response w1 with
        | (some code, w2) =>
          { a with world := w2, last_successful_time := current_time, network_error_count := 0,
                   shown := a.shown ++ [Status.sent code] }
        | (none, w2) =>
          let count := (a.network_error_count + 1) % 256
          if count ≥ maxErrorCount then
            { a with world := Delay_ms 3000 (ESP8266_Restart w2), network_error_count := 0,
                     shown := a.shown ++ [Status.restartWifi], restarts := a.restarts + 1 }
          else
            { a with world := w2, network_error_count := count,
                     shown := a.shown ++ [Status.err count maxErrorCount] }
      else
        let count := (a.network_error_count + 1) % 256
        { a with world := w1, network_error_count := count,
                 shown := a.shown ++ [Status.sendErr count maxErrorCount] }
  else
    { a with shown := a.shown ++ [Status.waitToRetry] }

/-- Consecutive upload cycles: before each call the inbound line gets the arrival batches of
that cycle (one entry of the list for each cycle), then `upload` is called once. -/
def uploadCycles (upload : App → App) : List (List (List Nat)) → App → App
  | [], a => a
  | arrivals :: later, a =>
    uploadCycles upload later (upload { a with world := { a.world with rx := arrivals } })

/-- Upload cycles on a silent line: `n` consecutive calls of `upload` from the state before
the first call, with an empty channel and nothing arriving during any of them. -/
def silentCycles (upload : App → App) (n : Nat) : App :=
  uploadCycles upload (List.replicate n []) (appStart (worldWith []))

/-- A sequence of upload calls, each with the text built from its own measurements: before
each call the inbound line gets the arrival batches that come with it, then `upload` is
called once with that text. -/
def uploadCalls (upload : List Nat → App → App) :
    List (List Nat × List (List Nat)) → App → App
  | [], a => a
  | (json, arrivals) :: later, a =>
    uploadCalls upload later (upload json { a with world := { a.world with rx := arrivals } })

/-! ## DHT11 line -/

/-- The data line as the driver sees it: the levels that the coming calls of
`GPIO_ReadInputDataBit` return, in order, and the level `rest` that every call after them
returns.  What the driver itself puts on the line, and its delays, are not part of the
state. -/
structure Pin where
  samples : List Bool
  rest : Bool
  deriving DecidableEq, Repr

/-- One call of `GPIO_ReadInputDataBit(DHT_GPIO_PORT, DHT_GPIO_PIN)`. -/
def GPIO_ReadInputDataBit (p : Pin) : Bool × Pin :=
  match p.samples with
  | [] => (p.rest, p)
  | b :: bs => (b, { p with samples := bs })

/-- `DHT_TIMEOUT_VALUE`. -/
def DHT_TIMEOUT_VALUE : Nat := 1000

/-- A loop `while (GPIO_ReadInputDataBit(..) == level) { Delay_us(1); if (++timeout >
DHT_TIMEOUT_VALUE) return 0; }` from the value `timeout` of the `uint16_t` counter on.  The
result `false` stands for the `return 0` inside the loop, `true` for leaving the loop on
its condition. -/
def waitLevel (level : Bool) : Nat → Nat → Pin → Bool × Pin
  | 0, _, p => (false, p)
  | fuel + 1, timeout, p =>
    match GPIO_ReadInputDataBit p with
    | (b, p1) =>
      if b = level then
        let timeout1 := (timeout + 1) % 65536
        if timeout1 > DHT_TIMEOUT_VALUE then (false, p1)
        else waitLevel level fuel timeout1 p1
      else (true, p1)

/-- Iterations that are enough for one wait loop entered with `timeout = 0`. -/
def dhtWaitBound : Nat := DHT_TIMEOUT_VALUE + 1

/-- `DHT_Start`, from the first read of the line on. -/
def DHT_Start (p : Pin) : Bool × Pin :=
  match waitLevel true dhtWaitBound 0 p with
  | (false, p1) => (false, p1)
  | (true, p1) =>
    match waitLevel false dhtWaitBound 0 p1 with
    | (false, p2) => (false, p2)
    | (true, p2) =>
      match waitLevel true dhtWaitBound 0 p2 with
      | (false, p3) => (false, p3)
      | (true, p3) => (true, p3)

/-- The `for` loop of `DHT_Get_Byte_Data` with `bits` iterations left.  The result is the
value returned, whether it is the `return 0` of a wait loop that has timed out, and the
line. -/
def DHT_Get_Byte_loop : Nat → Nat → Pin → Nat × Bool × Pin
  | 0, temp, p => (temp, false, p)
  | bits + 1, temp, p =>
    let temp1 := (temp * 2) % 256
    match waitLevel false dhtWaitBound 0 p with
    | (false, p1) => (0, true, p1)
    | (true, p1) =>
      match GPIO_ReadInputDataBit p1 with
      | (true, p2) =>
        match waitLevel true dhtWaitBound 0 p2 with
        | (false, p3) => (0, true, p3)
        | (true, p3) => DHT_Get_Byte_loop bits (temp1 ||| 1) p3
      | (false, p2) => DHT_Get_Byte_loop bits temp1 p2

/-- `DHT_Get_Byte_Data`. -/
def DHT_Get_Byte_Data (p : Pin) : Nat × Bool × Pin :=
  DHT_Get_Byte_loop 8 0 p

/-- What `DHT_Get_Temp_Humi_Data` leaves: its return value, the five cells of `buffer`,
for each byte reception made whether it timed out, and the line. -/
structure DhtRead where
  ret : Nat
  buffer : List Nat
  timedOut : List Bool
  pin : Pin
  deriving DecidableEq, Repr

/-- `DHT_Get_Temp_Humi_Data`.  The sum of the test is the one of `int`, not reduced. -/
def DHT_Get_Temp_Humi_Data (p : Pin) : DhtRead :=
  match DHT_Start p with
  | (false, p0) => { ret := 0, buffer := [0, 0, 0, 0, 0], timedOut := [], pin := p0 }
  | (true, p0) =>
    let r0 := DHT_Get_Byte_Data p0
    let r1 := DHT_Get_Byte_Data r0.2.2
    let r2 := DHT_Get_Byte_Data r1.2.2
    let r3 := DHT_Get_Byte_Data r2.2.2
    let r4 := DHT_Get_Byte_Data r3.2.2
    { ret := if r0.1 + r1.1 + r2.1 + r3.1 = r4.1 then 1 else 0,
      buffer := [r0.1, r1.1, r2.1, r3.1, r4.1],
      timedOut := [r0.2.1, r1.2.1, r2.2.1, r3.2.1, r4.2.1],
      pin := r4.2.2 }

/-- The line of a sensor that answers the start signal and then stops: the three levels
that end the three loops of `DHT_Start`, then the level `idle` for ever. -/
def answerThenStop (idle : Bool) : Pin :=
  { samples := [false, true, false], rest := idle }

/-! ## DHT11 decoding and filter

The `double` values of the source are rational numbers here, and its operations exact. -/

/-- `KalmanFilter_t`. -/
structure KalmanFilter_t where
  x : ℚ
  Q : ℚ
  R : ℚ
  P : ℚ
  K : ℚ

/-- `KalmanFilter_Init`. -/
def KalmanFilter_Init (init_value Q R : ℚ) : KalmanFilter_t :=
  { x := init_value, Q := Q, R := R, P := 1, K := 0 }

/-- `KalmanFilter_Update`: the value returned and the filter. -/
def KalmanFilter_Update (filter : KalmanFilter_t) (measurement : ℚ) : ℚ × KalmanFilter_t :=
  let P1 := filter.P + filter.Q
  let K1 := P1 / (P1 + filter.R)
  let x1 := filter.x + K1 * (measurement - filter.x)
  let P2 := (1 - K1) * P1
  (x1, { filter with x := x1, P := P2, K := K1 })

/-- The loop `while (temp_decimal > 1) temp_decimal /= 10.0;`. -/
def scaleDecimal : Nat → ℚ → ℚ
  | 0, d => d
  | fuel + 1, d => if d > 1 then scaleDecimal fuel (d / 10) else d

/-- The raw value decoded from an integer byte and a fractional byte: the `if (buffer[3] ==
0) .. else ..` of `DHT_Get_Filtered_Data`.  Three iterations of the loop are enough for a
byte. -/
def rawValue (intByte fracByte : Nat) : ℚ :=
  if fracByte = 0 then (intByte : ℚ)
  else (intByte : ℚ) + scaleDecimal 3 (fracByte : ℚ)

/-- The static variables of `DHT11.c` and the line. -/
structure DhtDriver where
  temp_filter : KalmanFilter_t
  humi_filter : KalmanFilter_t
  is_filter_initialized : Bool
  pin : Pin

/-- `DHT_Filter_Init`. -/
def DHT_Filter_Init (s : DhtDriver) : DhtDriver :=
  let r := DHT_Get_Temp_Humi_Data s.pin
  if r.ret ≠ 0 then
    { temp_filter := KalmanFilter_Init (rawValue (r.buffer.getD 2 0) (r.buffer.getD 3 0))
        (2 / 100) 1,
      humi_filter := KalmanFilter_Init (rawValue (r.buffer.getD 0 0) (r.buffer.getD 1 0))
        (1 / 100) 2,
      is_filter_initialized := true,
      pin := r.pin }
  else
    { temp_filter := KalmanFilter_Init 25 (2 / 100) 1,
      humi_filter := KalmanFilter_Init 50 (1 / 100) 2,
      is_filter_initialized := s.is_filter_initialized,
      pin := r.pin }

/-- What a successful `DHT_Get_Filtered_Data` has computed: the two raw values and the two
values stored through `filtered_data`. -/
structure Decoded where
  raw_temp : ℚ
  raw_humi : ℚ
  temperature : ℚ
  humidity : ℚ

/-- `DHT_Get_Filtered_Data`; `none` stands for the return value 0. -/
def DHT_Get_Filtered_Data (buffer : List Nat) (s : DhtDriver) : Option Decoded × DhtDriver :=
  if buffer.getD 0 0 + buffer.getD 1 0 + buffer.getD 2 0 + buffer.getD 3 0 ≠ buffer.getD 4 0 then
    (none, s)
  else
    let s1 := if s.is_filter_initialized = false then DHT_Filter_Init s else s
    let raw_temp := rawValue (buffer.getD 2 0) (buffer.getD 3 0)
    let raw_humi := rawValue (buffer.getD 0 0) (buffer.getD 1 0)
    let t := KalmanFilter_Update s1.temp_filter raw_temp
    let h := KalmanFilter_Update s1.humi_filter raw_humi
    (some { raw_temp := raw_temp, raw_humi := raw_humi, temperature := t.1, humidity := h.1 },
      { s1 with temp_filter := t.2, humi_filter := h.2 })

/-! ## Order of the actions of the command sequencer -/

/-- What the application does on the serial line, one entry for each call: a `printf` with
the bytes written, a `Delay_ms` with its argument, a `USART1_ReadByte` with the byte it gave
(`none` for the return value 0). -/
inductive Event
  | write (bytes : List Nat)
  | delay (ms : Nat)
  | poll (result : Option Nat)
  deriving DecidableEq, Repr

/-- The loop of `ESP8266_WaitForResponse` once more, now with the list of the calls it makes,
in the order in which it makes them: each iteration calls `USART1_ReadByte`, and an iteration
that got no byte calls `Delay_ms(1)` after it. -/
def ESP8266_WaitForResponse_events :
    Nat → (Nat → Nat) → Nat → Nat → World → List Event → (Bool × World) × List Event
  | 0, _, _, _, w, ev => ((false, w), ev)
  | fuel + 1, response, index, timeout, w, ev =>
    if timeout < ESP8266_TIMEOUT then
      match w.readByte with
      | (some data, w1) =>
        let response1 := fun i => if i = index then data else response i
        let index1 := (index + 1) % 256
        let index2 := if index1 ≥ 19 then 0 else index1
        if index2 ≥ 2 ∧ response1 (index2 - 2) = 79 ∧ response1 (index2 - 1) = 75 then
          ((true, w1), ev ++ [Event.poll (some data)])
        else
          ESP8266_WaitForResponse_events fuel response1 index2 timeout w1
            (ev ++ [Event.poll (some data)])
      | (none, w1) =>
        ESP8266_WaitForResponse_events fuel response index ((timeout + 1) % 65536)
          (Delay_ms 1 w1) (ev ++ [Event.poll none, Event.delay 1])
    else ((false, w), ev)

/-- One step of the command sequence with the list of its calls: `printf(commands[cmdIndex])`,
then `Delay_ms(1000)`, then the calls of `ESP8266_WaitForResponse`. -/
def ESP8266_Init_step_events (cmdIndex : Nat) (w : World) (ev : List Event) :
    (Bool × World) × List Event :=
  let w1 := printf (commands.getD cmdIndex []) w
  let ev1 := ev ++ [Event.write (commands.getD cmdIndex [])]
  let w2 := Delay_ms 1000 w1
  let ev2 := ev1 ++ [Event.delay 1000]
  ESP8266_WaitForResponse_events (waitBound 0 w2) (fun _ => 0) 0 0 w2 ev2

/-- The inner loop of `ESP8266_Init` with the list of its calls. -/
def ESP8266_Init_inner_events :
    Nat → Nat → World → List Event → (Bool × Nat × World) × List Event
  | 0, cmdIndex, w, ev => ((true, cmdIndex, w), ev)
  | fuel + 1, cmdIndex, w, ev =>
    if cmdIndex < cmdCount then
      match ESP8266_Init_step_events cmdIndex w ev with
      | ((false, w1), ev1) => ((false, cmdIndex, w1), ev1)
      | ((true, w1), ev1) => ESP8266_Init_inner_events fuel (cmdIndex + 1) w1 ev1
    else ((true, cmdIndex, w), ev)

/-- The outer loop of `ESP8266_Init` with the list of its calls; the backoff is
`Delay_ms(2000)`. -/
def ESP8266_Init_outer_events :
    Nat → Nat → Bool → World → List Event → (Nat × Bool × World) × List Event
  | 0, retryCount, success, w, ev => ((retryCount, success, w), ev)
  | fuel + 1, retryCount, success, w, ev =>
    if retryCount < ESP8266_MAX_RETRIES ∧ success = false then
      match ESP8266_Init_inner_events cmdCount 0 w ev with
      | ((false, _, w1), ev1) =>
        ESP8266_Init_outer_events fuel (retryCount + 1) false (Delay_ms 2000 w1)
          (ev1 ++ [Event.delay 2000])
      | ((true, _, w1), ev1) => ESP8266_Init_outer_events fuel retryCount true w1 ev1
    else ((retryCount, success, w), ev)

/-- `ESP8266_Init` with the list of the calls it makes on the serial line, in order. -/
def ESP8266_Init_events (w : World) : (Nat × Bool × World) × List Event :=
  ESP8266_Init_outer_events ESP8266_MAX_RETRIES 0 false (clearRx w) []

/-- The calls of a wait that has polled with the results `rs`: every poll, and the 1 ms sleep
after each poll that gave no byte. -/
def waitEvents (rs : List (Option Nat)) : List Event :=
  rs.flatMap (fun r =>
    match r with
    | some d => [Event.poll (some d)]
    | none => [Event.poll none, Event.delay 1])

/-- The calls of the steps from step `cmdIndex` on whose waits have polled with the results
`rss`, one list for each step. -/
def stepsEvents : Nat → List (List (Option Nat)) → List Event
  | _, [] => []
  | cmdIndex, rs :: rss =>
    [Event.write (commands.getD cmdIndex []), Event.delay 1000] ++ waitEvents rs ++
      stepsEvents (cmdIndex + 1) rss

/-- What such steps add to the trace: the command and the settle delay of each step, then
the 1 ms sleeps of its wait, one for each poll that gave no byte. -/
def stepsTrace : Nat → List (List (Option Nat)) → List Effect
  | _, [] => []
  | cmdIndex, rs :: rss =>
    [Effect.write (commands.getD cmdIndex []), Effect.delay 1000] ++
      List.replicate (rs.count none) (Effect.delay 1) ++ stepsTrace (cmdIndex + 1) rss

/-! ## Ring buffer lemmas -/

theorem cellsFrom_length (buf : Nat → Nat) (n t : Nat) : (cellsFrom buf t n).length = n := by
  induction n generalizing t with
  | zero => rfl
  | succ n ih => simp [cellsFrom, ih]

theorem Ring.contents_length (s : Ring) : s.contents.length = s.count :=
  cellsFrom_length _ _ _

theorem Ring.count_lt (s : Ring) : s.count < 256 := Nat.mod_lt _ (by decide)

/-- Writing the cell just past the `n` cells starting at `t` appends to them. -/
theorem cellsFrom_write (buf : Nat → Nat) (d : Nat) (n t h : Nat) (ht : t < 256)
    (hn : n < 256) (hh : h = (t + n) % 256) :
    cellsFrom (fun i => if i = h then d else buf i) t (n + 1) = cellsFrom buf t n ++ [d] := by
  induction n generalizing t with
  | zero =>
    have : h = t := by omega
    simp [cellsFrom, this]
  | succ n ih =>
    have hne : t ≠ h := by omega
    have step := ih ((t + 1) % 256) (by omega) (by omega) (by omega)
    rw [cellsFrom, step]
    simp [cellsFrom, hne]

theorem irq_ok (rxne : Bool) (dr : Nat) (s : Ring) (h : s.Ok) :
    (USART1_IRQHandler rxne dr s).Ok := by
  unfold USART1_IRQHandler USART1_RX_BUFFER_SIZE Ring.Ok at *
  cases rxne
  · simpa using h
  · by_cases hf : (s.head + 1) % 256 = s.tail
    · simpa [hf] using h
    · simp only [if_true, ne_eq, hf, not_false_eq_true]
      exact ⟨Nat.mod_lt _ (by decide), h.2⟩

theorem irq_full (dr : Nat) (s : Ring) (hf : s.full) : USART1_IRQHandler true dr s = s := by
  unfold Ring.full at hf
  simp [USART1_IRQHandler, USART1_RX_BUFFER_SIZE, hf]

theorem irq_contents (dr : Nat) (s : Ring) (h : s.Ok) (hf : ¬ s.full) :
    (USART1_IRQHandler true dr s).contents = s.contents ++ [dr % 256] ∧
    (USART1_IRQHandler true dr s).count = s.count + 1 := by
  unfold Ring.full at hf
  unfold Ring.Ok at h
  have hc : (USART1_IRQHandler true dr s).count = s.count + 1 := by
    simp only [USART1_IRQHandler, USART1_RX_BUFFER_SIZE, if_true, ne_eq, hf, not_false_eq_true,
      Ring.count]
    omega
  refine ⟨?_, hc⟩
  unfold Ring.contents
  rw [hc]
  simp only [USART1_IRQHandler, USART1_RX_BUFFER_SIZE, if_true, ne_eq, hf, not_false_eq_true]
  apply cellsFrom_write _ _ _ _ _ h.2 s.count_lt
  unfold Ring.count
  omega

theorem read_ok (s : Ring) (h : s.Ok) : (USART1_ReadByte s).2.Ok := by
  unfold USART1_ReadByte USART1_RX_BUFFER_SIZE Ring.Ok at *
  by_cases he : s.head = s.tail
  · simpa [he] using h
  · simp only [he, if_false]
    exact ⟨h.1, Nat.mod_lt _ (by decide)⟩

theorem count_eq_zero_iff (s : Ring) (h : s.Ok) : s.count = 0 ↔ s.head = s.tail := by
  unfold Ring.count; unfold Ring.Ok at h; omega

theorem read_empty (s : Ring) (he : s.head = s.tail) : USART1_ReadByte s = (none, s) := by
  simp [USART1_ReadByte, he]

/-- A read on a non-empty channel returns the oldest stored byte and leaves the others. -/
theorem read_contents (s : Ring) (h : s.Ok) (he : s.head ≠ s.tail) :
    ∃ b, (USART1_ReadByte s).1 = some b ∧ s.contents = b :: (USART1_ReadByte s).2.contents ∧
      (USART1_ReadByte s).2.count + 1 = s.count ∧ (USART1_ReadByte s).2.head = s.head := by
  unfold Ring.Ok at h
  refine ⟨s.buf s.tail, by simp [USART1_ReadByte, he], ?_, ?_, by simp [USART1_ReadByte, he]⟩
  · have hc : s.count = ((s.head + 256 - (s.tail + 1) % 256) % 256) + 1 := by
      unfold Ring.count; omega
    unfold Ring.contents
    rw [hc]
    simp [USART1_ReadByte, he, USART1_RX_BUFFER_SIZE, Ring.count, cellsFrom]
  · simp only [USART1_ReadByte, he, if_false, USART1_RX_BUFFER_SIZE, Ring.count]
    omega

theorem popN_spec (n : Nat) (s : Ring) (h : s.Ok) :
    (popN n s).1 = s.contents.take n ∧ (popN n s).2.Ok ∧
      (popN n s).2.contents = s.contents.drop n := by
  induction n generalizing s with
  | zero => simp [popN, h]
  | succ n ih =>
    by_cases he : s.head = s.tail
    · have hc : s.contents = [] := by
        have := (count_eq_zero_iff s h).2 he
        simp [Ring.contents, this, cellsFrom]
      have := ih s h
      rw [hc] at this
      simp only [popN, read_empty s he, hc]
      simpa using this
    · obtain ⟨b, hb, hcont, -, -⟩ := read_contents s h he
      have hok := read_ok s h
      have := ih (USART1_ReadByte s).2 hok
      have hsplit : USART1_ReadByte s = (some b, (USART1_ReadByte s).2) := by
        rw [← hb]
      rw [popN, hsplit, hcont]
      simpa using this

/-- The invariant of every run: valid indices, and the accepted bytes are the returned
bytes followed by the stored bytes. -/
theorem run_invariant (ops : List Op) (r : Run) (hok : r.ring.Ok)
    (hacc : r.accepted = r.popped ++ r.ring.contents) :
    (ops.foldl Run.step r).ring.Ok ∧
      (ops.foldl Run.step r).accepted =
        (ops.foldl Run.step r).popped ++ (ops.foldl Run.step r).ring.contents := by
  induction ops generalizing r with
  | nil => exact ⟨hok, hacc⟩
  | cons op ops ih =>
    rw [List.foldl_cons]
    cases op with
    | push dr =>
      apply ih
      · exact irq_ok _ _ _ hok
      · by_cases hf : r.ring.full
        · have hf2 : ¬ ((r.ring.head + 1) % USART1_RX_BUFFER_SIZE ≠ r.ring.tail) := by
            simpa [Ring.full, USART1_RX_BUFFER_SIZE] using hf
          simp only [Run.step, hf2, if_false, irq_full _ _ hf]
          exact hacc
        · have hf2 : (r.ring.head + 1) % USART1_RX_BUFFER_SIZE ≠ r.ring.tail := by
            simpa [Ring.full, USART1_RX_BUFFER_SIZE] using hf
          simp only [Run.step, hf2, if_true, (irq_contents dr _ hok hf).1, hacc,
            List.append_assoc, ne_eq, not_false_eq_true]
    | pop =>
      by_cases he : r.ring.head = r.ring.tail
      · apply ih
        · simpa [Run.step, read_empty _ he] using hok
        · simpa [Run.step, read_empty _ he] using hacc
      · obtain ⟨b, hb, hcont, -, -⟩ := read_contents _ hok he
        have hsplit : USART1_ReadByte r.ring = (some b, (USART1_ReadByte r.ring).2) := by
          rw [← hb]
        apply ih
        · have := read_ok _ hok
          simp only [Run.step]
          rw [hsplit]
          exact this
        · simp only [Run.step]
          rw [hsplit]
          simp [hacc, hcont]

theorem pushAll_contents (ds : List Nat) (s : Ring) (h : s.Ok)
    (hroom : s.count + ds.length ≤ 255) :
    (pushAll ds s).Ok ∧ (pushAll ds s).contents = s.contents ++ ds.map (· % 256) ∧
      (pushAll ds s).count = s.count + ds.length := by
  induction ds generalizing s with
  | nil => simp [pushAll, h]
  | cons d ds ih =>
    have hnf : ¬ s.full := by
      unfold Ring.full; unfold Ring.Ok at h
      simp only [Ring.count, List.length_cons] at hroom
      omega
    obtain ⟨hc, hn⟩ := irq_contents d s h hnf
    have := ih (USART1_IRQHandler true d s) (irq_ok _ _ _ h)
      (by rw [hn]; simp only [List.length_cons] at hroom; omega)
    simp only [pushAll, List.foldl_cons] at this ⊢
    rw [hc, hn] at this
    simpa [Nat.add_assoc, Nat.add_comm 1] using this

theorem pushAll_snoc (ds : List Nat) (d : Nat) (s : Ring) :
    pushAll (ds ++ [d]) s = USART1_IRQHandler true d (pushAll ds s) := by
  simp [pushAll]

theorem empty_count : Ring.empty.count = 0 := rfl

theorem full_iff_count (s : Ring) (h : s.Ok) : s.full ↔ s.count = 255 := by
  unfold Ring.full Ring.count; unfold Ring.Ok at h; omega

/-- A run of pushes only: the channel is the one `pushAll` builds and nothing is returned. -/
theorem run_pushes (ds : List Nat) (r : Run) :
    ((ds.map Op.push).foldl Run.step r).ring = pushAll ds r.ring ∧
      ((ds.map Op.push).foldl Run.step r).popped = r.popped := by
  induction ds generalizing r with
  | nil => exact ⟨rfl, rfl⟩
  | cons d ds ih =>
    have := ih (r.step (Op.push d))
    simpa [pushAll, Run.step] using this

theorem runOps_invariant (ops : List Op) :
    (runOps ops).ring.Ok ∧
      (runOps ops).accepted = (runOps ops).popped ++ (runOps ops).ring.contents :=
  run_invariant ops { ring := Ring.empty, popped := [], accepted := [] }
    (by decide) (by simp [Ring.contents, Ring.count, Ring.empty, cellsFrom])

/-! ## The byte channel: claims -/

/-- C1: for every interleaving of pushes and pops starting from the empty channel, of any
length, the bytes returned by the successful pops are a prefix of the bytes whose pushes
were accepted, in the same order; what has been accepted and not yet returned is exactly
what the channel still stores. -/
theorem C1_fifo_order (ops : List Op) :
    (runOps ops).popped <+: (runOps ops).accepted ∧
      (runOps ops).accepted = (runOps ops).popped ++ (runOps ops).ring.contents := by
  have h := runOps_invariant ops
  exact ⟨⟨_, h.2.symm⟩, h.2⟩

/-- C2: on a full channel the handler drops the arriving byte and returns the state it was
given (same head, same tail, same buffer; it has no result through which an error could be
signalled), so the following pops return the bytes that were stored before, all 255 of them
and nothing after them. -/
theorem C2_full_push_dropped (s : Ring) (dr : Nat) (hok : s.Ok) (hfull : s.full) :
    USART1_IRQHandler true dr s = s ∧
      (∀ n, (popN n (USART1_IRQHandler true dr s)).1 = s.contents.take n) ∧
      (∀ n, 255 ≤ n → (popN n (USART1_IRQHandler true dr s)).1 = s.contents) := by
  have hlen : s.contents.length = 255 := by
    rw [Ring.contents_length]; exact (full_iff_count s hok).1 hfull
  refine ⟨irq_full dr s hfull, ?_, ?_⟩
  · intro n
    rw [irq_full dr s hfull]
    exact (popN_spec n s hok).1
  · intro n hn
    rw [irq_full dr s hfull, (popN_spec n s hok).1]
    exact List.take_of_length_le (by omega)

/-- C2, at a concrete full channel: 255 bytes pushed into the empty channel, then a 256th. -/
theorem C2_full_push_dropped_witness :
    (pushAll (List.replicate 255 7) Ring.empty).Ok ∧
      (pushAll (List.replicate 255 7) Ring.empty).full ∧
      USART1_IRQHandler true 9 (pushAll (List.replicate 255 7) Ring.empty) =
        pushAll (List.replicate 255 7) Ring.empty :=
  have h := pushAll_contents (List.replicate 255 7) Ring.empty (by decide)
    (by rw [List.length_replicate, empty_count])
  have hf : (pushAll (List.replicate 255 7) Ring.empty).full :=
    (full_iff_count _ h.1).2 (by rw [h.2.2, List.length_replicate, empty_count])
  ⟨h.1, hf, (C2_full_push_dropped _ 9 h.1 hf).1⟩

/-- C3, as stated, fails: of 256 consecutive pushes into the empty channel only 255 are
accepted; the 256th meets a channel that stores 255 bytes and is dropped. -/
theorem C3_capacity_256_counterexample :
    (runOps (List.replicate 256 (Op.push 65))).accepted.length = 255 ∧
      (pushAll (List.replicate 255 65) Ring.empty).count = 255 ∧
      USART1_IRQHandler true 65 (pushAll (List.replicate 255 65) Ring.empty) =
        pushAll (List.replicate 255 65) Ring.empty := by
  have h := pushAll_contents (List.replicate 255 65) Ring.empty (by decide)
    (by rw [List.length_replicate, empty_count])
  have hc : (pushAll (List.replicate 255 65) Ring.empty).count = 255 := by
    rw [h.2.2, List.length_replicate, empty_count]
  have hf := (full_iff_count _ h.1).2 hc
  refine ⟨?_, hc, irq_full _ _ hf⟩
  have hrun := run_pushes (List.replicate 256 65)
    { ring := Ring.empty, popped := [], accepted := [] }
  have hinv := (runOps_invariant (List.replicate 256 (Op.push 65))).2
  have hmap : List.replicate 256 (Op.push 65) = (List.replicate 256 65).map Op.push := by
    rw [List.map_replicate]
  have hlast : pushAll (List.replicate 256 65) Ring.empty =
      pushAll (List.replicate 255 65) Ring.empty := by
    rw [show (256 : Nat) = 255 + 1 from rfl, List.replicate_succ', pushAll_snoc,
      irq_full _ _ hf]
  unfold runOps at hinv ⊢
  rw [hmap] at hinv ⊢
  rw [hinv, hrun.2, hrun.1, List.nil_append, Ring.contents_length, hlast, hc]

/-- C3, amended: the channel holds 255 bytes.  From the empty channel, up to 255 consecutive
pushes with no intervening pop are all accepted and are all returned, in order, by the
following pops; and a push is dropped (the handler returns the state unchanged) exactly when
255 bytes are already stored. -/
theorem C3_capacity_255 :
    (∀ ds : List Nat, ds.length ≤ 255 →
      (pushAll ds Ring.empty).contents = ds.map (· % 256) ∧
      (popN ds.length (pushAll ds Ring.empty)).1 = ds.map (· % 256) ∧
      (runOps (ds.map Op.push)).accepted = ds.map (· % 256)) ∧
    (∀ (s : Ring) (dr : Nat), s.Ok →
      (USART1_IRQHandler true dr s = s ↔ s.count = 255)) := by
  constructor
  · intro ds hlen
    have h := pushAll_contents ds Ring.empty (by decide) (by rw [empty_count]; omega)
    have hcont : (pushAll ds Ring.empty).contents = ds.map (· % 256) := by
      rw [h.2.1]; rfl
    refine ⟨hcont, ?_, ?_⟩
    · rw [(popN_spec ds.length _ h.1).1, hcont]
      exact List.take_of_length_le (by simp)
    · have hrun := run_pushes ds { ring := Ring.empty, popped := [], accepted := [] }
      have hinv := (runOps_invariant (ds.map Op.push)).2
      unfold runOps at hinv ⊢
      rw [hinv, hrun.2, hrun.1, List.nil_append, hcont]
  · intro s dr hok
    rw [← full_iff_count s hok]
    constructor
    · intro heq
      by_contra hnf
      have hhead := congrArg Ring.head heq
      unfold Ring.full at hnf
      simp only [USART1_IRQHandler, USART1_RX_BUFFER_SIZE, if_true, ne_eq, hnf,
        not_false_eq_true] at hhead
      unfold Ring.Ok at hok
      omega
    · exact irq_full dr s

/-- C3, amended, at a concrete input: three pushes, three pops; and the 256th push into a
channel that stores 255 bytes. -/
theorem C3_capacity_255_witness :
    (popN 3 (pushAll [79, 75, 13] Ring.empty)).1 = [79, 75, 13] ∧
      ((pushAll (List.replicate 255 65) Ring.empty).Ok ∧
        (USART1_IRQHandler true 66 (pushAll (List.replicate 255 65) Ring.empty) =
            pushAll (List.replicate 255 65) Ring.empty ↔
          (pushAll (List.replicate 255 65) Ring.empty).count = 255)) :=
  have h := pushAll_contents (List.replicate 255 65) Ring.empty (by decide)
    (by rw [List.length_replicate, empty_count])
  ⟨(C3_capacity_255.1 [79, 75, 13] (by decide)).2.1, h.1, C3_capacity_255.2 _ 66 h.1⟩

/-! ## Polling lemmas -/

theorem pushAll_count_le (ds : List Nat) (s : Ring) (h : s.Ok) :
    (pushAll ds s).Ok ∧ (pushAll ds s).count ≤ s.count + ds.length := by
  induction ds generalizing s with
  | nil => exact ⟨h, Nat.le_refl _⟩
  | cons d ds ih =>
    have hstep := ih (USART1_IRQHandler true d s) (irq_ok _ _ _ h)
    have hcnt : (USART1_IRQHandler true d s).count ≤ s.count + 1 := by
      by_cases hf : s.full
      · rw [irq_full d s hf]; omega
      · rw [(irq_contents d s h hf).2]
    simp only [pushAll, List.foldl_cons, List.length_cons] at hstep ⊢
    exact ⟨hstep.1, by omega⟩

theorem pending_eq (w : World) : w.pending = (w.rx.headD []).length + (w.rx.tail.map List.length).sum := by
  unfold World.pending
  cases w.rx <;> simp

theorem readByte_fields (w : World) :
    (w.readByte).2.trace = w.trace ∧ (w.readByte).2.reads = w.reads ++ [(w.readByte).1] ∧
      (w.readByte).2.rx = w.rx.tail := ⟨rfl, rfl, rfl⟩

theorem readByte_ok (w : World) (h : w.ring.Ok) : (w.readByte).2.ring.Ok :=
  read_ok _ (pushAll_count_le _ _ h).1

theorem readByte_some (w w1 : World) (d : Nat) (h : w.ring.Ok) (hr : w.readByte = (some d, w1)) :
    w1.ring.count + w1.pending + 1 ≤ w.ring.count + w.pending := by
  have hp := pushAll_count_le (w.rx.headD []) w.ring h
  have hw1 : w1 = (w.readByte).2 := by rw [hr]
  have hd : (USART1_ReadByte (pushAll (w.rx.headD []) w.ring)).1 = some d := by
    have := congrArg Prod.fst hr
    exact this
  have hne : (pushAll (w.rx.headD []) w.ring).head ≠ (pushAll (w.rx.headD []) w.ring).tail := by
    intro he
    rw [read_empty _ he] at hd
    cases hd
  obtain ⟨b, -, -, hc, -⟩ := read_contents _ hp.1 hne
  rw [pending_eq w, hw1]
  show (USART1_ReadByte (pushAll (w.rx.headD []) w.ring)).2.count +
    (w.rx.tail.map List.length).sum + 1 ≤ _
  omega

theorem readByte_none (w w1 : World) (h : w.ring.Ok) (hr : w.readByte = (none, w1)) :
    w1.ring.count + w1.pending ≤ w.ring.count + w.pending := by
  have hp := pushAll_count_le (w.rx.headD []) w.ring h
  have hw1 : w1 = (w.readByte).2 := by rw [hr]
  have hd : (USART1_ReadByte (pushAll (w.rx.headD []) w.ring)).1 = none := by
    have := congrArg Prod.fst hr
    exact this
  have he : (pushAll (w.rx.headD []) w.ring).head = (pushAll (w.rx.headD []) w.ring).tail := by
    by_contra hne
    obtain ⟨b, hb, -⟩ := read_contents _ hp.1 hne
    rw [hb] at hd
    cases hd
  rw [pending_eq w, hw1]
  show (USART1_ReadByte (pushAll (w.rx.headD []) w.ring)).2.count +
    (w.rx.tail.map List.length).sum ≤ _
  rw [read_empty _ he]
  dsimp only
  omega


theorem wait_loop_exit (fuel : Nat) (response : Nat → Nat) (index timeout : Nat) (w : World)
    (h : ¬ timeout < 1000) :
    ESP8266_WaitForResponse_loop fuel response index timeout w = (false, w) := by
  cases fuel <;> simp [ESP8266_WaitForResponse_loop, ESP8266_TIMEOUT, h]

theorem wait_loop_some (fuel : Nat) (response : Nat → Nat) (index timeout d : Nat)
    (w w1 : World) (hlt : timeout < 1000) (hrb : w.readByte = (some d, w1)) :
    ESP8266_WaitForResponse_loop (fuel + 1) response index timeout w =
      if tokenSeen (storeByte response index d) (nextIndex index) then (true, w1)
      else ESP8266_WaitForResponse_loop fuel (storeByte response index d) (nextIndex index)
        timeout w1 := by
  simp only [ESP8266_WaitForResponse_loop, ESP8266_TIMEOUT, hlt, if_true, hrb]
  rfl

theorem wait_loop_none (fuel : Nat) (response : Nat → Nat) (index timeout : Nat)
    (w w1 : World) (hlt : timeout < 1000) (hrb : w.readByte = (none, w1)) :
    ESP8266_WaitForResponse_loop (fuel + 1) response index timeout w =
      ESP8266_WaitForResponse_loop fuel response index (timeout + 1) (Delay_ms 1 w1) := by
  have hwrap : (timeout + 1) % 65536 = timeout + 1 := by omega
  simp only [ESP8266_WaitForResponse_loop, ESP8266_TIMEOUT, hlt, if_true, hrb, hwrap]

theorem wait_loop_spec (fuel : Nat) : ∀ (response : Nat → Nat) (index timeout : Nat) (w : World),
    w.ring.Ok → timeout ≤ 1000 → waitBound timeout w ≤ fuel →
    (ESP8266_WaitForResponse_loop fuel response index timeout w).2.ring.Ok ∧
    ∃ rs : List (Option Nat),
      (ESP8266_WaitForResponse_loop fuel response index timeout w).2.reads = w.reads ++ rs ∧
      (ESP8266_WaitForResponse_loop fuel response index timeout w).2.trace =
        w.trace ++ List.replicate (rs.count none) (Effect.delay 1) ∧
      ((ESP8266_WaitForResponse_loop fuel response index timeout w).1 = false →
        timeout + rs.count none = 1000) ∧
      ((ESP8266_WaitForResponse_loop fuel response index timeout w).1 = true →
        timeout + rs.count none < 1000) ∧
      rs.length ≤ waitBound timeout w := by
  induction fuel with
  | zero =>
    intro response index timeout w hok ht hb
    refine ⟨hok, [], ?_⟩
    simp only [waitBound, ESP8266_TIMEOUT] at hb
    simp [ESP8266_WaitForResponse_loop]
    omega
  | succ fuel ih =>
    intro response index timeout w hok ht hb
    by_cases hlt : timeout < 1000
    · rcases hrb : w.readByte with ⟨o, w1⟩
      have hf := readByte_fields w
      have hok1 := readByte_ok w hok
      rw [hrb] at hf hok1
      dsimp only at hf hok1
      cases o with
      | none =>
        have hm := readByte_none w w1 hok hrb
        have hb2 : waitBound (timeout + 1) (Delay_ms 1 w1) ≤ fuel := by
          simp only [waitBound, ESP8266_TIMEOUT, Delay_ms, World.pending] at hb ⊢
          simp only [World.pending] at hm
          omega
        obtain ⟨hokr, rs, hreads, htrace, hfalse, htrue, hlen⟩ :=
          ih response index (timeout + 1) (Delay_ms 1 w1) hok1 (by omega) hb2
        rw [wait_loop_none fuel response index timeout w w1 hlt hrb]
        refine ⟨hokr, none :: rs, ?_, ?_, ?_, ?_, ?_⟩
        · rw [hreads]; simp [Delay_ms, hf.2.1]
        · rw [htrace]
          simp [Delay_ms, hf.1, List.replicate_succ]
        · intro h; have := hfalse h; simp; omega
        · intro h; have := htrue h; simp; omega
        · simp only [waitBound, ESP8266_TIMEOUT, Delay_ms, World.pending, List.length_cons] at hlen hb ⊢
          simp only [World.pending] at hm
          omega
      | some d =>
        have hm := readByte_some w w1 d hok hrb
        rw [wait_loop_some fuel response index timeout d w w1 hlt hrb]
        by_cases hseen : tokenSeen (storeByte response index d) (nextIndex index)
        · rw [if_pos hseen]
          refine ⟨hok1, [some d], ?_, ?_, ?_, ?_, ?_⟩
          · simp [hf.2.1]
          · simp [hf.1]
          · intro h; cases h
          · intro _; simpa using hlt
          · simp only [waitBound, ESP8266_TIMEOUT, List.length_singleton]; omega
        · rw [if_neg hseen]
          have hb2 : waitBound timeout w1 ≤ fuel := by
            simp only [waitBound, ESP8266_TIMEOUT] at hb ⊢
            omega
          obtain ⟨hokr, rs, hreads, htrace, hfalse, htrue, hlen⟩ :=
            ih (storeByte response index d) (nextIndex index) timeout w1 hok1 ht hb2
          refine ⟨hokr, some d :: rs, ?_, ?_, ?_, ?_, ?_⟩
          · rw [hreads]; simp [hf.2.1]
          · rw [htrace]; simp [hf.1]
          · intro h; have := hfalse h; simpa using this
          · intro h; have := htrue h; simpa using this
          · simp only [waitBound, ESP8266_TIMEOUT, List.length_cons] at hlen ⊢
            omega
    · have : timeout = 1000 := by omega
      subst this
      rw [wait_loop_exit _ _ _ _ _ hlt]
      exact ⟨hok, [], by simp⟩
theorem wait_loop_fuel (fuel : Nat) : ∀ (fuel2 : Nat) (response : Nat → Nat)
    (index timeout : Nat) (w : World),
    w.ring.Ok → timeout ≤ 1000 → waitBound timeout w ≤ fuel → waitBound timeout w ≤ fuel2 →
    ESP8266_WaitForResponse_loop fuel2 response index timeout w =
      ESP8266_WaitForResponse_loop fuel response index timeout w := by
  induction fuel with
  | zero =>
    intro fuel2 response index timeout w _ ht hb _
    have hge : ¬ timeout < 1000 := by
      simp only [waitBound, ESP8266_TIMEOUT] at hb; omega
    rw [wait_loop_exit _ _ _ _ _ hge, wait_loop_exit _ _ _ _ _ hge]
  | succ fuel ih =>
    intro fuel2 response index timeout w hok ht hb hb2
    by_cases hlt : timeout < 1000
    · cases fuel2 with
      | zero => simp only [waitBound, ESP8266_TIMEOUT] at hb2; omega
      | succ fuel2 =>
        rcases hrb : w.readByte with ⟨o, w1⟩
        have hok1 := readByte_ok w hok
        rw [hrb] at hok1
        dsimp only at hok1
        cases o with
        | none =>
          have hm := readByte_none w w1 hok hrb
          rw [wait_loop_none _ _ _ _ _ _ hlt hrb, wait_loop_none _ _ _ _ _ _ hlt hrb]
          apply ih fuel2 response index (timeout + 1) (Delay_ms 1 w1) hok1 (by omega) <;>
          · simp only [waitBound, ESP8266_TIMEOUT, Delay_ms, World.pending] at hb hb2 hm ⊢
            omega
        | some d =>
          have hm := readByte_some w w1 d hok hrb
          rw [wait_loop_some _ _ _ _ _ _ _ hlt hrb, wait_loop_some _ _ _ _ _ _ _ hlt hrb]
          by_cases hseen : tokenSeen (storeByte response index d) (nextIndex index)
          · rw [if_pos hseen, if_pos hseen]
          · rw [if_neg hseen, if_neg hseen]
            apply ih fuel2 _ _ timeout w1 hok1 ht <;>
            · simp only [waitBound, ESP8266_TIMEOUT] at hb hb2 ⊢
              omega
    · rw [wait_loop_exit _ _ _ _ _ hlt, wait_loop_exit _ _ _ _ _ hlt]

theorem scanBytes_cons (d : Nat) (ds : List Nat) (response : Nat → Nat) (index : Nat) :
    scanBytes (d :: ds) response index =
      if tokenSeen (storeByte response index d) (nextIndex index) then true
      else scanBytes ds (storeByte response index d) (nextIndex index) := rfl

theorem contents_nil (s : Ring) (h : s.Ok) (he : s.head = s.tail) : s.contents = [] := by
  have := (count_eq_zero_iff s h).2 he
  simp [Ring.contents, this, cellsFrom]

theorem readByte_quiet (w : World) (hq : w.rx = []) :
    w.readByte = ((USART1_ReadByte w.ring).1,
      { w with ring := (USART1_ReadByte w.ring).2, reads := w.reads ++ [(USART1_ReadByte w.ring).1] }) := by
  simp [World.readByte, hq, pushAll]

/-- With nothing arriving, the loop answers what the scan of the stored bytes answers. -/
theorem wait_loop_quiet (fuel : Nat) : ∀ (response : Nat → Nat) (index timeout : Nat) (w : World),
    w.ring.Ok → w.rx = [] → timeout < 1000 → waitBound timeout w ≤ fuel →
    (ESP8266_WaitForResponse_loop fuel response index timeout w).1 =
      scanBytes w.ring.contents response index := by
  induction fuel with
  | zero =>
    intro response index timeout w _ _ hlt hb
    simp only [waitBound, ESP8266_TIMEOUT] at hb; omega
  | succ fuel ih =>
    intro response index timeout w hok hq hlt hb
    have hrq := readByte_quiet w hq
    rcases hrb : w.readByte with ⟨o, w1⟩
    rw [hrb] at hrq
    have ho : o = (USART1_ReadByte w.ring).1 := congrArg Prod.fst hrq
    have hw1 := congrArg Prod.snd hrq
    dsimp only at hw1
    have hq1 : w1.rx = [] := by rw [hw1]; exact hq
    have hring : w1.ring = (USART1_ReadByte w.ring).2 := by rw [hw1]
    have hp1 : w1.pending = 0 := by simp [World.pending, hq1]
    have hp : w.pending = 0 := by simp [World.pending, hq]
    by_cases he : w.ring.head = w.ring.tail
    · rw [read_empty _ he] at ho hring
      subst ho
      dsimp only at hring
      rw [wait_loop_none _ _ _ _ _ _ hlt hrb, contents_nil _ hok he]
      have hc := (count_eq_zero_iff _ hok).2 he
      have hok1 : (Delay_ms 1 w1).ring.Ok := by
        show w1.ring.Ok
        rw [hring]; exact hok
      by_cases hlt2 : timeout + 1 < 1000
      · rw [ih response index (timeout + 1) (Delay_ms 1 w1) hok1 hq1 hlt2]
        · show scanBytes w1.ring.contents response index = _
          rw [hring, contents_nil _ hok he]
        · simp only [waitBound, ESP8266_TIMEOUT, Delay_ms, World.pending] at hb hp1 ⊢
          rw [hring]
          simp only [World.pending] at hp
          omega
      · rw [wait_loop_exit _ _ _ _ _ hlt2]
        rfl
    · obtain ⟨b, hb1, hcont, hcnt, -⟩ := read_contents _ hok he
      rw [hb1] at ho
      subst ho
      rw [wait_loop_some _ _ _ _ _ _ _ hlt hrb, hcont, scanBytes_cons]
      by_cases hseen : tokenSeen (storeByte response index b) (nextIndex index)
      · rw [if_pos hseen, if_pos hseen]
      · rw [if_neg hseen, if_neg hseen, ← hring]
        apply ih _ _ _ w1 (by rw [hring]; exact read_ok _ hok) hq1 hlt
        simp only [waitBound, ESP8266_TIMEOUT] at hb ⊢
        rw [hring]
        omega

theorem wait_quiet (w : World) (hok : w.ring.Ok) (hq : w.rx = []) :
    (ESP8266_WaitForResponse w).1 = scanBytes w.ring.contents (fun _ => 0) 0 :=
  wait_loop_quiet _ _ _ _ w hok hq (by decide) (Nat.le_refl _)

/-- While the fill index cannot wrap, the scan finds exactly the adjacent pairs O, K; the
byte stored last counts as the byte before the first of the new ones. -/
theorem scanBytes_short (ds : List Nat) : ∀ (response : Nat → Nat) (index : Nat),
    index + ds.length ≤ 18 →
    (scanBytes ds response index = true ↔
      [79, 75] <:+: (if index ≥ 1 then [response (index - 1)] else []) ++ ds) := by
  induction ds with
  | nil =>
    intro response index _
    constructor
    · intro h; cases h
    · intro h
      have := h.length_le
      split at this <;> simp at this
  | cons d ds ih =>
    intro response index hlen
    simp only [List.length_cons] at hlen
    have hnext : nextIndex index = index + 1 := by
      unfold nextIndex
      have : (index + 1) % 256 = index + 1 := by omega
      rw [this, if_neg (by omega)]
    have hrec := ih (storeByte response index d) (index + 1) (by omega)
    have hlast : storeByte response index d (index + 1 - 1) = d := by
      simp [storeByte]
    rw [if_pos (by omega), hlast] at hrec
    rw [scanBytes_cons, hnext]
    by_cases hseen : tokenSeen (storeByte response index d) (index + 1)
    · rw [if_pos hseen]
      obtain ⟨h2, hO, hK⟩ := hseen
      have hO2 : response (index - 1) = 79 := by
        have hne : index + 1 - 2 ≠ index := by omega
        simp only [storeByte, hne, if_false] at hO
        rw [← hO]; congr 1
      have hK2 : d = 75 := by rw [← hK]; simp [storeByte]
      rw [if_pos (by omega), hO2, hK2]
      exact iff_of_true rfl (List.IsPrefix.isInfix (by simp))
    · rw [if_neg hseen, hrec]
      by_cases hi : index ≥ 1
      · rw [if_pos hi]
        show _ ↔ [79, 75] <:+: response (index - 1) :: d :: ds
        rw [List.infix_cons_iff]
        constructor
        · exact fun h => Or.inr h
        · rintro (h | h)
          · exfalso
            apply hseen
            have hh : response (index - 1) = 79 ∧ d = 75 := by
              simpa [eq_comm] using h
            refine ⟨by omega, ?_, ?_⟩
            · have hne : index + 1 - 2 ≠ index := by omega
              simp only [storeByte, hne, if_false]
              rw [← hh.1]; congr 1
            · simp [storeByte, hh.2]
          · exact h
      · rw [if_neg hi]
        rfl

theorem worldWith_ring (stream : List Nat) (h : stream.length ≤ 255) :
    (worldWith stream).ring.Ok ∧ (worldWith stream).ring.contents = stream.map (· % 256) := by
  have := pushAll_contents stream Ring.empty (by decide) (by rw [empty_count]; omega)
  have hr : (worldWith stream).ring = pushAll stream Ring.empty := rfl
  rw [hr]
  exact ⟨this.1, by rw [this.2.1]; rfl⟩

/-! ## The token scanner: claims -/

/-- C4, as stated, fails: a stream of 19 bytes that ends in O, K and a stream of 20 bytes
that ends in O, K are both within the 20 bytes of the claim and both contain the token, and
`ESP8266_WaitForResponse` returns 0 on each. -/
theorem C4_ok_anywhere_in_20_counterexample :
    ((List.replicate 17 65 ++ [79, 75]).length ≤ 20 ∧
      [79, 75] <:+: (worldWith (List.replicate 17 65 ++ [79, 75])).ring.contents ∧
      (ESP8266_WaitForResponse (worldWith (List.replicate 17 65 ++ [79, 75]))).1 = false) ∧
    ((List.replicate 18 65 ++ [79, 75]).length ≤ 20 ∧
      [79, 75] <:+: (worldWith (List.replicate 18 65 ++ [79, 75])).ring.contents ∧
      (ESP8266_WaitForResponse (worldWith (List.replicate 18 65 ++ [79, 75]))).1 = false) := by
  have h19 := worldWith_ring (List.replicate 17 65 ++ [79, 75]) (by decide)
  have h20 := worldWith_ring (List.replicate 18 65 ++ [79, 75]) (by decide)
  refine ⟨⟨by decide, ?_, ?_⟩, ⟨by decide, ?_, ?_⟩⟩
  · rw [h19.2]; exact ⟨List.replicate 17 65, [], by decide⟩
  · rw [wait_quiet _ h19.1 rfl, h19.2]; decide
  · rw [h20.2]; exact ⟨List.replicate 18 65, [], by decide⟩
  · rw [wait_quiet _ h20.1 rfl, h20.2]; decide

/-- C4, amended: when the channel stores a stream of at most 18 bytes and nothing more
arrives, `ESP8266_WaitForResponse` returns 1 if and only if the stream contains O immediately
followed by K, at any position. -/
theorem C4_ok_anywhere_in_18 (w : World) (hok : w.ring.Ok) (hq : w.rx = [])
    (hlen : w.ring.contents.length ≤ 18) :
    (ESP8266_WaitForResponse w).1 = true ↔ [79, 75] <:+: w.ring.contents := by
  rw [wait_quiet w hok hq]
  have := scanBytes_short w.ring.contents (fun _ => 0) 0 (by omega)
  simpa using this

/-- C4, amended, at a concrete stream: the reply to the first command, 10 bytes. -/
theorem C4_ok_anywhere_in_18_witness :
    (worldWith (ascii "AT\r\n\r\nOK\r\n")).ring.Ok ∧
      (worldWith (ascii "AT\r\n\r\nOK\r\n")).rx = [] ∧
      (worldWith (ascii "AT\r\n\r\nOK\r\n")).ring.contents.length ≤ 18 ∧
      ((ESP8266_WaitForResponse (worldWith (ascii "AT\r\n\r\nOK\r\n"))).1 = true ↔
        [79, 75] <:+: (worldWith (ascii "AT\r\n\r\nOK\r\n")).ring.contents) :=
  have hok := (worldWith_ring (ascii "AT\r\n\r\nOK\r\n") (by decide)).1
  have hlen : (worldWith (ascii "AT\r\n\r\nOK\r\n")).ring.contents.length ≤ 18 := by
    rw [(worldWith_ring _ (by decide)).2]; decide
  ⟨hok, rfl, hlen, C4_ok_anywhere_in_18 (worldWith (ascii "AT\r\n\r\nOK\r\n")) hok rfl hlen⟩

/-- C5: `ESP8266_WaitForResponse` terminates: every amount of fuel from the bound on gives
the same result.  With `n` bytes stored or still to arrive it makes at most `n + 1000` loop
iterations (one `USART1_ReadByte` call each); it sleeps 1 ms once per empty poll and at no
other time, at most 1000 times; it returns 0 exactly when it has counted 1000 empty polls;
and on a channel that is empty from the start and stays empty it returns 0 after exactly
1000 polls, all empty. -/
theorem C5_wait_terminates (w : World) (hok : w.ring.Ok) :
    (∀ fuel, waitBound 0 w ≤ fuel →
      ESP8266_WaitForResponse_loop fuel (fun _ => 0) 0 0 w = ESP8266_WaitForResponse w) ∧
    ∃ rs : List (Option Nat),
      (ESP8266_WaitForResponse w).2.reads = w.reads ++ rs ∧
      (ESP8266_WaitForResponse w).2.trace =
        w.trace ++ List.replicate (rs.count none) (Effect.delay 1) ∧
      rs.length ≤ (w.ring.count + w.pending) + 1000 ∧
      rs.count none ≤ 1000 ∧
      ((ESP8266_WaitForResponse w).1 = false ↔ rs.count none = 1000) ∧
      (w.ring.count = 0 → w.rx = [] →
        (ESP8266_WaitForResponse w).1 = false ∧ rs = List.replicate 1000 none) := by
  constructor
  · intro fuel hfuel
    exact wait_loop_fuel (waitBound 0 w) fuel _ 0 0 w hok (by decide) (Nat.le_refl _) hfuel
  · obtain ⟨-, rs, hreads, htrace, hfalse, htrue, hlen⟩ :=
      wait_loop_spec (waitBound 0 w) (fun _ => 0) 0 0 w hok (by decide) (Nat.le_refl _)
    have hlen2 : rs.length ≤ (w.ring.count + w.pending) + 1000 := by
      simpa [waitBound, ESP8266_TIMEOUT] using hlen
    have hiff : (ESP8266_WaitForResponse w).1 = false ↔ rs.count none = 1000 := by
      constructor
      · intro h; have := hfalse h; omega
      · intro h
        cases hr : (ESP8266_WaitForResponse w).1 with
        | false => rfl
        | true => have := htrue hr; omega
    have hle : rs.count none ≤ 1000 := by
      cases hr : (ESP8266_WaitForResponse w).1 with
      | false => have := hfalse hr; omega
      | true => have := htrue hr; omega
    refine ⟨rs, hreads, htrace, hlen2, hle, hiff, ?_⟩
    intro hc hq
    have hres : (ESP8266_WaitForResponse w).1 = false := by
      rw [wait_quiet w hok hq, contents_nil _ hok ((count_eq_zero_iff _ hok).1 hc)]
      rfl
    refine ⟨hres, ?_⟩
    have hp : w.pending = 0 := by simp [World.pending, hq]
    have hcount := hiff.1 hres
    have hcl : rs.count none ≤ rs.length := List.count_le_length _ _
    have hlen3 : rs.length = 1000 := by omega
    rw [List.eq_replicate_iff]
    refine ⟨hlen3, fun b hb => ?_⟩
    have := (List.count_eq_length.1 (by omega : rs.count none = rs.length)) b hb
    exact this.symm

/-- C5 at a concrete world: two bytes stored, nothing arriving. -/
theorem C5_wait_terminates_witness :
    (worldWith [65, 84]).ring.Ok ∧
      ∀ fuel, waitBound 0 (worldWith [65, 84]) ≤ fuel →
        ESP8266_WaitForResponse_loop fuel (fun _ => 0) 0 0 (worldWith [65, 84]) =
          ESP8266_WaitForResponse (worldWith [65, 84]) :=
  ⟨(worldWith_ring _ (by decide)).1,
    (C5_wait_terminates (worldWith [65, 84]) (worldWith_ring _ (by decide)).1).1⟩

/-! ## Sequencer lemmas -/

/-- The loop adds nothing to the trace but its 1 ms sleeps. -/
theorem wait_loop_trace (fuel : Nat) : ∀ (response : Nat → Nat) (index timeout : Nat) (w : World),
    ∃ n, (ESP8266_WaitForResponse_loop fuel response index timeout w).2.trace =
      w.trace ++ List.replicate n (Effect.delay 1) := by
  induction fuel with
  | zero => intro _ _ _ w; exact ⟨0, by simp [ESP8266_WaitForResponse_loop]⟩
  | succ fuel ih =>
    intro response index timeout w
    by_cases hlt : timeout < 1000
    · rcases hrb : w.readByte with ⟨o, w1⟩
      have ht : w1.trace = w.trace := by
        have := (readByte_fields w).1
        rw [hrb] at this
        exact this
      cases o with
      | none =>
        rw [wait_loop_none _ _ _ _ _ _ hlt hrb]
        obtain ⟨n, hn⟩ := ih response index (timeout + 1) (Delay_ms 1 w1)
        refine ⟨n + 1, ?_⟩
        rw [hn]
        simp [Delay_ms, ht, List.replicate_succ]
      | some d =>
        rw [wait_loop_some _ _ _ _ _ _ _ hlt hrb]
        by_cases hseen : tokenSeen (storeByte response index d) (nextIndex index)
        · rw [if_pos hseen]
          exact ⟨0, by simp [ht]⟩
        · rw [if_neg hseen]
          obtain ⟨n, hn⟩ := ih (storeByte response index d) (nextIndex index) timeout w1
          exact ⟨n, by rw [hn, ht]⟩
    · rw [wait_loop_exit _ _ _ _ _ hlt]
      exact ⟨0, by simp⟩

theorem visible_append (a b : List Effect) : visible (a ++ b) = visible a ++ visible b := by
  simp [visible]

theorem visible_sleeps (n : Nat) : visible (List.replicate n (Effect.delay 1)) = [] := by
  simp [visible]

/-- One step adds its command and the settle delay, then only sleeps. -/
theorem step_trace (cmdIndex : Nat) (w : World) :
    ∃ n, (ESP8266_Init_step cmdIndex w).2.trace =
      w.trace ++ [Effect.write (commands.getD cmdIndex []), Effect.delay 1000] ++
        List.replicate n (Effect.delay 1) := by
  obtain ⟨n, hn⟩ := wait_loop_trace
    (waitBound 0 (Delay_ms 1000 (printf (commands.getD cmdIndex []) w))) (fun _ => 0) 0 0
    (Delay_ms 1000 (printf (commands.getD cmdIndex []) w))
  refine ⟨n, ?_⟩
  unfold ESP8266_Init_step ESP8266_WaitForResponse
  rw [hn]
  simp [Delay_ms, printf]

theorem step_visible (cmdIndex : Nat) (w : World) :
    visible (ESP8266_Init_step cmdIndex w).2.trace =
      visible w.trace ++ [Effect.write (commands.getD cmdIndex []), Effect.delay 1000] := by
  obtain ⟨n, hn⟩ := step_trace cmdIndex w
  rw [hn, visible_append, visible_append, visible_sleeps]
  simp [visible]

theorem afterSteps_visible (n : Nat) : ∀ (cmdIndex : Nat) (w : World),
    visible (afterSteps n cmdIndex w).trace =
      visible w.trace ++ (List.range' cmdIndex n).flatMap
        (fun j => [Effect.write (commands.getD j []), Effect.delay 1000]) := by
  induction n with
  | zero => intro _ _; simp [afterSteps]
  | succ n ih =>
    intro cmdIndex w
    rw [afterSteps, ih, step_visible]
    simp [List.range'_succ]

theorem inner_success (n : Nat) : ∀ (fuel cmdIndex : Nat) (w : World),
    cmdIndex + n = 4 → n ≤ fuel → waitsSucceed n cmdIndex w = true →
    ESP8266_Init_inner fuel cmdIndex w = (true, 4, afterSteps n cmdIndex w) := by
  induction n with
  | zero =>
    intro fuel cmdIndex w hi _ _
    have : cmdIndex = 4 := by omega
    subst this
    cases fuel <;> simp [ESP8266_Init_inner, afterSteps, cmdCount]
  | succ n ih =>
    intro fuel cmdIndex w hi hf hs
    cases fuel with
    | zero => omega
    | succ fuel =>
      simp only [waitsSucceed, Bool.and_eq_true] at hs
      have hlt : cmdIndex < cmdCount := by unfold cmdCount; omega
      have hsplit : ESP8266_Init_step cmdIndex w = (true, (ESP8266_Init_step cmdIndex w).2) := by
        rw [← hs.1]
      rw [ESP8266_Init_inner, if_pos hlt, hsplit]
      exact ih fuel (cmdIndex + 1) _ (by omega) (by omega) hs.2

theorem inner_failure (n : Nat) : ∀ (fuel cmdIndex : Nat) (w : World),
    cmdIndex + n < 4 → n < fuel → waitsSucceed n cmdIndex w = true →
    (ESP8266_Init_step (cmdIndex + n) (afterSteps n cmdIndex w)).1 = false →
    ESP8266_Init_inner fuel cmdIndex w =
      (false, cmdIndex + n, (ESP8266_Init_step (cmdIndex + n) (afterSteps n cmdIndex w)).2) := by
  induction n with
  | zero =>
    intro fuel cmdIndex w hi hf _ hfail
    cases fuel with
    | zero => omega
    | succ fuel =>
      have hlt : cmdIndex < cmdCount := by unfold cmdCount; omega
      simp only [afterSteps, Nat.add_zero] at hfail ⊢
      have hsplit : ESP8266_Init_step cmdIndex w = (false, (ESP8266_Init_step cmdIndex w).2) := by
        rw [← hfail]
      rw [ESP8266_Init_inner, if_pos hlt, hsplit]
  | succ n ih =>
    intro fuel cmdIndex w hi hf hs hfail
    cases fuel with
    | zero => omega
    | succ fuel =>
      simp only [waitsSucceed, Bool.and_eq_true] at hs
      have hlt : cmdIndex < cmdCount := by unfold cmdCount; omega
      have hsplit : ESP8266_Init_step cmdIndex w = (true, (ESP8266_Init_step cmdIndex w).2) := by
        rw [← hs.1]
      have hidx : cmdIndex + (n + 1) = cmdIndex + 1 + n := by omega
      rw [ESP8266_Init_inner, if_pos hlt, hsplit]
      simp only [afterSteps, hidx] at hfail ⊢
      exact ih fuel (cmdIndex + 1) _ (by omega) (by omega) hs.2 hfail

theorem attempt_failure (k : Nat) (w : World) (hk1 : 1 ≤ k) (hk4 : k ≤ 4)
    (h : attemptFailsAt k w = true) :
    ESP8266_Init_inner cmdCount 0 w =
      (false, k - 1, (ESP8266_Init_step (k - 1) (afterSteps (k - 1) 0 w)).2) := by
  simp only [attemptFailsAt, Bool.and_eq_true, Bool.not_eq_true'] at h
  have := inner_failure (k - 1) cmdCount 0 w (by omega) (by unfold cmdCount; omega) h.1
    (by simpa using h.2)
  simpa using this

theorem outer_failures (k : Nat) (hk1 : 1 ≤ k) (hk4 : k ≤ 4) (n : Nat) :
    ∀ (fuel retryCount : Nat) (w : World),
    retryCount + n = 3 → n ≤ fuel → attemptsFailAt k n w = true →
    ESP8266_Init_outer fuel retryCount false w = (3, false, (afterFailedAttempt k)^[n] w) := by
  induction n with
  | zero =>
    intro fuel retryCount w hr _ _
    have : retryCount = 3 := by omega
    subst this
    cases fuel <;> simp [ESP8266_Init_outer, ESP8266_MAX_RETRIES]
  | succ n ih =>
    intro fuel retryCount w hr hf h
    cases fuel with
    | zero => omega
    | succ fuel =>
      simp only [attemptsFailAt, Bool.and_eq_true] at h
      have hcond : retryCount < ESP8266_MAX_RETRIES ∧ false = false :=
        ⟨by unfold ESP8266_MAX_RETRIES; omega, rfl⟩
      rw [ESP8266_Init_outer, if_pos hcond, attempt_failure k w hk1 hk4 h.1]
      rw [Function.iterate_succ_apply]
      exact ih fuel (retryCount + 1) _ (by omega) (by omega) h.2

theorem failedAttempt_visible (k : Nat) (w : World) (hk1 : 1 ≤ k) (hk4 : k ≤ 4) :
    visible (afterFailedAttempt k w).trace = visible w.trace ++ failedAttemptTrace k := by
  unfold afterFailedAttempt
  show visible ((ESP8266_Init_step (k - 1) (afterSteps (k - 1) 0 w)).2.trace ++
    [Effect.delay 2000]) = _
  rw [visible_append, step_visible, afterSteps_visible]
  have hk : k = 1 ∨ k = 2 ∨ k = 3 ∨ k = 4 := by omega
  rcases hk with rfl | rfl | rfl | rfl <;>
    simp [failedAttemptTrace, commands, visible, List.range'_succ]

/-! ## The command sequencer and the link supervisor: claims -/

/-- C6: if in each of the first three attempts the waits of the steps before step `k` see the
token and the wait of step `k` times out, `ESP8266_Init` makes exactly three attempts and
ends with `retryCount = 3` and `success = 0`; each attempt starts again at the first command
and writes exactly the first `k` commands, in order, each followed by the 1000 ms settle
delay, and is followed by the 2000 ms backoff delay. -/
theorem C6_three_failed_attempts (k : Nat) (w : World) (hk1 : 1 ≤ k) (hk4 : k ≤ 4)
    (h : attemptsFailAt k 3 (clearRx w) = true) :
    ESP8266_Init_run w = (3, false,
      afterFailedAttempt k (afterFailedAttempt k (afterFailedAttempt k (clearRx w)))) ∧
    visible (ESP8266_Init w).trace =
      visible w.trace ++
        (failedAttemptTrace k ++ failedAttemptTrace k ++ failedAttemptTrace k) := by
  have hrun : ESP8266_Init_run w = (3, false,
      afterFailedAttempt k (afterFailedAttempt k (afterFailedAttempt k (clearRx w)))) := by
    have := outer_failures k hk1 hk4 3 ESP8266_MAX_RETRIES 0 (clearRx w) (by decide)
      (by decide) h
    simpa [ESP8266_Init_run] using this
  refine ⟨hrun, ?_⟩
  unfold ESP8266_Init
  rw [hrun]
  dsimp only
  rw [failedAttempt_visible k _ hk1 hk4, failedAttempt_visible k _ hk1 hk4,
    failedAttempt_visible k _ hk1 hk4]
  simp [clearRx]

/-! ## Two concrete line behaviours: a reply with the token, and silence -/

theorem readByte_silent (w : World) (rest : List (List Nat)) (hi : Idle w)
    (hrx : w.rx = [] :: rest) :
    w.readByte = (none, { w with rx := rest, reads := w.reads ++ [none] }) := by
  unfold World.readByte
  rw [hrx]
  simp only [List.headD_cons, List.tail_cons, pushAll, List.foldl_nil]
  rw [read_empty _ hi.2]

theorem wait_loop_silence (m : Nat) : ∀ (fuel : Nat) (response : Nat → Nat)
    (index timeout : Nat) (w : World) (rest : List (List Nat)),
    Idle w → w.rx = List.replicate m [] ++ rest → timeout + m = 1000 → m ≤ fuel →
    (ESP8266_WaitForResponse_loop fuel response index timeout w).1 = false ∧
      Idle (ESP8266_WaitForResponse_loop fuel response index timeout w).2 ∧
      (ESP8266_WaitForResponse_loop fuel response index timeout w).2.rx = rest := by
  induction m with
  | zero =>
    intro fuel response index timeout w rest hi hrx ht _
    rw [wait_loop_exit _ _ _ _ _ (by omega)]
    exact ⟨rfl, hi, by simpa using hrx⟩
  | succ m ih =>
    intro fuel response index timeout w rest hi hrx ht hf
    cases fuel with
    | zero => omega
    | succ fuel =>
      have hrx2 : w.rx = [] :: (List.replicate m [] ++ rest) := by
        rw [hrx, List.replicate_succ]; rfl
      rw [wait_loop_none _ _ _ _ _ _ (by omega) (readByte_silent w _ hi hrx2)]
      exact ih fuel response index (timeout + 1) _ rest hi rfl (by omega) (by omega)

theorem wait_silence (w : World) (rest : List (List Nat)) (hi : Idle w)
    (hrx : w.rx = List.replicate 1000 [] ++ rest) :
    (ESP8266_WaitForResponse w).1 = false ∧ Idle (ESP8266_WaitForResponse w).2 ∧
      (ESP8266_WaitForResponse w).2.rx = rest :=
  wait_loop_silence 1000 _ _ 0 0 w rest hi hrx rfl
    (by simp only [waitBound, ESP8266_TIMEOUT]; omega)

theorem wait_reply (w : World) (rest : List (List Nat)) (hi : Idle w)
    (hrx : w.rx = [79, 75] :: [] :: rest) :
    (ESP8266_WaitForResponse w).1 = true ∧ Idle (ESP8266_WaitForResponse w).2 ∧
      (ESP8266_WaitForResponse w).2.rx = rest := by
  have hc0 : w.ring.count = 0 := (count_eq_zero_iff _ hi.1).2 hi.2
  obtain ⟨hok1, hcont1, hcnt1⟩ := pushAll_contents [79, 75] w.ring hi.1 (by rw [hc0]; decide)
  rw [contents_nil _ hi.1 hi.2] at hcont1
  have hne1 : (pushAll [79, 75] w.ring).head ≠ (pushAll [79, 75] w.ring).tail := by
    intro he
    have := (count_eq_zero_iff _ hok1).2 he
    rw [hcnt1] at this
    simp at this
  obtain ⟨b1, hb1, hcb1, hcn1, -⟩ := read_contents _ hok1 hne1
  rw [hcont1] at hcb1
  have hb1v : b1 = 79 := by
    have := congrArg List.head? hcb1
    simpa using this.symm
  have hrest1 : (USART1_ReadByte (pushAll [79, 75] w.ring)).2.contents = [75] := by
    have := congrArg List.tail hcb1
    simpa using this.symm
  have hokr1 := read_ok _ hok1
  have hne2 : (USART1_ReadByte (pushAll [79, 75] w.ring)).2.head ≠
      (USART1_ReadByte (pushAll [79, 75] w.ring)).2.tail := by
    intro he
    rw [contents_nil _ hokr1 he] at hrest1
    cases hrest1
  obtain ⟨b2, hb2, hcb2, hcn2, -⟩ := read_contents _ hokr1 hne2
  rw [hrest1] at hcb2
  have hb2v : b2 = 75 := by
    have := congrArg List.head? hcb2
    simpa using this.symm
  have hrest2 : (USART1_ReadByte (USART1_ReadByte (pushAll [79, 75] w.ring)).2).2.contents = [] := by
    have := congrArg List.tail hcb2
    simpa using this.symm
  have hokr2 := read_ok _ hokr1
  have hidle2 : (USART1_ReadByte (USART1_ReadByte (pushAll [79, 75] w.ring)).2).2.head =
      (USART1_ReadByte (USART1_ReadByte (pushAll [79, 75] w.ring)).2).2.tail := by
    apply (count_eq_zero_iff _ hokr2).1
    rw [← Ring.contents_length, hrest2]; rfl
  subst hb1v hb2v
  -- the two iterations
  have hr1 : w.readByte = (some 79,
      { w with ring := (USART1_ReadByte (pushAll [79, 75] w.ring)).2, rx := [] :: rest,
               reads := w.reads ++ [some 79] }) := by
    unfold World.readByte
    rw [hrx]
    simp only [List.headD_cons, List.tail_cons, hb1]
  have hr2 : World.readByte
      { w with ring := (USART1_ReadByte (pushAll [79, 75] w.ring)).2, rx := [] :: rest,
               reads := w.reads ++ [some 79] } = (some 75,
      { w with ring := (USART1_ReadByte (USART1_ReadByte (pushAll [79, 75] w.ring)).2).2,
               rx := rest, reads := w.reads ++ [some 79] ++ [some 75] }) := by
    unfold World.readByte
    simp only [List.headD_cons, List.tail_cons, pushAll, List.foldl_nil]
    rw [show pushAll [79, 75] w.ring = List.foldl (fun r d => USART1_IRQHandler true d r) w.ring
      [79, 75] from rfl] at hb2
    simp only [hb2]
  have hfuel : ∃ f, waitBound 0 w = f + 2 := by
    refine ⟨w.ring.count + (rest.map List.length).sum + 1000, ?_⟩
    simp only [waitBound, ESP8266_TIMEOUT, World.pending, hrx]
    simp
    omega
  obtain ⟨f, hf⟩ := hfuel
  unfold ESP8266_WaitForResponse
  rw [hf, wait_loop_some _ _ _ _ _ _ _ (by decide) hr1,
    if_neg (by decide), wait_loop_some _ _ _ _ _ _ _ (by decide) hr2, if_pos (by decide)]
  exact ⟨rfl, ⟨hokr2, hidle2⟩, rfl⟩

theorem step_reply (cmdIndex : Nat) (w : World) (rest : List (List Nat)) (hi : Idle w)
    (hrx : w.rx = [79, 75] :: [] :: rest) :
    (ESP8266_Init_step cmdIndex w).1 = true ∧ Idle (ESP8266_Init_step cmdIndex w).2 ∧
      (ESP8266_Init_step cmdIndex w).2.rx = rest :=
  wait_reply (Delay_ms 1000 (printf (commands.getD cmdIndex []) w)) rest hi hrx

theorem step_silence (cmdIndex : Nat) (w : World) (rest : List (List Nat)) (hi : Idle w)
    (hrx : w.rx = List.replicate 1000 [] ++ rest) :
    (ESP8266_Init_step cmdIndex w).1 = false ∧ Idle (ESP8266_Init_step cmdIndex w).2 ∧
      (ESP8266_Init_step cmdIndex w).2.rx = rest :=
  wait_silence (Delay_ms 1000 (printf (commands.getD cmdIndex []) w)) rest hi hrx

/-- An attempt on a line that replies to the first command only fails at the second step. -/
theorem stalled_attempt (w : World) (rest : List (List Nat)) (hi : Idle w)
    (hrx : w.rx = stallReply ++ rest) :
    attemptFailsAt 2 w = true ∧ Idle (afterFailedAttempt 2 w) ∧
      (afterFailedAttempt 2 w).rx = rest := by
  obtain ⟨h1, hi1, hrx1⟩ := step_reply 0 w (List.replicate 1000 [] ++ rest) hi
    (by rw [hrx]; rfl)
  obtain ⟨h2, hi2, hrx2⟩ := step_silence 1 (ESP8266_Init_step 0 w).2 rest hi1 hrx1
  refine ⟨?_, hi2, hrx2⟩
  simp only [attemptFailsAt, waitsSucceed, afterSteps, h1, h2]
  rfl

theorem stallAtStep2_fails : attemptsFailAt 2 3 (clearRx stallAtStep2) = true := by
  have hi0 : Idle (clearRx stallAtStep2) := ⟨by decide, rfl⟩
  obtain ⟨h1, hi1, hrx1⟩ := stalled_attempt (clearRx stallAtStep2) _ hi0 rfl
  obtain ⟨h2, hi2, hrx2⟩ := stalled_attempt _ _ hi1 hrx1
  obtain ⟨h3, -, -⟩ := stalled_attempt _ _ hi2 hrx2
  simp only [attemptsFailAt, h1, h2, h3]
  rfl

/-- C6 on a line where the modem answers the first command of every attempt and never the
second (the instance of the spec): three attempts, each writing the first two commands. -/
theorem C6_three_failed_attempts_witness :
    1 ≤ 2 ∧ 2 ≤ 4 ∧ attemptsFailAt 2 3 (clearRx stallAtStep2) = true ∧
      (ESP8266_Init_run stallAtStep2).1 = 3 ∧ (ESP8266_Init_run stallAtStep2).2.1 = false ∧
      visible (ESP8266_Init stallAtStep2).trace =
        visible stallAtStep2.trace ++
          (failedAttemptTrace 2 ++ failedAttemptTrace 2 ++ failedAttemptTrace 2) :=
  have h := C6_three_failed_attempts 2 stallAtStep2 (by decide) (by decide) stallAtStep2_fails
  ⟨by decide, by decide, stallAtStep2_fails, by rw [h.1], by rw [h.1], h.2⟩

theorem inner_trace_extends (fuel : Nat) : ∀ (cmdIndex : Nat) (w : World),
    ∃ t, (ESP8266_Init_inner fuel cmdIndex w).2.2.trace = w.trace ++ t := by
  induction fuel with
  | zero => intro _ w; exact ⟨[], by simp [ESP8266_Init_inner]⟩
  | succ fuel ih =>
    intro cmdIndex w
    by_cases hlt : cmdIndex < cmdCount
    · obtain ⟨n, hn⟩ := step_trace cmdIndex w
      rcases hs : ESP8266_Init_step cmdIndex w with ⟨b, w1⟩
      rw [hs] at hn
      dsimp only at hn
      cases b with
      | false =>
        rw [ESP8266_Init_inner, if_pos hlt, hs]
        exact ⟨_, by rw [hn, List.append_assoc]⟩
      | true =>
        rw [ESP8266_Init_inner, if_pos hlt, hs]
        obtain ⟨t, ht⟩ := ih (cmdIndex + 1) w1
        exact ⟨_, by rw [ht, hn, List.append_assoc, List.append_assoc]⟩
    · rw [ESP8266_Init_inner, if_neg hlt]
      exact ⟨[], by simp⟩

theorem inner_first_step (fuel : Nat) (w : World) :
    ∃ t, (ESP8266_Init_inner (fuel + 1) 0 w).2.2.trace =
      w.trace ++ [Effect.write (ascii "AT\r\n"), Effect.delay 1000] ++ t := by
  obtain ⟨n, hn⟩ := step_trace 0 w
  rcases hs : ESP8266_Init_step 0 w with ⟨b, w1⟩
  rw [hs] at hn
  dsimp only at hn
  have hc : commands.getD 0 [] = ascii "AT\r\n" := rfl
  rw [hc] at hn
  cases b with
  | false =>
    rw [ESP8266_Init_inner, if_pos (by decide), hs]
    exact ⟨_, hn⟩
  | true =>
    rw [ESP8266_Init_inner, if_pos (by decide), hs]
    obtain ⟨t, ht⟩ := inner_trace_extends fuel 1 w1
    exact ⟨_, by rw [ht, hn, List.append_assoc]⟩

theorem outer_trace_extends (fuel : Nat) : ∀ (retryCount : Nat) (success : Bool) (w : World),
    ∃ t, (ESP8266_Init_outer fuel retryCount success w).2.2.trace = w.trace ++ t := by
  induction fuel with
  | zero => intro _ _ w; exact ⟨[], by simp [ESP8266_Init_outer]⟩
  | succ fuel ih =>
    intro retryCount success w
    by_cases hc : retryCount < ESP8266_MAX_RETRIES ∧ success = false
    · obtain ⟨t1, ht1⟩ := inner_trace_extends cmdCount 0 w
      rcases hs : ESP8266_Init_inner cmdCount 0 w with ⟨b, i, w1⟩
      rw [hs] at ht1
      dsimp only at ht1
      cases b with
      | false =>
        rw [ESP8266_Init_outer, if_pos hc, hs]
        obtain ⟨t, ht⟩ := ih (retryCount + 1) false (Delay_ms 2000 w1)
        exact ⟨t1 ++ ([Effect.delay 2000] ++ t),
          by rw [ht]; simp only [Delay_ms, ht1, List.append_assoc]⟩
      | true =>
        rw [ESP8266_Init_outer, if_pos hc, hs]
        obtain ⟨t, ht⟩ := ih retryCount true w1
        exact ⟨_, by rw [ht, ht1, List.append_assoc]⟩
    · rw [ESP8266_Init_outer, if_neg hc]
      exact ⟨[], by simp⟩

/-- The startup sequence only adds to the trace, and what it adds begins with the first
command and its settle delay. -/
theorem init_trace (w : World) :
    ∃ t, (ESP8266_Init w).trace =
      w.trace ++ [Effect.write (ascii "AT\r\n"), Effect.delay 1000] ++ t := by
  obtain ⟨t1, ht1⟩ := inner_first_step 3 (clearRx w)
  unfold ESP8266_Init ESP8266_Init_run
  rw [show ESP8266_MAX_RETRIES = 2 + 1 from rfl, ESP8266_Init_outer, if_pos ⟨by decide, rfl⟩]
  rw [show cmdCount = 3 + 1 from rfl]
  rcases hs : ESP8266_Init_inner (3 + 1) 0 (clearRx w) with ⟨b, i, w1⟩
  rw [hs] at ht1
  dsimp only at ht1
  cases b with
  | false =>
    obtain ⟨t, ht⟩ := outer_trace_extends 2 (0 + 1) false (Delay_ms 2000 w1)
    exact ⟨t1 ++ ([Effect.delay 2000] ++ t),
      by rw [ht]; simp only [Delay_ms, ht1, List.append_assoc]; rfl⟩
  | true =>
    obtain ⟨t, ht⟩ := outer_trace_extends 2 0 true w1
    exact ⟨t1 ++ t, by rw [ht, ht1, List.append_assoc]; rfl⟩

/-- C8: from every prior state, `ESP8266_Restart` is one execution of `ESP8266_Init` in the
state that differs from the prior one by exactly four trace entries: write "+++", delay
500 ms, write "AT+RST\r\n", delay 3000 ms.  Its trace is the prior trace, these four entries,
then what the startup sequence adds, which begins with the first command "AT\r\n" and its
settle delay. -/
theorem C8_restart_runs_startup_once (w : World) :
    ESP8266_Restart w =
      ESP8266_Init { w with trace := w.trace ++
        [ Effect.write (ascii "+++"), Effect.delay 500,
          Effect.write (ascii "AT+RST\r\n"), Effect.delay 3000 ] } ∧
    ∃ t, (ESP8266_Restart w).trace =
      w.trace ++
        [ Effect.write (ascii "+++"), Effect.delay 500,
          Effect.write (ascii "AT+RST\r\n"), Effect.delay 3000 ] ++
        [ Effect.write (ascii "AT\r\n"), Effect.delay 1000 ] ++ t := by
  have heq : ESP8266_Restart w =
      ESP8266_Init { w with trace := w.trace ++
        [ Effect.write (ascii "+++"), Effect.delay 500,
          Effect.write (ascii "AT+RST\r\n"), Effect.delay 3000 ] } := by
    unfold ESP8266_Restart
    congr 1
    simp [Delay_ms, printf]
  refine ⟨heq, ?_⟩
  rw [heq]
  obtain ⟨t, ht⟩ := init_trace { w with trace := w.trace ++
        [ Effect.write (ascii "+++"), Effect.delay 500,
          Effect.write (ascii "AT+RST\r\n"), Effect.delay 3000 ] }
  exact ⟨t, ht⟩

/-! ## Request writer lemmas -/

theorem decDigits_acc (fuel : Nat) : ∀ (n : Nat) (acc : List Nat),
    decDigits fuel n acc = decDigits fuel n [] ++ acc := by
  induction fuel with
  | zero => intro _ _; rfl
  | succ fuel ih =>
    intro n acc
    by_cases h : n < 10
    · simp [decDigits, h]
    · simp only [decDigits, h, if_false]
      rw [ih (n / 10) ((48 + n % 10) :: acc), ih (n / 10) [48 + n % 10]]
      simp

theorem decDigits_step (fuel n : Nat) (h : ¬ n < 10) :
    decDigits (fuel + 1) n [] = decDigits fuel (n / 10) [] ++ [48 + n % 10] := by
  simp only [decDigits, h, if_false]
  exact decDigits_acc fuel (n / 10) [48 + n % 10]

theorem decDigits_are_digits (fuel : Nat) : ∀ (n d : Nat),
    d ∈ decDigits fuel n [] → 48 ≤ d ∧ d ≤ 57 := by
  induction fuel with
  | zero => intro _ _ hd; simp [decDigits] at hd
  | succ fuel ih =>
    intro n d hd
    by_cases h : n < 10
    · simp only [decDigits, h, if_true, List.mem_singleton] at hd
      omega
    · rw [decDigits_step fuel n h, List.mem_append, List.mem_singleton] at hd
      rcases hd with hd | hd
      · exact ih _ _ hd
      · omega

theorem parseDigits_snoc (xs : List Nat) : ∀ (d acc : Nat),
    parseDigits (xs ++ [d]) acc =
      (parseDigits xs acc).bind
        (fun v => if 48 ≤ d ∧ d ≤ 57 then some (v * 10 + (d - 48)) else none) := by
  induction xs with
  | nil => intro d acc; simp [parseDigits]
  | cons x xs ih =>
    intro d acc
    by_cases hx : 48 ≤ x ∧ x ≤ 57
    · simp only [List.cons_append, parseDigits, hx, and_self, if_true]
      exact ih d _
    · simp [parseDigits, hx]

/-- Reading back the digits written for `n` gives `n`. -/
theorem parse_decDigits (fuel : Nat) : ∀ n : Nat, n < 10 ^ (fuel + 1) →
    parseDigits (decDigits (fuel + 1) n []) 0 = some n ∧ decDigits (fuel + 1) n [] ≠ [] := by
  induction fuel with
  | zero =>
    intro n hn
    have h : n < 10 := by simpa using hn
    simp [decDigits, h, parseDigits]
    omega
  | succ fuel ih =>
    intro n hn
    by_cases h : n < 10
    · simp [decDigits, h, parseDigits]
      omega
    · have hdiv : n / 10 < 10 ^ (fuel + 1) := by
        rw [Nat.div_lt_iff_lt_mul (by decide)]
        rw [pow_succ] at hn
        exact hn
      obtain ⟨hp, -⟩ := ih (n / 10) hdiv
      rw [decDigits_step _ n h, parseDigits_snoc, hp]
      refine ⟨?_, by simp⟩
      have hd : 48 ≤ 48 + n % 10 ∧ 48 + n % 10 ≤ 57 := by omega
      simp only [Option.some_bind, hd, and_self, if_true]
      congr 1
      omega

theorem fmt_d_length (L : Nat) (h : L < 2 ^ 31) : fmt_d (toInt32 L) = decDigits 10 L [] := by
  have h1 : L % 2 ^ 32 = L := Nat.mod_eq_of_lt (by omega)
  have h2 : toInt32 L = (L : Int) := by
    unfold toInt32
    rw [h1, if_pos h]
  rw [h2]
  unfold fmt_d
  rw [if_neg (by omega)]
  simp

theorem parse_fmt_d (L : Nat) (h : L < 2 ^ 31) :
    parseDecimal (fmt_d (toInt32 L)) = some L := by
  rw [fmt_d_length L h]
  obtain ⟨hp, hne⟩ := parse_decDigits 9 L (by norm_num at h ⊢; omega)
  unfold parseDecimal
  rw [if_neg hne, hp]

theorem afterHeaderEnd_skip (l : List Nat) : ∀ rest : List Nat, 13 ∉ l →
    afterHeaderEnd (l ++ rest) = afterHeaderEnd rest := by
  induction l with
  | nil => intro _ _; rfl
  | cons b l ih =>
    intro rest h
    have hb : b ≠ 13 := fun e => h (by simp [e])
    have hl : 13 ∉ l := fun e => h (by simp [e])
    have hne : ¬ (b :: (l ++ rest)).take 4 = [13, 10, 13, 10] := by
      intro e
      have := congrArg List.head? e
      simp at this
      exact hb this
    rw [List.cons_append, afterHeaderEnd, if_neg hne]
    exact ih rest hl

/-- A header line, its CR LF, and the first byte of the next line: the search goes on at
that byte. -/
theorem afterHeaderEnd_line (l : List Nat) (c : Nat) (rest : List Nat) (h : 13 ∉ l)
    (hc : c ≠ 13) :
    afterHeaderEnd (l ++ 13 :: 10 :: c :: rest) = afterHeaderEnd (c :: rest) := by
  rw [afterHeaderEnd_skip l _ h]
  have h1 : ¬ (13 :: 10 :: c :: rest).take 4 = [13, 10, 13, 10] := by
    intro e
    simp at e
    exact hc e.1
  have h2 : ¬ (10 :: c :: rest).take 4 = [13, 10, 13, 10] := by
    intro e
    simp at e
  rw [afterHeaderEnd, if_neg h1, afterHeaderEnd, if_neg h2]

theorem afterHeaderEnd_blank (l body : List Nat) (h : 13 ∉ l) :
    afterHeaderEnd (l ++ 13 :: 10 :: 13 :: 10 :: body) = some body := by
  rw [afterHeaderEnd_skip l _ h]
  simp [afterHeaderEnd]

theorem fmt_d_no_cr (i : Int) : 13 ∉ fmt_d i := by
  unfold fmt_d
  intro h
  split at h
  · rw [List.mem_cons] at h
    rcases h with h | h
    · cases h
    · have := decDigits_are_digits _ _ _ h; omega
  · have := decDigits_are_digits _ _ _ h; omega

/-- The request, line by line. -/
theorem httpRequest_lines (POST Host json : List Nat) :
    httpRequest POST Host json =
      (ascii "POST " ++ cstr POST ++ ascii " HTTP/1.1") ++ 13 :: 10 :: 72 ::
      ((ascii "ost: " ++ cstr Host) ++ 13 :: 10 :: 67 ::
      (ascii "onnection: keep-alive" ++ 13 :: 10 :: 85 ::
      (ascii "ser-Agent: ESP8266" ++ 13 :: 10 :: 67 ::
      (ascii "ontent-Type: application/json" ++ 13 :: 10 :: 67 ::
      ((ascii "ontent-Length: " ++ fmt_d (toInt32 (strlen json))) ++
        13 :: 10 :: 13 :: 10 :: (cstr json ++ [13, 10])))))) := by
  simp [httpRequest, ascii]

/-- With no CR in the path and the host, the first CR LF CR LF of the request is the blank
line that ends the headers, and what follows it is the body and a CR LF. -/
theorem afterHeaderEnd_request (POST Host json : List Nat) (hP : 13 ∉ cstr POST)
    (hH : 13 ∉ cstr Host) :
    afterHeaderEnd (httpRequest POST Host json) = some (cstr json ++ [13, 10]) := by
  rw [httpRequest_lines]
  rw [afterHeaderEnd_line _ 72 _ (by simp [ascii, hP]) (by decide)]
  rw [← List.cons_append, afterHeaderEnd_line _ 67 _ (by simp [ascii, hH]) (by decide)]
  rw [← List.cons_append, afterHeaderEnd_line _ 85 _ (by decide) (by decide)]
  rw [← List.cons_append, afterHeaderEnd_line _ 67 _ (by decide) (by decide)]
  rw [← List.cons_append, afterHeaderEnd_line _ 67 _ (by decide) (by decide)]
  rw [← List.cons_append, afterHeaderEnd_blank]
  have := fmt_d_no_cr (toInt32 (strlen json))
  simp [ascii, this]

/-! ## The request writer: claims -/

/-- C10, as stated, fails: for the path and host of `main.c` and the two-byte body 123 125,
the bytes that follow the first CR LF CR LF of the written request are the body followed by
CR LF, not the body alone; they measure 4, the Content-Length value is 2. -/
theorem C10_body_and_nothing_else_counterexample :
    (ESP8266_Send_http_post (ascii "/api/data") (ascii "117.72.118.76:3000") [123, 125]
        allReplies).2.trace =
      [Effect.write (httpRequest (ascii "/api/data") (ascii "117.72.118.76:3000")
        [123, 125])] ∧
    afterHeaderEnd (httpRequest (ascii "/api/data") (ascii "117.72.118.76:3000") [123, 125]) =
      some [123, 125, 13, 10] ∧
    afterHeaderEnd (httpRequest (ascii "/api/data") (ascii "117.72.118.76:3000") [123, 125]) ≠
      some (cstr [123, 125]) ∧
    strlen [123, 125] = 2 :=
  ⟨rfl, by decide, by decide, by decide⟩

/-- C10, amended: for every path and host without CR and LF and every body of fewer than
2^31 bytes, `ESP8266_Send_http_post` writes, in one `printf`, the request line, the Host
header, `Connection: keep-alive`, the fixed User-Agent, `Content-Type: application/json`, the
Content-Length header with the decimal length `L` of the body, a blank line, the body and a
final CR LF.  The bytes following the first CR LF CR LF are the body followed by CR LF: their
first `L` bytes are the body, and they are `L + 2` bytes. -/
theorem C10_request_bytes (POST Host json : List Nat) (w : World)
    (hP : 13 ∉ cstr POST ∧ 10 ∉ cstr POST) (hH : 13 ∉ cstr Host ∧ 10 ∉ cstr Host)
    (hL : strlen json < 2 ^ 31) :
    (ESP8266_Send_http_post POST Host json w).2.trace =
      w.trace ++ [Effect.write (
        ascii "POST " ++ cstr POST ++ ascii " HTTP/1.1\r\n" ++
        ascii "Host: " ++ cstr Host ++ ascii "\r\n" ++
        ascii "Connection: keep-alive\r\n" ++
        ascii "User-Agent: ESP8266\r\n" ++
        ascii "Content-Type: application/json\r\n" ++
        ascii "Content-Length: " ++ decDigits 10 (strlen json) [] ++ ascii "\r\n" ++
        ascii "\r\n" ++
        cstr json ++ ascii "\r\n")] ∧
    parseDecimal (decDigits 10 (strlen json) []) = some (strlen json) ∧
    afterHeaderEnd (httpRequest POST Host json) = some (cstr json ++ ascii "\r\n") ∧
    (cstr json ++ ascii "\r\n").take (strlen json) = cstr json ∧
    (cstr json ++ ascii "\r\n").length = strlen json + 2 := by
  refine ⟨?_, ?_, ?_, ?_, ?_⟩
  · simp only [ESP8266_Send_http_post, printf, httpRequest, fmt_d_length _ hL]
  · rw [← fmt_d_length _ hL]; exact parse_fmt_d _ hL
  · exact afterHeaderEnd_request POST Host json hP.1 hH.1
  · simp [strlen]
  · simp [strlen, ascii]

/-- C10, amended, for the path and host of `main.c` and a two-byte body. -/
theorem C10_request_bytes_witness :
    (13 ∉ cstr (ascii "/api/data") ∧ 10 ∉ cstr (ascii "/api/data")) ∧
      (13 ∉ cstr (ascii "117.72.118.76:3000") ∧ 10 ∉ cstr (ascii "117.72.118.76:3000")) ∧
      strlen [123, 125] < 2 ^ 31 ∧
      afterHeaderEnd (httpRequest (ascii "/api/data") (ascii "117.72.118.76:3000")
          [123, 125]) = some (cstr [123, 125] ++ ascii "\r\n") ∧
      (cstr [123, 125] ++ ascii "\r\n").take (strlen [123, 125]) = cstr [123, 125] :=
  have h := C10_request_bytes (ascii "/api/data") (ascii "117.72.118.76:3000") [123, 125]
    allReplies (by decide) (by decide) (by decide)
  ⟨by decide, by decide, by decide, h.2.2.1, h.2.2.2.1⟩

/-! ## Response reader lemmas -/

theorem strstr_isSome_iff (hay needle : List Nat) :
    (strstr hay needle).isSome = true ↔ needle <:+: hay := by
  induction hay with
  | nil =>
    by_cases h : needle = []
    · simp [strstr, h]
    · simp [strstr, h]
  | cons b bs ih =>
    by_cases hp : needle.isPrefixOf (b :: bs) = true
    · simp only [strstr, hp, if_true, Option.isSome_some, true_iff]
      exact (List.isPrefixOf_iff_prefix.1 hp).isInfix
    · simp only [strstr, hp, if_false, Bool.false_eq_true]
      rw [ih, List.infix_cons_iff]
      constructor
      · exact fun h => Or.inr h
      · rintro (h | h)
        · exact absurd (List.isPrefixOf_iff_prefix.2 h) hp
        · exact h

/-- What `strstr` returns begins with the needle, and the needle begins nowhere before. -/
theorem strstr_eq_some (needle : List Nat) (hay suf : List Nat) :
    strstr hay needle = some suf ↔
      ∃ pre, hay = pre ++ suf ∧ needle <+: suf ∧
        ∀ k, k < pre.length → ¬ needle <+: hay.drop k := by
  induction hay generalizing suf with
  | nil =>
    by_cases h : needle = []
    · subst h
      simp only [strstr, if_true, Option.some.injEq]
      constructor
      · rintro rfl; exact ⟨[], rfl, List.nil_prefix, by simp⟩
      · rintro ⟨pre, hp, -, -⟩
        exact (List.append_eq_nil.1 hp.symm).2.symm
    · simp only [strstr, h, if_false]
      constructor
      · intro hc; cases hc
      · rintro ⟨pre, hp, hn, -⟩
        have hs : suf = [] := (List.append_eq_nil.1 hp.symm).2
        subst hs
        exact absurd (List.prefix_nil.1 hn) h
  | cons b bs ih =>
    by_cases hp : needle.isPrefixOf (b :: bs) = true
    · simp only [strstr, hp, if_true, Option.some.injEq]
      constructor
      · rintro rfl
        exact ⟨[], rfl, List.isPrefixOf_iff_prefix.1 hp, by simp⟩
      · rintro ⟨pre, hpre, -, hfirst⟩
        cases pre with
        | nil => simpa using hpre
        | cons p pre =>
          exact absurd (List.isPrefixOf_iff_prefix.1 hp) (hfirst 0 (by simp))
    · simp only [strstr, hp, if_false, Bool.false_eq_true]
      rw [ih]
      constructor
      · rintro ⟨pre, hpre, hn, hfirst⟩
        refine ⟨b :: pre, by simp [hpre], hn, ?_⟩
        intro k hk
        cases k with
        | zero => exact fun h => hp (List.isPrefixOf_iff_prefix.2 h)
        | succ k => exact hfirst k (by simpa using hk)
      · rintro ⟨pre, hpre, hn, hfirst⟩
        cases pre with
        | nil =>
          simp only [List.nil_append] at hpre
          subst hpre
          exact absurd (List.isPrefixOf_iff_prefix.2 hn) hp
        | cons p pre =>
          simp only [List.cons_append, List.cons.injEq] at hpre
          refine ⟨pre, hpre.2, hn, ?_⟩
          intro k hk
          exact hfirst (k + 1) (by simpa using hk)

theorem listBuf_nil : listBuf [] = fun _ => 0 := by
  funext i; simp [listBuf]

theorem listBuf_store (acc : List Nat) (ch : Nat) :
    (fun i => if i = acc.length then ch else listBuf acc i) = listBuf (acc ++ [ch]) := by
  funext i
  unfold listBuf
  by_cases h : i = acc.length
  · subst h; simp
  · rw [if_neg h]
    by_cases hlt : i < acc.length
    · rw [List.getD_append _ _ _ _ hlt]
    · rw [List.getD_eq_default _ _ (by omega), List.getD_eq_default _ _ (by simp; omega)]

theorem listBuf_terminate (acc : List Nat) :
    (fun i => if i = acc.length then 0 else listBuf acc i) = listBuf acc := by
  funext i
  unfold listBuf
  by_cases h : i = acc.length
  · subst h; simp
  · rw [if_neg h]

theorem range_map_listBuf (acc : List Nat) (n : Nat) (h : acc.length ≤ n) :
    (List.range n).map (listBuf acc) = acc ++ List.replicate (n - acc.length) 0 := by
  apply List.ext_getElem?
  intro i
  unfold listBuf
  by_cases hi : i < n
  · rw [List.getElem?_map, List.getElem?_range hi]
    by_cases hlt : i < acc.length
    · simp [List.getElem?_append_left hlt, List.getElem?_eq_getElem hlt]
    · rw [List.getElem?_append_right (by omega), List.getElem?_replicate,
        if_pos (by omega)]
      simp only [Option.map_some']
      rw [List.getD_eq_default _ _ (by omega)]
  · rw [List.getElem?_eq_none (by simp; omega), List.getElem?_eq_none (by simp; omega)]

theorem cstr_append_zero (acc zs : List Nat) : cstr (acc ++ 0 :: zs) = cstr acc := by
  unfold cstr
  induction acc with
  | nil => simp
  | cons a acc ih =>
    by_cases h : a = 0
    · simp [h]
    · simp only [List.cons_append, List.takeWhile_cons, ne_eq, h, not_false_eq_true,
        decide_True, if_true, ih]

/-- The text of an array that holds fewer than 256 bytes and zeros after them. -/
theorem bufferText_listBuf (acc : List Nat) (h : acc.length ≤ 255) :
    bufferText (listBuf acc) = cstr acc := by
  unfold bufferText
  rw [range_map_listBuf acc 256 (by omega)]
  obtain ⟨m, hm⟩ : ∃ m, 256 - acc.length = m + 1 := ⟨255 - acc.length, by omega⟩
  rw [hm, List.replicate_succ, cstr_append_zero]

theorem recv_loop_exit (fuel : Nat) (buf : Nat → Nat) (index counter : Nat)
    (writes : List Nat) (w : World) (h : ¬ counter < 15000) :
    ESP8266_Receive_loop fuel buf index counter writes w =
      { buf := buf, index := index, world := w, writes := writes } := by
  cases fuel <;> simp [ESP8266_Receive_loop, h]

theorem recv_loop_none (fuel : Nat) (buf : Nat → Nat) (index counter : Nat)
    (writes : List Nat) (w w1 : World) (hc : counter < 15000)
    (hrb : w.readByte = (none, w1)) :
    ESP8266_Receive_loop (fuel + 1) buf index counter writes w =
      ESP8266_Receive_loop fuel buf index (counter + 1) writes w1 := by
  have hwrap : (counter + 1) % 65536 = counter + 1 := by omega
  simp only [ESP8266_Receive_loop, hc, if_true, hrb, hwrap]

theorem recvStop_iff (acc : List Nat) (ch : Nat) (hlen : acc.length ≤ 254) :
    recvStop (acc ++ [ch]) ↔
      ((acc.length + 1) % 65536 ≥ 255 ∨ ((acc.length + 1) % 65536 ≥ 4 ∧
        (strstr (bufferText (fun i => if i = acc.length then ch else listBuf acc i))
          [13, 10, 13, 10]).isSome = true)) := by
  have hwrap : (acc.length + 1) % 65536 = acc.length + 1 := by omega
  rw [hwrap, listBuf_store, bufferText_listBuf _ (by simp; omega), strstr_isSome_iff]
  simp [recvStop]

theorem recv_loop_stop (fuel : Nat) (acc : List Nat) (counter ch : Nat)
    (writes : List Nat) (w w1 : World) (hc : counter < 15000) (hlen : acc.length ≤ 254)
    (hrb : w.readByte = (some ch, w1)) (hs : recvStop (acc ++ [ch])) :
    ESP8266_Receive_loop (fuel + 1) (listBuf acc) acc.length counter writes w =
      { buf := listBuf (acc ++ [ch]), index := acc.length + 1, world := w1,
        writes := writes ++ [acc.length] } := by
  have hwrap : (acc.length + 1) % 65536 = acc.length + 1 := by omega
  have hs2 := (recvStop_iff acc ch hlen).1 hs
  simp only [ESP8266_Receive_loop, hc, if_true, hrb]
  rw [listBuf_store] at hs2 ⊢
  rw [hwrap] at hs2 ⊢
  by_cases h255 : acc.length + 1 ≥ 255
  · rw [if_pos h255]
  · rw [if_neg h255, if_pos (hs2.resolve_left h255)]

theorem recv_loop_cont (fuel : Nat) (acc : List Nat) (counter ch : Nat)
    (writes : List Nat) (w w1 : World) (hc : counter < 15000) (hlen : acc.length ≤ 254)
    (hrb : w.readByte = (some ch, w1)) (hs : ¬ recvStop (acc ++ [ch])) :
    ESP8266_Receive_loop (fuel + 1) (listBuf acc) acc.length counter writes w =
      ESP8266_Receive_loop fuel (listBuf (acc ++ [ch])) (acc.length + 1) 0
        (writes ++ [acc.length]) w1 := by
  have hwrap : (acc.length + 1) % 65536 = acc.length + 1 := by omega
  have hs2 := (not_congr (recvStop_iff acc ch hlen)).1 hs
  simp only [ESP8266_Receive_loop, hc, if_true, hrb]
  rw [listBuf_store] at hs2 ⊢
  rw [hwrap] at hs2 ⊢
  rw [not_or] at hs2
  rw [if_neg hs2.1, if_neg hs2.2]

theorem not_recvStop_length (acc : List Nat) (h : ¬ recvStop acc) : acc.length ≤ 254 := by
  unfold recvStop at h
  rw [not_or] at h
  omega

/-- A poll of a channel that stores bytes and receives nothing returns the oldest. -/
theorem readByte_quiet_cons (w : World) (ch : Nat) (rest : List Nat) (hok : w.ring.Ok)
    (hq : w.rx = []) (hc : w.ring.contents = ch :: rest) :
    ∃ w1, w.readByte = (some ch, w1) ∧ w1.ring.Ok ∧ w1.rx = [] ∧ w1.ring.contents = rest ∧
      w1.reads = w.reads ++ [some ch] ∧ w1.trace = w.trace ∧ w1.ring.head = w.ring.head := by
  have hne : w.ring.head ≠ w.ring.tail := by
    intro he
    rw [contents_nil _ hok he] at hc
    cases hc
  obtain ⟨b, hb, hcont, -, hhead⟩ := read_contents _ hok hne
  rw [hc] at hcont
  have hbch : b = ch := by
    have := congrArg List.head? hcont
    simpa using this.symm
  have hrest : (USART1_ReadByte w.ring).2.contents = rest := by
    have := congrArg List.tail hcont
    simpa using this.symm
  subst hbch
  refine ⟨{ w with ring := (USART1_ReadByte w.ring).2, reads := w.reads ++ [some b] },
    ?_, read_ok _ hok, hq, hrest, rfl, rfl, hhead⟩
  rw [readByte_quiet w hq, hb]

/-- A poll of a channel that is empty and receives nothing returns nothing. -/
theorem readByte_quiet_nil (w : World) (hok : w.ring.Ok) (hq : w.rx = [])
    (hc : w.ring.contents = []) :
    ∃ w1, w.readByte = (none, w1) ∧ w1.ring = w.ring ∧ w1.rx = [] ∧
      w1.reads = w.reads ++ [none] ∧ w1.trace = w.trace := by
  have he : w.ring.head = w.ring.tail := by
    apply (count_eq_zero_iff _ hok).1
    rw [← Ring.contents_length, hc]; rfl
  have hr := read_empty _ he
  refine ⟨{ w with reads := w.reads ++ [none] }, ?_, rfl, hq, rfl, rfl⟩
  rw [readByte_quiet w hq, hr]

theorem recvStop_decide (acc : List Nat) :
    ((acc.length ≥ 255 ∨ (acc.length ≥ 4 ∧ (strstr (cstr acc) [13, 10, 13, 10]).isSome)) ↔
      recvStop acc) := by
  unfold recvStop
  rw [strstr_isSome_iff]

theorem recvTake_stop (acc : List Nat) (ch : Nat) (rest : List Nat)
    (h : recvStop (acc ++ [ch])) :
    recvTake acc (ch :: rest) = [ch] ∧ recvTimesOut acc (ch :: rest) = false := by
  have := (recvStop_decide (acc ++ [ch])).2 h
  exact ⟨by rw [recvTake, if_pos this], by rw [recvTimesOut, if_pos this]⟩

theorem recvTake_cont (acc : List Nat) (ch : Nat) (rest : List Nat)
    (h : ¬ recvStop (acc ++ [ch])) :
    recvTake acc (ch :: rest) = ch :: recvTake (acc ++ [ch]) rest ∧
      recvTimesOut acc (ch :: rest) = recvTimesOut (acc ++ [ch]) rest := by
  have := (not_congr (recvStop_decide (acc ++ [ch]))).2 h
  exact ⟨by rw [recvTake, if_neg this], by rw [recvTimesOut, if_neg this]⟩

/-- What holds of the loop whatever arrives and whatever the fuel: the array holds the bytes
read, in order, and zeros after them; the index counts them and stays within 255; the
writes went to the cells 0, 1, 2, ... in turn. -/
theorem recv_loop_inv (fuel : Nat) : ∀ (acc : List Nat) (counter : Nat) (writes : List Nat)
    (w : World), acc.length ≤ 254 →
    ∃ rs : List (Option Nat),
      (ESP8266_Receive_loop fuel (listBuf acc) acc.length counter writes w).world.reads =
        w.reads ++ rs ∧
      (ESP8266_Receive_loop fuel (listBuf acc) acc.length counter writes w).world.trace =
        w.trace ∧
      (ESP8266_Receive_loop fuel (listBuf acc) acc.length counter writes w).buf =
        listBuf (acc ++ bytesOf rs) ∧
      (ESP8266_Receive_loop fuel (listBuf acc) acc.length counter writes w).index =
        (acc ++ bytesOf rs).length ∧
      (acc ++ bytesOf rs).length ≤ 255 ∧
      (ESP8266_Receive_loop fuel (listBuf acc) acc.length counter writes w).writes =
        writes ++ List.range' acc.length (bytesOf rs).length ∧
      (w.ring.Ok →
        (ESP8266_Receive_loop fuel (listBuf acc) acc.length counter writes w).world.ring.Ok) := by
  induction fuel with
  | zero =>
    intro acc counter writes w hlen
    exact ⟨[], by simp [ESP8266_Receive_loop, bytesOf], rfl, by simp [ESP8266_Receive_loop, bytesOf],
      by simp [ESP8266_Receive_loop, bytesOf], by simpa [bytesOf] using Nat.le_succ_of_le hlen,
      by simp [ESP8266_Receive_loop, bytesOf], fun h => h⟩
  | succ fuel ih =>
    intro acc counter writes w hlen
    by_cases hc : counter < 15000
    · rcases hrb : w.readByte with ⟨o, w1⟩
      have hf := readByte_fields w
      have hok1 := readByte_ok w
      rw [hrb] at hf hok1
      dsimp only at hf hok1
      cases o with
      | none =>
        rw [recv_loop_none _ _ _ _ _ _ _ hc hrb]
        obtain ⟨rs, h1, h2, h3, h4, h5, h6, h7⟩ := ih acc (counter + 1) writes w1 hlen
        refine ⟨none :: rs, ?_, ?_, ?_, ?_, ?_, ?_, ?_⟩
        · rw [h1, hf.2.1]; simp
        · rw [h2, hf.1]
        · rw [h3]; simp [bytesOf, List.reduceOption_cons_of_none]
        · rw [h4]; simp [bytesOf, List.reduceOption_cons_of_none]
        · simpa [bytesOf, List.reduceOption_cons_of_none] using h5
        · rw [h6]; simp [bytesOf, List.reduceOption_cons_of_none]
        · exact fun h => h7 (hok1 h)
      | some ch =>
        by_cases hs : recvStop (acc ++ [ch])
        · rw [recv_loop_stop _ _ _ _ _ _ _ hc hlen hrb hs]
          refine ⟨[some ch], hf.2.1, hf.1, ?_, ?_, ?_, ?_, hok1⟩
          · simp [bytesOf, List.reduceOption_cons_of_some]
          · simp [bytesOf, List.reduceOption_cons_of_some]
          · simp [bytesOf, List.reduceOption_cons_of_some]; omega
          · simp [bytesOf, List.reduceOption_cons_of_some]
        · rw [recv_loop_cont _ _ _ _ _ _ _ hc hlen hrb hs]
          have hlen2 := not_recvStop_length _ hs
          have hl : (acc ++ [ch]).length = acc.length + 1 := by simp
          rw [← hl]
          obtain ⟨rs, h1, h2, h3, h4, h5, h6, h7⟩ :=
            ih (acc ++ [ch]) 0 (writes ++ [acc.length]) w1 hlen2
          refine ⟨some ch :: rs, ?_, ?_, ?_, ?_, ?_, ?_, ?_⟩
          · rw [h1, hf.2.1]; simp
          · rw [h2, hf.1]
          · rw [h3]; simp [bytesOf, List.reduceOption_cons_of_some]
          · rw [h4]; simp [bytesOf, List.reduceOption_cons_of_some]
          · simpa [bytesOf, List.reduceOption_cons_of_some] using h5
          · rw [h6]; simp [bytesOf, List.reduceOption_cons_of_some, List.range'_succ]
          · exact fun h => h7 (hok1 h)
    · rw [recv_loop_exit _ _ _ _ _ _ hc]
      exact ⟨[], by simp [bytesOf], rfl, by simp [bytesOf], by simp [bytesOf],
        by simpa [bytesOf] using Nat.le_succ_of_le hlen, by simp [bytesOf], fun h => h⟩

/-- More fuel than the bound changes nothing, whatever arrives. -/
theorem recv_loop_fuel (fuel : Nat) : ∀ (fuel2 : Nat) (acc : List Nat) (counter : Nat)
    (writes : List Nat) (w : World), acc.length ≤ 254 → counter ≤ 15000 →
    recvBound acc.length counter ≤ fuel → recvBound acc.length counter ≤ fuel2 →
    ESP8266_Receive_loop fuel2 (listBuf acc) acc.length counter writes w =
      ESP8266_Receive_loop fuel (listBuf acc) acc.length counter writes w := by
  induction fuel with
  | zero =>
    intro fuel2 acc counter writes w hlen hcl hb _
    have hge : ¬ counter < 15000 := by
      simp only [recvBound] at hb; omega
    rw [recv_loop_exit _ _ _ _ _ _ hge, recv_loop_exit _ _ _ _ _ _ hge]
  | succ fuel ih =>
    intro fuel2 acc counter writes w hlen hcl hb hb2
    by_cases hc : counter < 15000
    · cases fuel2 with
      | zero => simp only [recvBound] at hb2; omega
      | succ fuel2 =>
        rcases hrb : w.readByte with ⟨o, w1⟩
        cases o with
        | none =>
          rw [recv_loop_none _ _ _ _ _ _ _ hc hrb, recv_loop_none _ _ _ _ _ _ _ hc hrb]
          apply ih fuel2 acc (counter + 1) writes w1 hlen (by omega) <;>
          · simp only [recvBound] at hb hb2 ⊢
            omega
        | some ch =>
          by_cases hs : recvStop (acc ++ [ch])
          · rw [recv_loop_stop _ _ _ _ _ _ _ hc hlen hrb hs,
              recv_loop_stop _ _ _ _ _ _ _ hc hlen hrb hs]
          · rw [recv_loop_cont _ _ _ _ _ _ _ hc hlen hrb hs,
              recv_loop_cont _ _ _ _ _ _ _ hc hlen hrb hs]
            have hlen2 := not_recvStop_length _ hs
            have hl : (acc ++ [ch]).length = acc.length + 1 := by simp
            rw [← hl]
            apply ih fuel2 (acc ++ [ch]) 0 _ w1 hlen2 (by omega) <;>
            · simp only [recvBound, hl] at hb hb2 ⊢
              omega
    · rw [recv_loop_exit _ _ _ _ _ _ hc, recv_loop_exit _ _ _ _ _ _ hc]

/-- On an empty channel to which nothing arrives the loop polls until its counter reaches
15000 and changes nothing else. -/
theorem recv_loop_silence (m : Nat) : ∀ (fuel : Nat) (buf : Nat → Nat) (index counter : Nat)
    (writes : List Nat) (w : World),
    w.ring.Ok → w.rx = [] → w.ring.contents = [] → counter + m = 15000 → m ≤ fuel →
    (ESP8266_Receive_loop fuel buf index counter writes w).buf = buf ∧
    (ESP8266_Receive_loop fuel buf index counter writes w).index = index ∧
    (ESP8266_Receive_loop fuel buf index counter writes w).writes = writes ∧
    (ESP8266_Receive_loop fuel buf index counter writes w).world.ring = w.ring ∧
    (ESP8266_Receive_loop fuel buf index counter writes w).world.rx = [] ∧
    (ESP8266_Receive_loop fuel buf index counter writes w).world.reads =
      w.reads ++ List.replicate m none := by
  induction m with
  | zero =>
    intro fuel buf index counter writes w _ hq _ hm _
    rw [recv_loop_exit _ _ _ _ _ _ (by omega)]
    exact ⟨rfl, rfl, rfl, rfl, hq, by simp⟩
  | succ m ih =>
    intro fuel buf index counter writes w hok hq hc hm hf
    cases fuel with
    | zero => omega
    | succ fuel =>
      obtain ⟨w1, hrb, hring, hq1, hreads, -⟩ := readByte_quiet_nil w hok hq hc
      rw [recv_loop_none _ _ _ _ _ _ _ (by omega) hrb]
      obtain ⟨h1, h2, h3, h4, h5, h6⟩ := ih fuel buf index (counter + 1) writes w1
        (by rw [hring]; exact hok) hq1 (by rw [hring]; exact hc) (by omega) (by omega)
      refine ⟨h1, h2, h3, by rw [h4, hring], h5, ?_⟩
      rw [h6, hreads, List.replicate_succ]
      simp

/-- With the bytes `stream` stored and nothing arriving, the loop takes `recvTake` of them,
leaves the others in the channel, and then, unless the test `recvStop` has ended it, makes
15000 empty polls. -/
theorem recv_loop_quiet (stream : List Nat) : ∀ (acc : List Nat) (writes : List Nat)
    (w : World) (fuel : Nat),
    w.ring.Ok → w.rx = [] → w.ring.contents = stream → acc.length ≤ 254 →
    recvBound acc.length 0 ≤ fuel →
    (ESP8266_Receive_loop fuel (listBuf acc) acc.length 0 writes w).buf =
      listBuf (acc ++ recvTake acc stream) ∧
    (ESP8266_Receive_loop fuel (listBuf acc) acc.length 0 writes w).index =
      (acc ++ recvTake acc stream).length ∧
    (ESP8266_Receive_loop fuel (listBuf acc) acc.length 0 writes w).world.ring.Ok ∧
    (ESP8266_Receive_loop fuel (listBuf acc) acc.length 0 writes w).world.rx = [] ∧
    (ESP8266_Receive_loop fuel (listBuf acc) acc.length 0 writes w).world.ring.contents =
      stream.drop (recvTake acc stream).length ∧
    (ESP8266_Receive_loop fuel (listBuf acc) acc.length 0 writes w).world.ring.head =
      w.ring.head ∧
    (ESP8266_Receive_loop fuel (listBuf acc) acc.length 0 writes w).world.reads =
      w.reads ++ (recvTake acc stream).map some ++
        (if recvTimesOut acc stream then List.replicate 15000 none else []) := by
  induction stream with
  | nil =>
    intro acc writes w fuel hok hq hc hlen hf
    obtain ⟨h1, h2, -, h4, h5, h6⟩ := recv_loop_silence 15000 fuel (listBuf acc) acc.length 0
      writes w hok hq hc rfl (by simp only [recvBound] at hf; omega)
    refine ⟨by simpa [recvTake] using h1, by simpa [recvTake] using h2, by rw [h4]; exact hok,
      h5, by rw [h4, hc]; rfl, by rw [h4], ?_⟩
    rw [h6]
    generalize List.replicate 15000 (none : Option Nat) = z
    simp [recvTake, recvTimesOut]
  | cons ch rest ih =>
    intro acc writes w fuel hok hq hc hlen hf
    obtain ⟨w1, hrb, hok1, hq1, hc1, hreads, -, hhead⟩ := readByte_quiet_cons w ch rest hok hq hc
    cases fuel with
    | zero => simp only [recvBound] at hf; omega
    | succ fuel =>
      by_cases hs : recvStop (acc ++ [ch])
      · rw [recv_loop_stop _ _ _ _ _ _ _ (by decide) hlen hrb hs]
        obtain ⟨ht, hto⟩ := recvTake_stop acc ch rest hs
        rw [ht, hto]
        exact ⟨rfl, by simp, hok1, hq1, by simpa using hc1, hhead, by simp [hreads]⟩
      · rw [recv_loop_cont _ _ _ _ _ _ _ (by decide) hlen hrb hs]
        obtain ⟨ht, hto⟩ := recvTake_cont acc ch rest hs
        have hlen2 := not_recvStop_length _ hs
        have hl : (acc ++ [ch]).length = acc.length + 1 := by simp
        rw [← hl]
        obtain ⟨h1, h2, h3, h4, h5, h6, h7⟩ := ih (acc ++ [ch]) (writes ++ [acc.length]) w1 fuel
          hok1 hq1 hc1 hlen2 (by simp only [recvBound, hl] at hf ⊢; omega)
        rw [ht, hto]
        refine ⟨by rw [h1]; simp, by rw [h2]; simp, h3, h4, by rw [h5]; simp, by rw [h6, hhead],
          ?_⟩
        rw [h7, hreads]
        generalize List.replicate 15000 (none : Option Nat) = z
        simp

theorem recvTake_through (s : List Nat) : ∀ (acc rest : List Nat),
    (∀ t, t <+: s → t ≠ [] → ¬ recvStop (acc ++ t)) →
    recvTake acc (s ++ rest) = s ++ recvTake (acc ++ s) rest ∧
      recvTimesOut acc (s ++ rest) = recvTimesOut (acc ++ s) rest := by
  induction s with
  | nil => intro acc rest _; simp
  | cons ch s ih =>
    intro acc rest h
    have h1 : ¬ recvStop (acc ++ [ch]) := h [ch] (by simp) (by simp)
    obtain ⟨ht, hto⟩ := recvTake_cont acc ch (s ++ rest) h1
    obtain ⟨it, ito⟩ := ih (acc ++ [ch]) rest (by
      intro t ht2 hne
      have := h (ch :: t) (by simpa using ht2) (by simp)
      simpa using this)
    rw [List.cons_append, ht, hto, it, ito]
    simp

/-- The bytes taken: no proper beginning of them passes the test `recvStop`; either the
whole does, or they are all the bytes there were and the loop goes on to time out. -/
theorem recvTake_spec (stream : List Nat) : ∀ acc : List Nat,
    (∃ rest, stream = recvTake acc stream ++ rest) ∧
    (∀ t, t <+: recvTake acc stream → t ≠ [] → t ≠ recvTake acc stream →
      ¬ recvStop (acc ++ t)) ∧
    (recvTimesOut acc stream = false →
      recvTake acc stream ≠ [] ∧ recvStop (acc ++ recvTake acc stream)) ∧
    (recvTimesOut acc stream = true →
      recvTake acc stream = stream ∧ ∀ t, t <+: stream → t ≠ [] → ¬ recvStop (acc ++ t)) := by
  induction stream with
  | nil =>
    intro acc
    refine ⟨⟨[], by simp [recvTake]⟩, ?_, ?_, ?_⟩
    · intro t ht hne
      simp only [recvTake, List.prefix_nil] at ht
      exact absurd ht hne
    · intro h; simp [recvTimesOut] at h
    · intro _
      refine ⟨rfl, ?_⟩
      intro t ht hne
      exact absurd (List.prefix_nil.1 ht) hne
  | cons ch rest ih =>
    intro acc
    by_cases hs : recvStop (acc ++ [ch])
    · obtain ⟨ht, hto⟩ := recvTake_stop acc ch rest hs
      rw [ht, hto]
      refine ⟨⟨rest, rfl⟩, ?_, ?_, ?_⟩
      · intro t hpre hne hne2
        exfalso
        rcases List.prefix_cons_iff.1 hpre with h | ⟨t2, h, h2⟩
        · exact hne h
        · rw [List.prefix_nil.1 h2] at h
          exact hne2 h
      · intro _; exact ⟨by simp, hs⟩
      · intro h; cases h
    · obtain ⟨ht, hto⟩ := recvTake_cont acc ch rest hs
      obtain ⟨⟨r, hr⟩, hmin, hstop, hall⟩ := ih (acc ++ [ch])
      rw [ht, hto]
      refine ⟨⟨r, by rw [List.cons_append, ← hr]⟩, ?_, ?_, ?_⟩
      · intro t hpre hne hne2
        rcases List.prefix_cons_iff.1 hpre with h | ⟨t2, h, h2⟩
        · exact absurd h hne
        · subst h
          by_cases ht2 : t2 = []
          · subst ht2; exact hs
          · have := hmin t2 h2 ht2 (by intro e; exact hne2 (by rw [e]))
            simpa using this
      · intro h
        obtain ⟨-, h2⟩ := hstop h
        exact ⟨by simp, by simpa using h2⟩
      · intro h
        obtain ⟨h1, h2⟩ := hall h
        refine ⟨by rw [h1], ?_⟩
        intro t hpre hne
        rcases List.prefix_cons_iff.1 hpre with h | ⟨t2, h, h3⟩
        · exact absurd h hne
        · subst h
          by_cases ht2 : t2 = []
          · subst ht2; exact hs
          · have := h2 t2 h3 ht2
            simpa using this

theorem cstr_initial (l : List Nat) : cstr l <+: l := by
  unfold cstr
  exact List.takeWhile_prefix _

theorem cstr_no_zero (l : List Nat) (h : 0 ∉ l) : cstr l = l := by
  unfold cstr
  rw [List.takeWhile_eq_self_iff]
  intro a ha
  have : a ≠ 0 := fun e => h (e ▸ ha)
  simpa using this

theorem cstr_append_no_zero (l r : List Nat) (h : 0 ∉ l) : cstr (l ++ r) = l ++ cstr r := by
  unfold cstr
  rw [List.takeWhile_append_of_pos]
  intro a ha
  have : a ≠ 0 := fun e => h (e ▸ ha)
  simpa using this

/-- The whole function on a channel that stores `stream` and receives nothing more. -/
theorem receive_quiet (w : World) (hok : w.ring.Ok) (hq : w.rx = []) :
    (ESP8266_Receive_http_response w).1 =
      statusOf (cstr (recvTake [] w.ring.contents)) ∧
    (ESP8266_Receive_http_response w).2.ring.Ok ∧
    (ESP8266_Receive_http_response w).2.rx = [] ∧
    (ESP8266_Receive_http_response w).2.ring.contents =
      w.ring.contents.drop (recvTake [] w.ring.contents).length ∧
    (ESP8266_Receive_http_response w).2.ring.head = w.ring.head ∧
    (ESP8266_Receive_http_response w).2.reads =
      w.reads ++ (recvTake [] w.ring.contents).map some ++
        (if recvTimesOut [] w.ring.contents then List.replicate 15000 none else []) := by
  obtain ⟨h1, h2, h3, h4, h5, h6, h7⟩ := recv_loop_quiet w.ring.contents [] [] w
    (recvBound 0 0) hok hq rfl (by decide) (Nat.le_refl _)
  obtain ⟨rs, -, -, g3, g4, g5, -, -⟩ := recv_loop_inv (recvBound 0 0) [] 0 [] w (by decide)
  rw [listBuf_nil] at h1 h2 h3 h4 h5 h6 h7 g3 g4
  simp only [List.length_nil, List.nil_append] at h1 h2 h3 h4 h5 h6 h7 g3 g4 g5
  have hlen : (recvTake [] w.ring.contents).length ≤ 255 := by
    rw [← h2, g4]; exact g5
  refine ⟨?_, h3, h4, h5, h6, h7⟩
  show parseStatus (fun i => if i = (ESP8266_Receive_run w).index then 0
    else (ESP8266_Receive_run w).buf i) = _
  unfold ESP8266_Receive_run
  rw [h1, h2, listBuf_terminate, parseStatus, bufferText_listBuf _ hlen]

/-- The whole function, whatever arrives: the result is the status found in the text of the
bytes read, which are at most 255. -/
theorem receive_general (w : World) :
    ∃ rs : List (Option Nat),
      (ESP8266_Receive_http_response w).2.reads = w.reads ++ rs ∧
      (ESP8266_Receive_http_response w).2.trace = w.trace ∧
      (bytesOf rs).length ≤ 255 ∧
      (ESP8266_Receive_http_response w).1 = statusOf (cstr (bytesOf rs)) := by
  obtain ⟨rs, g1, g2, g3, g4, g5, -, -⟩ := recv_loop_inv (recvBound 0 0) [] 0 [] w (by decide)
  rw [listBuf_nil] at g1 g2 g3 g4
  simp only [List.length_nil, List.nil_append] at g1 g2 g3 g4 g5
  refine ⟨rs, g1, g2, g5, ?_⟩
  show parseStatus (fun i => if i = (ESP8266_Receive_run w).index then 0
    else (ESP8266_Receive_run w).buf i) = _
  unfold ESP8266_Receive_run
  rw [g3, g4, listBuf_terminate, parseStatus, bufferText_listBuf _ g5]

theorem terminator_has_cr (l : List Nat) (h : [13, 10, 13, 10] <:+: l) : 13 ∈ l := by
  obtain ⟨a, b, rfl⟩ := h
  simp

theorem not_recvStop_of_short (stream t : List Nat) (hlen : stream.length ≤ 254)
    (hno : ¬ [13, 10, 13, 10] <:+: stream) (ht : t <+: stream) : ¬ recvStop t := by
  intro hs
  rcases hs with h | ⟨-, h⟩
  · have := ht.length_le; omega
  · exact hno ((h.trans (cstr_initial t).isInfix).trans ht.isInfix)

theorem sscanf_three_digits (d1 d2 d3 : Nat) (y : List Nat) (h1 : d1 ≤ 9) (h2 : d2 ≤ 9)
    (h3 : d3 ≤ 9) :
    sscanf_3u ((48 + d1) :: (48 + d2) :: (48 + d3) :: y) = some (100 * d1 + 10 * d2 + d3) := by
  have s1 : isSpace (48 + d1) = false := by
    simp only [isSpace, Bool.or_eq_false_iff, decide_eq_false_iff_not, Bool.and_eq_false_iff]
    omega
  have g1 : isDigit (48 + d1) = true := by simp [isDigit]; omega
  have g2 : isDigit (48 + d2) = true := by simp [isDigit]; omega
  have g3 : isDigit (48 + d3) = true := by simp [isDigit]; omega
  have n1 : ¬ (48 + d1 = 43 ∨ 48 + d1 = 45) := by omega
  unfold sscanf_3u
  rw [List.dropWhile_cons_of_neg (by simp [s1])]
  simp only [n1, if_false]
  simp only [List.take_succ_cons, List.take_zero, List.takeWhile_cons, g1, g2, g3, if_true,
    List.takeWhile_nil]
  simp [digitsValue]
  omega

theorem statusOf_at_start (rest : List Nat) :
    statusOf (ascii "HTTP/1.1 " ++ rest) = sscanf_3u rest := by
  simp [statusOf, strstr, ascii]

/-! ## The response reader: claims -/

/-- C11: when the channel holds "HTTP/1.1 ", three decimal digits, a space, any reason text
and "\r\n\r\n" (of any length the channel can hold, so also of 254 bytes at most) and nothing
more arrives, `ESP8266_Receive_http_response` returns 1 and stores the number the three
digits denote; the status is taken at the first "HTTP/1.1 ", whatever the reason text
contains. -/
theorem C11_status_code_parsed (d1 d2 d3 : Nat) (reason : List Nat) (w : World)
    (h1 : d1 ≤ 9) (h2 : d2 ≤ 9) (h3 : d3 ≤ 9) (hok : w.ring.Ok) (hq : w.rx = [])
    (hc : w.ring.contents =
      ascii "HTTP/1.1 " ++ [48 + d1, 48 + d2, 48 + d3, 32] ++ reason ++ [13, 10, 13, 10]) :
    (ESP8266_Receive_http_response w).1 = some (100 * d1 + 10 * d2 + d3) := by
  have hcr : 13 ∉ ascii "HTTP/1.1 " ++ [48 + d1, 48 + d2, 48 + d3, 32] := by
    simp [ascii]; omega
  have hz : 0 ∉ ascii "HTTP/1.1 " ++ [48 + d1, 48 + d2, 48 + d3, 32] := by
    simp [ascii]; omega
  have hthrough := recvTake_through (ascii "HTTP/1.1 " ++ [48 + d1, 48 + d2, 48 + d3, 32]) []
    (reason ++ [13, 10, 13, 10]) (by
      intro t ht _ hs
      rcases hs with h | ⟨-, h⟩
      · have := ht.length_le
        simp [ascii] at this h
        omega
      · have hin : [13, 10, 13, 10] <:+:
            ascii "HTTP/1.1 " ++ [48 + d1, 48 + d2, 48 + d3, 32] :=
          (h.trans (cstr_initial _).isInfix).trans (by simpa using ht.isInfix)
        exact hcr (terminator_has_cr _ hin))
  rw [(receive_quiet w hok hq).1, hc, List.append_assoc, hthrough.1, cstr_append_no_zero _ _ hz,
    List.append_assoc, statusOf_at_start]
  exact sscanf_three_digits d1 d2 d3 _ h1 h2 h3

/-- C11 for the response "HTTP/1.1 404 Not Found\r\n\r\n": the code is 404. -/
theorem C11_status_code_parsed_witness :
    (ESP8266_Receive_http_response
      (worldWith (ascii "HTTP/1.1 404 Not Found\r\n\r\n"))).1 = some (100 * 4 + 10 * 0 + 4) :=
  have h := worldWith_ring (ascii "HTTP/1.1 404 Not Found\r\n\r\n") (by decide)
  C11_status_code_parsed 4 0 4 (ascii "Not Found")
    (worldWith (ascii "HTTP/1.1 404 Not Found\r\n\r\n")) (by decide) (by decide) (by decide)
    h.1 rfl (by rw [h.2]; decide)

/-- C12, as stated, fails: the channel holds the 17 bytes "HTTP/1.1 200 OK\r\n", which
contain no "\r\n\r\n", and nothing more arrives; after the 15000 empty polls the function
returns 1 with the code 200, not 0. -/
theorem C12_timeout_reports_failure_counterexample :
    (ascii "HTTP/1.1 200 OK\r\n").length < 255 ∧
    ¬ [13, 10, 13, 10] <:+: ascii "HTTP/1.1 200 OK\r\n" ∧
    (ESP8266_Receive_http_response (worldWith (ascii "HTTP/1.1 200 OK\r\n"))).1 = some 200 ∧
    (ESP8266_Receive_http_response (worldWith (ascii "HTTP/1.1 200 OK\r\n"))).2.reads =
      (ascii "HTTP/1.1 200 OK\r\n").map some ++ List.replicate 15000 none := by
  have h := worldWith_ring (ascii "HTTP/1.1 200 OK\r\n") (by decide)
  have hq := receive_quiet (worldWith (ascii "HTTP/1.1 200 OK\r\n")) h.1 rfl
  have hmap : (ascii "HTTP/1.1 200 OK\r\n").map (· % 256) = ascii "HTTP/1.1 200 OK\r\n" := by
    decide
  rw [h.2, hmap] at hq
  have htake : recvTake [] (ascii "HTTP/1.1 200 OK\r\n") = ascii "HTTP/1.1 200 OK\r\n" := by
    decide
  have hto : recvTimesOut [] (ascii "HTTP/1.1 200 OK\r\n") = true := by decide
  refine ⟨by decide, by decide, ?_, ?_⟩
  · rw [hq.1, htake]; decide
  · rw [hq.2.2.2.2.2, htake, hto]; rfl

/-- C12, amended: when the channel holds a stream of fewer than 255 bytes that contains no
"\r\n\r\n" and nothing more arrives, `ESP8266_Receive_http_response` reads the whole stream
and returns only after 15000 consecutive empty polls, not earlier.  It has no result of its
own for the timeout: it returns what the text received gives, 0 when that text does not
contain "HTTP/1.1 ", and the status found in it otherwise. -/
theorem C12_timeout_then_parse (w : World) (hok : w.ring.Ok) (hq : w.rx = [])
    (hlen : w.ring.contents.length < 255) (hno : ¬ [13, 10, 13, 10] <:+: w.ring.contents) :
    (ESP8266_Receive_http_response w).2.reads =
      w.reads ++ w.ring.contents.map some ++ List.replicate 15000 none ∧
    (ESP8266_Receive_http_response w).2.ring.contents = [] ∧
    (ESP8266_Receive_http_response w).1 = statusOf (cstr w.ring.contents) ∧
    (¬ ascii "HTTP/1.1 " <:+: cstr w.ring.contents →
      (ESP8266_Receive_http_response w).1 = none) := by
  have hthrough := recvTake_through w.ring.contents [] [] (by
    intro t ht _
    simpa using not_recvStop_of_short w.ring.contents t (by omega) hno ht)
  simp only [List.append_nil, List.nil_append] at hthrough
  have htake : recvTake [] w.ring.contents = w.ring.contents := by
    rw [hthrough.1]; simp [recvTake]
  have hto : recvTimesOut [] w.ring.contents = true := by
    rw [hthrough.2]; simp [recvTimesOut]
  obtain ⟨q1, -, -, q4, -, q6⟩ := receive_quiet w hok hq
  rw [htake] at q1 q4 q6
  rw [hto] at q6
  refine ⟨by rw [q6]; rfl, by rw [q4]; simp, q1, ?_⟩
  intro habs
  rw [q1]
  have : strstr (cstr w.ring.contents) (ascii "HTTP/1.1 ") = none := by
    cases hs : strstr (cstr w.ring.contents) (ascii "HTTP/1.1 ") with
    | none => rfl
    | some x =>
      exact absurd ((strstr_isSome_iff _ _).1 (by rw [hs]; rfl)) habs
  simp [statusOf, this]

/-- C12, amended, on a stream without a status line: nothing but "OK\r\n" arrives. -/
theorem C12_timeout_then_parse_witness :
    (worldWith (ascii "OK\r\n")).ring.Ok ∧ (worldWith (ascii "OK\r\n")).rx = [] ∧
    (ESP8266_Receive_http_response (worldWith (ascii "OK\r\n"))).1 = none ∧
    (ESP8266_Receive_http_response (worldWith (ascii "OK\r\n"))).2.reads =
      (worldWith (ascii "OK\r\n")).reads ++
        (worldWith (ascii "OK\r\n")).ring.contents.map some ++ List.replicate 15000 none :=
  have h := worldWith_ring (ascii "OK\r\n") (by decide)
  have hc := C12_timeout_then_parse (worldWith (ascii "OK\r\n")) h.1 rfl
    (by rw [h.2]; decide) (by rw [h.2]; decide)
  ⟨h.1, rfl, hc.2.2.2 (by rw [h.2]; decide), hc.1⟩

/-- C14, as stated, fails when a zero byte precedes the terminator: the channel holds the six
bytes 0, CR, LF, CR, LF, 65, whose first "\r\n\r\n" ends at byte 5; the function reads all
six and goes on polling, and no byte remains in the channel. -/
theorem C14_stops_at_terminator_counterexample :
    [0, 13, 10, 13, 10, 65] = [0] ++ [13, 10, 13, 10] ++ [65] ∧
    (ESP8266_Receive_http_response (worldWith [0, 13, 10, 13, 10, 65])).2.reads =
      [some 0, some 13, some 10, some 13, some 10, some 65] ++ List.replicate 15000 none ∧
    (ESP8266_Receive_http_response (worldWith [0, 13, 10, 13, 10, 65])).2.ring.contents = [] := by
  have h := worldWith_ring [0, 13, 10, 13, 10, 65] (by decide)
  have hq := receive_quiet (worldWith [0, 13, 10, 13, 10, 65]) h.1 rfl
  have hmap : [0, 13, 10, 13, 10, 65].map (· % 256) = [0, 13, 10, 13, 10, 65] := by decide
  rw [h.2, hmap] at hq
  have htake : recvTake [] [0, 13, 10, 13, 10, 65] = [0, 13, 10, 13, 10, 65] := by decide
  have hto : recvTimesOut [] [0, 13, 10, 13, 10, 65] = true := by decide
  refine ⟨rfl, ?_, ?_⟩
  · rw [hq.2.2.2.2.2, htake, hto]; rfl
  · rw [hq.2.2.2.1, htake]; rfl

/-- C14, amended: on a channel that stores a stream and receives nothing more, the loop of
`ESP8266_Receive_http_response` takes bytes up to the first one at which the test `recvStop`
holds - 255 bytes are accumulated, or the text accumulated (the bytes before the first zero
byte) contains "\r\n\r\n" - and leaves the others in the channel; if the stream ends before
that, it stops after 15000 consecutive empty polls.  In particular, when the first
"\r\n\r\n" of the stream ends at byte `p <= 254` and no zero byte precedes it, exactly `p`
bytes are read and every later byte remains in the channel. -/
theorem C14_stops_at_first_condition (w : World) (hok : w.ring.Ok) (hq : w.rx = []) :
    (∃ taken rest nones,
      w.ring.contents = taken ++ rest ∧
      (ESP8266_Receive_http_response w).2.reads = w.reads ++ taken.map some ++ nones ∧
      (ESP8266_Receive_http_response w).2.ring.contents = rest ∧
      (∀ t, t <+: taken → t ≠ [] → t ≠ taken → ¬ recvStop t) ∧
      ((taken ≠ [] ∧ recvStop taken ∧ nones = []) ∨
        (rest = [] ∧ (∀ t, t <+: taken → t ≠ [] → ¬ recvStop t) ∧
          nones = List.replicate 15000 none))) ∧
    (∀ pre post, w.ring.contents = pre ++ [13, 10, 13, 10] ++ post → 0 ∉ pre →
      ¬ [13, 10, 13, 10] <:+: pre ++ [13, 10, 13] → pre.length + 4 ≤ 254 →
      (ESP8266_Receive_http_response w).2.reads =
        w.reads ++ (pre ++ [13, 10, 13, 10]).map some ∧
      (ESP8266_Receive_http_response w).2.ring.contents = post) := by
  obtain ⟨-, -, -, q4, -, q6⟩ := receive_quiet w hok hq
  obtain ⟨⟨r, hr⟩, hmin, hstop, hall⟩ := recvTake_spec w.ring.contents []
  simp only [List.nil_append] at hmin hstop hall
  constructor
  · refine ⟨recvTake [] w.ring.contents, r,
      if recvTimesOut [] w.ring.contents then List.replicate 15000 none else [], hr, q6, ?_,
      hmin, ?_⟩
    · rw [q4]
      have hd := List.drop_left (recvTake [] w.ring.contents) r
      rwa [← hr] at hd
    · cases hto : recvTimesOut [] w.ring.contents with
      | false =>
        obtain ⟨a, b⟩ := hstop hto
        exact Or.inl ⟨a, b, rfl⟩
      | true =>
        obtain ⟨a, b⟩ := hall hto
        refine Or.inr ⟨?_, ?_, rfl⟩
        · have := congrArg List.length hr
          rw [a] at this
          simp at this
          exact this
        · rw [a]; exact b
  · intro pre post hc hz hfirst hlen
    have hthrough := recvTake_through (pre ++ [13, 10, 13]) [] (10 :: post) (by
      intro t ht _
      have hl : (pre ++ [13, 10, 13]).length ≤ 254 := by simp; omega
      simpa using not_recvStop_of_short _ t hl hfirst ht)
    simp only [List.nil_append] at hthrough
    have hz2 : 0 ∉ pre ++ [13, 10, 13] ++ [10] := by simp [hz]
    have hs : recvStop (pre ++ [13, 10, 13] ++ [10]) := by
      refine Or.inr ⟨by simp, ?_⟩
      rw [cstr_no_zero _ hz2]
      exact ⟨pre, [], by simp⟩
    obtain ⟨ht, hto⟩ := recvTake_stop (pre ++ [13, 10, 13]) 10 post hs
    have hc2 : w.ring.contents = pre ++ [13, 10, 13] ++ 10 :: post := by
      rw [hc]; simp
    have htake : recvTake [] w.ring.contents = pre ++ [13, 10, 13, 10] := by
      rw [hc2, hthrough.1, ht]; simp
    have hto2 : recvTimesOut [] w.ring.contents = false := by
      rw [hc2, hthrough.2, hto]
    rw [q6, q4, htake, hto2]
    refine ⟨by simp, ?_⟩
    rw [hc]
    simp

/-- C14, amended, on a response followed by four more bytes: the 26 bytes up to the end of
"\r\n\r\n" are read, the four bytes after them stay in the channel. -/
theorem C14_stops_at_first_condition_witness :
    (worldWith (ascii "HTTP/1.1 404 Not Found\r\n\r\nmore")).ring.Ok ∧
    (worldWith (ascii "HTTP/1.1 404 Not Found\r\n\r\nmore")).rx = [] ∧
    (ESP8266_Receive_http_response
      (worldWith (ascii "HTTP/1.1 404 Not Found\r\n\r\nmore"))).2.ring.contents =
        ascii "more" :=
  have h := worldWith_ring (ascii "HTTP/1.1 404 Not Found\r\n\r\nmore") (by decide)
  have hc := (C14_stops_at_first_condition
    (worldWith (ascii "HTTP/1.1 404 Not Found\r\n\r\nmore")) h.1 rfl).2
    (ascii "HTTP/1.1 404 Not Found") (ascii "more") (by rw [h.2]; decide) (by decide)
    (by decide) (by decide)
  ⟨h.1, rfl, hc.2⟩

theorem sscanf_isSome_iff (s : List Nat) :
    (sscanf_3u s).isSome = true ↔ StartsNumeral (s.dropWhile isSpace) := by
  unfold sscanf_3u
  cases hd : s.dropWhile isSpace with
  | nil => simp [StartsNumeral]
  | cons c rest =>
    by_cases hsign : c = 43 ∨ c = 45
    · have hnd : isDigit c = false := by
        rcases hsign with h | h <;> subst h <;> decide
      simp only [hsign, if_true, StartsNumeral, hnd, Bool.false_eq_true, false_or, true_and]
      cases rest with
      | nil => simp
      | cons d rest2 =>
        by_cases hdig : isDigit d = true
        · simp [List.takeWhile_cons, hdig]
        · simp [List.takeWhile_cons, hdig]
    · simp only [hsign, if_false, StartsNumeral, false_and, or_false]
      by_cases hdig : isDigit c = true
      · simp [List.takeWhile_cons, hdig]
      · simp [List.takeWhile_cons, hdig]

/-- The status search succeeds exactly when "HTTP/1.1 " occurs in the text and a numeral
begins after its first occurrence and the white space that follows it. -/
theorem statusOf_isSome_iff (text : List Nat) :
    (statusOf text).isSome = true ↔
      ∃ pre post, text = pre ++ ascii "HTTP/1.1 " ++ post ∧
        (∀ k, k < pre.length → ¬ ascii "HTTP/1.1 " <+: text.drop k) ∧
        StartsNumeral (post.dropWhile isSpace) := by
  unfold statusOf
  constructor
  · intro h
    cases hs : strstr text (ascii "HTTP/1.1 ") with
    | none => rw [hs] at h; cases h
    | some suf =>
      rw [hs] at h
      obtain ⟨pre, hpre, ⟨post, hpost⟩, hfirst⟩ := (strstr_eq_some _ _ _).1 hs
      refine ⟨pre, post, by rw [hpre, ← hpost, List.append_assoc], hfirst, ?_⟩
      have hdrop : suf.drop 9 = post := by
        rw [← hpost]
        exact List.drop_left' (by decide)
      dsimp only at h
      rw [hdrop] at h
      exact (sscanf_isSome_iff post).1 h
  · rintro ⟨pre, post, htext, hfirst, hnum⟩
    have hs : strstr text (ascii "HTTP/1.1 ") = some (ascii "HTTP/1.1 " ++ post) :=
      (strstr_eq_some _ _ _).2 ⟨pre, by rw [htext, List.append_assoc], ⟨post, rfl⟩, hfirst⟩
    rw [hs]
    have hdrop : (ascii "HTTP/1.1 " ++ post).drop 9 = post := List.drop_left' (by decide)
    dsimp only
    rw [hdrop]
    exact (sscanf_isSome_iff post).2 hnum

/-- C13, as stated, fails: one digit after the prefix is enough, and a second space or a
sign directly after the prefix does not make the function fail.  On "HTTP/1.1 4\r\n\r\n" it
returns 1 with the code 4, on "HTTP/1.1  40\r\n\r\n" and on "HTTP/1.1 +40\r\n\r\n" it returns 1
with the code 40. -/
theorem C13_three_digits_required_counterexample :
    (ESP8266_Receive_http_response (worldWith (ascii "HTTP/1.1 4\r\n\r\n"))).1 = some 4 ∧
    (ESP8266_Receive_http_response (worldWith (ascii "HTTP/1.1  40\r\n\r\n"))).1 = some 40 ∧
    (ESP8266_Receive_http_response (worldWith (ascii "HTTP/1.1 +40\r\n\r\n"))).1 = some 40 := by
  have h1 := worldWith_ring (ascii "HTTP/1.1 4\r\n\r\n") (by decide)
  have h2 := worldWith_ring (ascii "HTTP/1.1  40\r\n\r\n") (by decide)
  have h3 := worldWith_ring (ascii "HTTP/1.1 +40\r\n\r\n") (by decide)
  refine ⟨?_, ?_, ?_⟩
  · rw [(receive_quiet _ h1.1 rfl).1, h1.2]; decide
  · rw [(receive_quiet _ h2.1 rfl).1, h2.2]; decide
  · rw [(receive_quiet _ h3.1 rfl).1, h3.2]; decide

/-- C13, amended: whatever arrives, `ESP8266_Receive_http_response` returns 1 if and only if
the text accumulated (the bytes read, up to the first zero byte) contains "HTTP/1.1 " and,
after the first occurrence of it and any white space that follows, a numeral begins: a
decimal digit, or a sign and a decimal digit.  In every other case it returns 0.  Three
digits are not required. -/
theorem C13_return_value_rule (w : World) :
    ∃ rs : List (Option Nat),
      (ESP8266_Receive_http_response w).2.reads = w.reads ++ rs ∧
      ((ESP8266_Receive_http_response w).1.isSome = true ↔
        ∃ pre post, cstr (bytesOf rs) = pre ++ ascii "HTTP/1.1 " ++ post ∧
          (∀ k, k < pre.length → ¬ ascii "HTTP/1.1 " <+: (cstr (bytesOf rs)).drop k) ∧
          StartsNumeral (post.dropWhile isSpace)) := by
  obtain ⟨rs, h1, -, -, h4⟩ := receive_general w
  exact ⟨rs, h1, by rw [h4]; exact statusOf_isSome_iff _⟩

/-! ## Detection rule lemmas -/

theorem nextIndex_of_length (n : Nat) : nextIndex (n % 19) = (n + 1) % 19 := by
  unfold nextIndex
  have h : n % 19 < 19 := Nat.mod_lt _ (by decide)
  have hm : (n % 19 + 1) % 256 = n % 19 + 1 := by omega
  rw [hm]
  split <;> omega

/-- The test of the loop body, on the bytes read so far: after the byte `d` has been stored
the token is seen exactly when `okAt` holds at the new length. -/
theorem tokenSeen_iff_okAt (cs : List Nat) (response : Nat → Nat) (d : Nat)
    (hlast : cs.length % 19 ≥ 1 → cs[cs.length - 1]? = some (response (cs.length % 19 - 1))) :
    tokenSeen (storeByte response (cs.length % 19) d) (nextIndex (cs.length % 19)) ↔
      okAt (cs ++ [d]) (cs.length + 1) := by
  rw [nextIndex_of_length]
  unfold tokenSeen okAt storeByte
  have hd : (cs ++ [d])[cs.length + 1 - 1]? = some d := by simp
  constructor
  · rintro ⟨h2, hO, hK⟩
    have hidx : (cs.length + 1) % 19 = cs.length % 19 + 1 := by omega
    have h1 : cs.length % 19 ≥ 1 := by omega
    have hne : (cs.length + 1) % 19 - 2 ≠ cs.length % 19 := by omega
    have heq : (cs.length + 1) % 19 - 1 = cs.length % 19 := by omega
    rw [if_neg hne] at hO
    rw [heq, if_pos rfl] at hK
    refine ⟨by omega, by omega, by rw [hd, hK], ?_⟩
    have hpos : cs.length ≥ 1 := by
      by_contra hc
      have : cs.length = 0 := by omega
      rw [this] at h1
      simp at h1
    have hcs : (cs ++ [d])[cs.length + 1 - 2]? = cs[cs.length - 1]? := by
      rw [show cs.length + 1 - 2 = cs.length - 1 by omega]
      exact List.getElem?_append_left (by omega)
    rw [hcs, hlast h1, ← hO]
    congr 2
    omega
  · rintro ⟨h0, h1', hK, hO⟩
    have hge : (cs.length + 1) % 19 ≥ 2 := by omega
    have hidx : (cs.length + 1) % 19 = cs.length % 19 + 1 := by omega
    have h1 : cs.length % 19 ≥ 1 := by omega
    have hne : (cs.length + 1) % 19 - 2 ≠ cs.length % 19 := by omega
    have heq : (cs.length + 1) % 19 - 1 = cs.length % 19 := by omega
    have hpos : cs.length ≥ 1 := by
      by_contra hc
      have : cs.length = 0 := by omega
      rw [this] at h1
      simp at h1
    have hcs : (cs ++ [d])[cs.length + 1 - 2]? = cs[cs.length - 1]? := by
      rw [show cs.length + 1 - 2 = cs.length - 1 by omega]
      exact List.getElem?_append_left (by omega)
    rw [hd] at hK
    rw [hcs, hlast h1] at hO
    refine ⟨hge, ?_, ?_⟩
    · rw [if_neg hne]
      have : response ((cs.length + 1) % 19 - 2) = response (cs.length % 19 - 1) := by
        congr 1; omega
      rw [this]
      exact Option.some.inj hO
    · rw [heq, if_pos rfl]
      exact Option.some.inj hK

theorem okAt_append (cs : List Nat) (d n : Nat) (hn : n ≤ cs.length) :
    okAt (cs ++ [d]) n ↔ okAt cs n := by
  unfold okAt
  by_cases h2 : n % 19 ≠ 0 ∧ n % 19 ≠ 1
  · have hn2 : n ≥ 2 := by
      by_contra hc
      have : n = 0 ∨ n = 1 := by omega
      rcases this with h | h <;> subst h <;> simp at h2
    rw [List.getElem?_append_left (by omega), List.getElem?_append_left (by omega)]
  · constructor <;> intro h <;> exact absurd ⟨h.1, h.2.1⟩ h2

theorem okAt_le_length (cs : List Nat) (n : Nat) (h : okAt cs n) : n ≤ cs.length := by
  unfold okAt at h
  by_contra hc
  have : cs[n - 1]? = none := List.getElem?_eq_none (by omega)
  rw [this] at h
  exact absurd h.2.2.1 (by simp)

theorem read_head (s : Ring) : (USART1_ReadByte s).2.head = s.head := by
  unfold USART1_ReadByte
  split <;> rfl

/-- One poll when nothing arrives: the head index stays, and what the poll returns is taken
from the front of the stored bytes. -/
theorem readByte_quiet_step (w w1 : World) (o : Option Nat) (hrb : w.readByte = (o, w1))
    (hq : w.rx = []) :
    w1.rx = [] ∧ w1.ring.head = w.ring.head ∧
      (w.ring.Ok → w1.ring.Ok ∧ o.toList ++ w1.ring.contents = w.ring.contents) := by
  have hrq := readByte_quiet w hq
  rw [hrb] at hrq
  have ho : o = (USART1_ReadByte w.ring).1 := congrArg Prod.fst hrq
  have hw1 := congrArg Prod.snd hrq
  dsimp only at hw1
  have hring : w1.ring = (USART1_ReadByte w.ring).2 := by rw [hw1]
  refine ⟨by rw [hw1]; exact hq, by rw [hring]; exact read_head _, ?_⟩
  intro hok
  refine ⟨by rw [hring]; exact read_ok _ hok, ?_⟩
  by_cases he : w.ring.head = w.ring.tail
  · rw [read_empty _ he] at ho hring
    rw [ho, hring]
    rfl
  · obtain ⟨b, hb, hcont, -, -⟩ := read_contents _ hok he
    rw [ho, hb, hring, hcont]
    rfl

/-- The detection rule as an invariant of the loop, whatever arrives and whatever the fuel:
`cs` are the bytes read so far in the call. -/
theorem wait_loop_rule (fuel : Nat) : ∀ (cs : List Nat) (response : Nat → Nat) (timeout : Nat)
    (w : World),
    (cs.length % 19 ≥ 1 → cs[cs.length - 1]? = some (response (cs.length % 19 - 1))) →
    (∀ n, n ≤ cs.length → ¬ okAt cs n) →
    ∃ rs : List (Option Nat),
      (ESP8266_WaitForResponse_loop fuel response (cs.length % 19) timeout w).2.reads =
        w.reads ++ rs ∧
      ((ESP8266_WaitForResponse_loop fuel response (cs.length % 19) timeout w).1 = true →
        okAt (cs ++ bytesOf rs) (cs ++ bytesOf rs).length ∧
        ∀ n, n < (cs ++ bytesOf rs).length → ¬ okAt (cs ++ bytesOf rs) n) ∧
      ((ESP8266_WaitForResponse_loop fuel response (cs.length % 19) timeout w).1 = false →
        ∀ n, n ≤ (cs ++ bytesOf rs).length → ¬ okAt (cs ++ bytesOf rs) n) ∧
      (w.rx = [] →
        (ESP8266_WaitForResponse_loop fuel response (cs.length % 19) timeout w).2.rx = [] ∧
        (ESP8266_WaitForResponse_loop fuel response (cs.length % 19) timeout w).2.ring.head =
          w.ring.head ∧
        (w.ring.Ok →
          bytesOf rs ++
            (ESP8266_WaitForResponse_loop fuel response (cs.length % 19) timeout w).2.ring.contents
            = w.ring.contents)) := by
  induction fuel with
  | zero =>
    intro cs response timeout w _ hno
    refine ⟨[], by simp [ESP8266_WaitForResponse_loop], ?_, ?_, ?_⟩
    · intro h; simp [ESP8266_WaitForResponse_loop] at h
    · intro _; simpa [bytesOf] using hno
    · intro hq; exact ⟨hq, rfl, fun _ => by simp [ESP8266_WaitForResponse_loop, bytesOf]⟩
  | succ fuel ih =>
    intro cs response timeout w hlast hno
    by_cases hlt : timeout < 1000
    · rcases hrb : w.readByte with ⟨o, w1⟩
      have hf := readByte_fields w
      rw [hrb] at hf
      dsimp only at hf
      have hstep := readByte_quiet_step w w1 o hrb
      cases o with
      | none =>
        rw [wait_loop_none _ _ _ _ _ _ hlt hrb]
        obtain ⟨rs, h1, h2, h3, h4⟩ := ih cs response (timeout + 1) (Delay_ms 1 w1) hlast hno
        refine ⟨none :: rs, ?_, ?_, ?_, ?_⟩
        · rw [h1]; simp [Delay_ms, hf.2.1]
        · simpa [bytesOf, List.reduceOption_cons_of_none] using h2
        · simpa [bytesOf, List.reduceOption_cons_of_none] using h3
        · intro hq
          obtain ⟨s1, s2, s3⟩ := hstep hq
          obtain ⟨a, b, c⟩ := h4 s1
          refine ⟨a, by rw [b]; exact s2, ?_⟩
          intro hok
          obtain ⟨s4, s5⟩ := s3 hok
          have := c s4
          simp only [bytesOf, List.reduceOption_cons_of_none]
          rw [show (Delay_ms 1 w1).ring = w1.ring from rfl] at this
          rw [← s5]
          simpa [bytesOf] using this
      | some d =>
        rw [wait_loop_some _ _ _ _ _ _ _ hlt hrb]
        have hiff := tokenSeen_iff_okAt cs response d hlast
        by_cases hseen : tokenSeen (storeByte response (cs.length % 19) d)
            (nextIndex (cs.length % 19))
        · rw [if_pos hseen]
          refine ⟨[some d], hf.2.1, ?_, ?_, ?_⟩
          · intro _
            simp only [bytesOf, List.reduceOption_cons_of_some, List.reduceOption_nil]
            refine ⟨by simpa using hiff.1 hseen, ?_⟩
            intro n hn
            rw [okAt_append cs d n (by simp at hn; omega)]
            exact hno n (by simp at hn; omega)
          · intro h; cases h
          · intro hq
            obtain ⟨s1, s2, s3⟩ := hstep hq
            refine ⟨s1, s2, ?_⟩
            intro hok
            simpa [bytesOf, List.reduceOption_cons_of_some] using (s3 hok).2
        · rw [if_neg hseen]
          have hl : (cs ++ [d]).length = cs.length + 1 := by simp
          have hidx : nextIndex (cs.length % 19) = (cs ++ [d]).length % 19 := by
            rw [nextIndex_of_length, hl]
          rw [hidx]
          have hlast2 : (cs ++ [d]).length % 19 ≥ 1 →
              (cs ++ [d])[(cs ++ [d]).length - 1]? =
                some (storeByte response (cs.length % 19) d ((cs ++ [d]).length % 19 - 1)) := by
            intro h1
            rw [hl] at h1 ⊢
            have : (cs.length + 1) % 19 - 1 = cs.length % 19 := by omega
            rw [this]
            simp [storeByte]
          have hno2 : ∀ n, n ≤ (cs ++ [d]).length → ¬ okAt (cs ++ [d]) n := by
            intro n hn
            rw [hl] at hn
            by_cases hcase : n ≤ cs.length
            · rw [okAt_append cs d n hcase]; exact hno n hcase
            · have : n = cs.length + 1 := by omega
              subst this
              exact fun h => hseen (hiff.2 h)
          obtain ⟨rs, h1, h2, h3, h4⟩ := ih (cs ++ [d])
            (storeByte response (cs.length % 19) d) timeout w1 hlast2 hno2
          refine ⟨some d :: rs, ?_, ?_, ?_, ?_⟩
          · rw [h1, hf.2.1]; simp
          · simpa [bytesOf, List.reduceOption_cons_of_some] using h2
          · simpa [bytesOf, List.reduceOption_cons_of_some] using h3
          · intro hq
            obtain ⟨s1, s2, s3⟩ := hstep hq
            obtain ⟨a, b, c⟩ := h4 s1
            refine ⟨a, by rw [b]; exact s2, ?_⟩
            intro hok
            obtain ⟨s4, s5⟩ := s3 hok
            have := c s4
            rw [← s5]
            simpa [bytesOf, List.reduceOption_cons_of_some] using this
    · rw [wait_loop_exit _ _ _ _ _ hlt]
      refine ⟨[], by simp, ?_, ?_, ?_⟩
      · intro h; cases h
      · intro _; simpa [bytesOf] using hno
      · intro hq; exact ⟨hq, rfl, fun _ => by simp [bytesOf]⟩

/-! ## The token scanner: detection rule and array bounds -/

/-- C19: in every call of `ESP8266_WaitForResponse`, with `bytes` the bytes it reads, it
returns 1 if and only if there is an `n` such that the `n`-th byte read is K, the one before
it is O, and `n mod 19` is neither 0 nor 1; when it returns 1 the least such `n` is the
number of bytes it has read, so that what was stored after them is still in the channel; a
token whose K is the 19th, 20th, 38th, 39th, ... byte does not count.  On a channel with
valid indices it returns 1 before 1000 empty polls have been counted and 0 after exactly
1000. -/
theorem C19_detection_rule (w : World) :
    ∃ rs : List (Option Nat),
      (ESP8266_WaitForResponse w).2.reads = w.reads ++ rs ∧
      ((ESP8266_WaitForResponse w).1 = true ↔ ∃ n, okAt (bytesOf rs) n) ∧
      ((ESP8266_WaitForResponse w).1 = true →
        okAt (bytesOf rs) (bytesOf rs).length ∧
        ∀ n, n < (bytesOf rs).length → ¬ okAt (bytesOf rs) n) ∧
      (∀ n, n % 19 = 0 ∨ n % 19 = 1 → ¬ okAt (bytesOf rs) n) ∧
      (w.ring.Ok →
        ((ESP8266_WaitForResponse w).1 = true → rs.count none < 1000) ∧
        ((ESP8266_WaitForResponse w).1 = false → rs.count none = 1000)) ∧
      (w.ring.Ok → w.rx = [] →
        w.ring.contents = bytesOf rs ++ (ESP8266_WaitForResponse w).2.ring.contents) := by
  obtain ⟨rs, h1, h2, h3, h4⟩ := wait_loop_rule (waitBound 0 w) [] (fun _ => 0) 0 w
    (by intro h; simp at h) (by
      intro n hn hok
      have := okAt_le_length _ _ hok
      have h0 : n = 0 := by simpa using hn
      subst h0
      exact hok.1 rfl)
  simp only [List.length_nil, Nat.zero_mod, List.nil_append] at h1 h2 h3 h4
  refine ⟨rs, h1, ?_, h2, ?_, ?_, ?_⟩
  · constructor
    · intro h; exact ⟨_, (h2 h).1⟩
    · rintro ⟨n, hn⟩
      cases hr : (ESP8266_WaitForResponse w).1 with
      | true => rfl
      | false => exact absurd hn (h3 hr n (okAt_le_length _ _ hn))
  · rintro n (h | h) hok
    · exact hok.1 h
    · exact hok.2.1 h
  · intro hok
    obtain ⟨-, rs2, g1, -, gfalse, gtrue, -⟩ :=
      wait_loop_spec (waitBound 0 w) (fun _ => 0) 0 0 w hok (by decide) (Nat.le_refl _)
    have hrs : rs2 = rs := by
      have : w.reads ++ rs2 = w.reads ++ rs := by rw [← g1]; exact h1
      exact List.append_cancel_left this
    subst hrs
    exact ⟨fun h => by have := gtrue h; omega, fun h => by have := gfalse h; omega⟩
  · intro hok hq
    exact ((h4 hq).2.2 hok).symm

/-- C19 on a channel that stores "AT\r\n\r\nOK\r\n" and receives nothing more. -/
theorem C19_detection_rule_witness :
    (worldWith (ascii "AT\r\n\r\nOK\r\n")).ring.Ok ∧
    (worldWith (ascii "AT\r\n\r\nOK\r\n")).rx = [] ∧
    ∃ rs : List (Option Nat),
      ((ESP8266_WaitForResponse (worldWith (ascii "AT\r\n\r\nOK\r\n"))).1 = true ↔
        ∃ n, okAt (bytesOf rs) n) ∧
      (worldWith (ascii "AT\r\n\r\nOK\r\n")).ring.contents =
        bytesOf rs ++
          (ESP8266_WaitForResponse (worldWith (ascii "AT\r\n\r\nOK\r\n"))).2.ring.contents :=
  have hok := (worldWith_ring (ascii "AT\r\n\r\nOK\r\n") (by decide)).1
  match C19_detection_rule (worldWith (ascii "AT\r\n\r\nOK\r\n")) with
  | ⟨rs, _, hiff, _, _, _, hcons⟩ => ⟨hok, rfl, rs, hiff, hcons hok rfl⟩

theorem wait_logged_exit (fuel : Nat) (response : Nat → Nat) (index timeout : Nat)
    (w : World) (log : List Access) (h : ¬ timeout < 1000) :
    ESP8266_WaitForResponse_logged fuel response index timeout w log = ((false, w), log) := by
  cases fuel <;> simp [ESP8266_WaitForResponse_logged, ESP8266_TIMEOUT, h]

theorem wait_logged_some (fuel : Nat) (response : Nat → Nat) (index timeout d : Nat)
    (w w1 : World) (log : List Access) (hlt : timeout < 1000)
    (hrb : w.readByte = (some d, w1)) :
    ESP8266_WaitForResponse_logged (fuel + 1) response index timeout w log =
      if tokenSeen (storeByte response index d) (nextIndex index) then
        ((true, w1), stepLog response index d log)
      else ESP8266_WaitForResponse_logged fuel (storeByte response index d) (nextIndex index)
        timeout w1 (stepLog response index d log) := by
  simp only [ESP8266_WaitForResponse_logged, ESP8266_TIMEOUT, hlt, if_true, hrb]
  rfl

theorem wait_logged_none (fuel : Nat) (response : Nat → Nat) (index timeout : Nat)
    (w w1 : World) (log : List Access) (hlt : timeout < 1000)
    (hrb : w.readByte = (none, w1)) :
    ESP8266_WaitForResponse_logged (fuel + 1) response index timeout w log =
      ESP8266_WaitForResponse_logged fuel response index (timeout + 1) (Delay_ms 1 w1) log := by
  have hwrap : (timeout + 1) % 65536 = timeout + 1 := by omega
  simp only [ESP8266_WaitForResponse_logged, ESP8266_TIMEOUT, hlt, if_true, hrb, hwrap]

/-- The logged loop computes what the loop computes. -/
theorem wait_logged_fst (fuel : Nat) : ∀ (response : Nat → Nat) (index timeout : Nat)
    (w : World) (log : List Access),
    (ESP8266_WaitForResponse_logged fuel response index timeout w log).1 =
      ESP8266_WaitForResponse_loop fuel response index timeout w := by
  induction fuel with
  | zero => intro _ _ _ _ _; rfl
  | succ fuel ih =>
    intro response index timeout w log
    by_cases hlt : timeout < 1000
    · rcases hrb : w.readByte with ⟨o, w1⟩
      cases o with
      | none =>
        rw [wait_logged_none _ _ _ _ _ _ _ hlt hrb, wait_loop_none _ _ _ _ _ _ hlt hrb]
        exact ih _ _ _ _ _
      | some d =>
        rw [wait_logged_some _ _ _ _ _ _ _ _ hlt hrb, wait_loop_some _ _ _ _ _ _ _ hlt hrb]
        by_cases hseen : tokenSeen (storeByte response index d) (nextIndex index)
        · rw [if_pos hseen, if_pos hseen]
        · rw [if_neg hseen, if_neg hseen]
          exact ih _ _ _ _ _
    · rw [wait_logged_exit _ _ _ _ _ _ hlt, wait_loop_exit _ _ _ _ _ hlt]

theorem nextIndex_le (index : Nat) : nextIndex index ≤ 18 := by
  unfold nextIndex
  split <;> omega

theorem stepLog_bounds (response : Nat → Nat) (index d : Nat) (log : List Access)
    (hidx : index ≤ 18) (hlog : ∀ a ∈ log, a.inBounds) :
    ∀ a ∈ stepLog response index d log, a.inBounds := by
  have hn := nextIndex_le index
  have hstore : (Access.store index).inBounds := hidx
  intro a ha
  unfold stepLog at ha
  split at ha
  · rename_i h2
    have hl2 : (Access.load ((nextIndex index : Int) - 2)).inBounds := by
      simp only [Access.inBounds]; omega
    have hl1 : (Access.load ((nextIndex index : Int) - 1)).inBounds := by
      simp only [Access.inBounds]; omega
    split at ha
    · simp only [List.mem_append, List.mem_singleton, List.mem_cons,
        List.mem_nil_iff, or_false] at ha
      rcases ha with (ha | ha) | ha | ha
      · exact hlog a ha
      · rw [ha]; exact hstore
      · rw [ha]; exact hl2
      · rw [ha]; exact hl1
    · simp only [List.mem_append, List.mem_singleton] at ha
      rcases ha with (ha | ha) | ha
      · exact hlog a ha
      · rw [ha]; exact hstore
      · rw [ha]; exact hl2
  · simp only [List.mem_append, List.mem_singleton] at ha
    rcases ha with ha | ha
    · exact hlog a ha
    · rw [ha]; exact hstore

/-- Every access the loop makes to `response` is inside the array. -/
theorem wait_logged_bounds (fuel : Nat) : ∀ (response : Nat → Nat) (index timeout : Nat)
    (w : World) (log : List Access), index ≤ 18 → (∀ a ∈ log, a.inBounds) →
    ∀ a ∈ (ESP8266_WaitForResponse_logged fuel response index timeout w log).2,
      a.inBounds := by
  induction fuel with
  | zero => intro _ _ _ _ log _ hlog; exact hlog
  | succ fuel ih =>
    intro response index timeout w log hidx hlog
    by_cases hlt : timeout < 1000
    · rcases hrb : w.readByte with ⟨o, w1⟩
      cases o with
      | none =>
        rw [wait_logged_none _ _ _ _ _ _ _ hlt hrb]
        exact ih _ _ _ _ _ hidx hlog
      | some d =>
        rw [wait_logged_some _ _ _ _ _ _ _ _ hlt hrb]
        have hl := stepLog_bounds response index d log hidx hlog
        by_cases hseen : tokenSeen (storeByte response index d) (nextIndex index)
        · rw [if_pos hseen]; exact hl
        · rw [if_neg hseen]
          exact ih _ _ _ _ _ (nextIndex_le index) hl
    · rw [wait_logged_exit _ _ _ _ _ _ hlt]
      exact hlog

theorem wait_ok (w : World) (h : w.ring.Ok) : (ESP8266_WaitForResponse w).2.ring.Ok :=
  (wait_loop_spec (waitBound 0 w) (fun _ => 0) 0 0 w h (by decide) (Nat.le_refl _)).1

theorem wait_head (w : World) (hq : w.rx = []) :
    (ESP8266_WaitForResponse w).2.rx = [] ∧
      (ESP8266_WaitForResponse w).2.ring.head = w.ring.head := by
  obtain ⟨rs, -, -, -, h4⟩ := wait_loop_rule (waitBound 0 w) [] (fun _ => 0) 0 w
    (by intro h; simp at h) (by
      intro n hn hok
      have h0 : n = 0 := by simpa using hn
      subst h0
      exact hok.1 rfl)
  exact ⟨(h4 hq).1, (h4 hq).2.1⟩

theorem step_ok (cmdIndex : Nat) (w : World) (h : w.ring.Ok) :
    (ESP8266_Init_step cmdIndex w).2.ring.Ok :=
  wait_ok (Delay_ms 1000 (printf (commands.getD cmdIndex []) w)) h

theorem step_head (cmdIndex : Nat) (w : World) (hq : w.rx = []) :
    (ESP8266_Init_step cmdIndex w).2.rx = [] ∧
      (ESP8266_Init_step cmdIndex w).2.ring.head = w.ring.head :=
  wait_head (Delay_ms 1000 (printf (commands.getD cmdIndex []) w)) hq

theorem inner_ok_head (fuel : Nat) : ∀ (cmdIndex : Nat) (w : World),
    (w.ring.Ok → (ESP8266_Init_inner fuel cmdIndex w).2.2.ring.Ok) ∧
    (w.rx = [] → (ESP8266_Init_inner fuel cmdIndex w).2.2.rx = [] ∧
      (ESP8266_Init_inner fuel cmdIndex w).2.2.ring.head = w.ring.head) := by
  induction fuel with
  | zero => intro _ w; exact ⟨fun h => h, fun h => ⟨h, rfl⟩⟩
  | succ fuel ih =>
    intro cmdIndex w
    by_cases hlt : cmdIndex < cmdCount
    · have hok := step_ok cmdIndex w
      have hhd := step_head cmdIndex w
      rcases hs : ESP8266_Init_step cmdIndex w with ⟨b, w1⟩
      rw [hs] at hok hhd
      dsimp only at hok hhd
      cases b with
      | false =>
        rw [ESP8266_Init_inner, if_pos hlt, hs]
        exact ⟨hok, hhd⟩
      | true =>
        rw [ESP8266_Init_inner, if_pos hlt, hs]
        obtain ⟨i1, i2⟩ := ih (cmdIndex + 1) w1
        refine ⟨fun h => i1 (hok h), fun h => ?_⟩
        obtain ⟨a, b⟩ := hhd h
        obtain ⟨c, d⟩ := i2 a
        exact ⟨c, by rw [d, b]⟩
    · rw [ESP8266_Init_inner, if_neg hlt]
      exact ⟨fun h => h, fun h => ⟨h, rfl⟩⟩

theorem outer_ok_head (fuel : Nat) : ∀ (retryCount : Nat) (success : Bool) (w : World),
    (w.ring.Ok → (ESP8266_Init_outer fuel retryCount success w).2.2.ring.Ok) ∧
    (w.rx = [] → (ESP8266_Init_outer fuel retryCount success w).2.2.rx = [] ∧
      (ESP8266_Init_outer fuel retryCount success w).2.2.ring.head = w.ring.head) := by
  induction fuel with
  | zero => intro _ _ w; exact ⟨fun h => h, fun h => ⟨h, rfl⟩⟩
  | succ fuel ih =>
    intro retryCount success w
    by_cases hc : retryCount < ESP8266_MAX_RETRIES ∧ success = false
    · obtain ⟨j1, j2⟩ := inner_ok_head cmdCount 0 w
      rcases hs : ESP8266_Init_inner cmdCount 0 w with ⟨b, i, w1⟩
      rw [hs] at j1 j2
      dsimp only at j1 j2
      cases b with
      | false =>
        rw [ESP8266_Init_outer, if_pos hc, hs]
        obtain ⟨i1, i2⟩ := ih (retryCount + 1) false (Delay_ms 2000 w1)
        refine ⟨fun h => i1 (j1 h), fun h => ?_⟩
        obtain ⟨a, b⟩ := j2 h
        obtain ⟨c, d⟩ := i2 a
        exact ⟨c, by rw [d]; exact b⟩
      | true =>
        rw [ESP8266_Init_outer, if_pos hc, hs]
        obtain ⟨i1, i2⟩ := ih retryCount true w1
        refine ⟨fun h => i1 (j1 h), fun h => ?_⟩
        obtain ⟨a, b⟩ := j2 h
        obtain ⟨c, d⟩ := i2 a
        exact ⟨c, by rw [d, b]⟩
    · rw [ESP8266_Init_outer, if_neg hc]
      exact ⟨fun h => h, fun h => ⟨h, rfl⟩⟩

/-- The startup sequence leaves valid indices, whatever it started from; when nothing
arrives it leaves the head index at the 0 it has written. -/
theorem init_ok_head (w : World) :
    (ESP8266_Init w).ring.Ok ∧ (w.rx = [] → (ESP8266_Init w).ring.head = 0) := by
  obtain ⟨h1, h2⟩ := outer_ok_head ESP8266_MAX_RETRIES 0 false (clearRx w)
  exact ⟨h1 (by simp [clearRx, Ring.Ok]), fun hq => (h2 hq).2⟩

theorem restart_ok_head (w : World) :
    (ESP8266_Restart w).ring.Ok ∧ (w.rx = [] → (ESP8266_Restart w).ring.head = 0) := by
  unfold ESP8266_Restart
  exact ⟨(init_ok_head _).1, fun hq => (init_ok_head _).2 hq⟩

theorem irq_tail (rxne : Bool) (dr : Nat) (s : Ring) :
    (USART1_IRQHandler rxne dr s).tail = s.tail := by
  unfold USART1_IRQHandler
  cases rxne
  · rfl
  · by_cases hf : (s.head + 1) % USART1_RX_BUFFER_SIZE = s.tail
    · simp [hf]
    · simp [hf]

theorem receive_ok (w : World) (h : w.ring.Ok) :
    (ESP8266_Receive_http_response w).2.ring.Ok := by
  obtain ⟨rs, -, -, -, -, -, -, h7⟩ := recv_loop_inv (recvBound 0 0) [] 0 [] w (by decide)
  rw [listBuf_nil] at h7
  exact h7 h

theorem receive_writes (w : World) :
    (∀ i ∈ (ESP8266_Receive_run w).writes, i ≤ 254) ∧ (ESP8266_Receive_run w).index ≤ 255 := by
  obtain ⟨rs, -, -, -, g4, g5, g6, -⟩ := recv_loop_inv (recvBound 0 0) [] 0 [] w (by decide)
  rw [listBuf_nil] at g4 g6
  simp only [List.length_nil, List.nil_append] at g4 g5 g6
  unfold ESP8266_Receive_run
  rw [g4, g6]
  refine ⟨?_, g5⟩
  intro i hi
  rw [List.mem_range'_1] at hi
  omega

/-- C20: no access of the transport layer leaves its array.  The handler and
`USART1_ReadByte` keep both ring indices below 256, and so does every application
operation, for every inbound stream; every store of `ESP8266_WaitForResponse` into its
20-cell array goes to a cell up to 18 and every load of its test to a cell from 0 to 17, the
loads being made only when `index >= 2`; every store of `ESP8266_Receive_http_response` into
its 256-cell array goes to a cell up to 254, and the final zero to a cell up to 255. -/
theorem C20_accesses_in_bounds :
    (∀ (rxne : Bool) (dr : Nat) (s : Ring), s.Ok → (USART1_IRQHandler rxne dr s).Ok) ∧
    (∀ s : Ring, s.Ok → (USART1_ReadByte s).2.Ok) ∧
    (∀ w : World, w.ring.Ok →
      (w.readByte).2.ring.Ok ∧ (ESP8266_WaitForResponse w).2.ring.Ok ∧
      (ESP8266_Receive_http_response w).2.ring.Ok) ∧
    (∀ w : World, (ESP8266_Init w).ring.Ok ∧ (ESP8266_Restart w).ring.Ok) ∧
    (∀ w : World,
      (ESP8266_WaitForResponse_logged (waitBound 0 w) (fun _ => 0) 0 0 w []).1 =
        ESP8266_WaitForResponse w ∧
      ∀ a ∈ waitAccesses w, a.inBounds) ∧
    (∀ w : World,
      (∀ i ∈ (ESP8266_Receive_run w).writes, i ≤ 254) ∧
      (ESP8266_Receive_run w).index ≤ 255) := by
  refine ⟨irq_ok, read_ok, ?_, ?_, ?_, receive_writes⟩
  · intro w h
    exact ⟨readByte_ok w h, wait_ok w h, receive_ok w h⟩
  · intro w
    exact ⟨(init_ok_head w).1, (restart_ok_head w).1⟩
  · intro w
    exact ⟨wait_logged_fst _ _ _ _ _ _,
      wait_logged_bounds _ _ _ _ _ _ (by decide) (by intro a ha; cases ha)⟩

/-- C20 on a channel that stores a reply of 10 bytes: the indices stay valid through the
wait, and the stores of the wait go to the cells 0 to 9. -/
theorem C20_accesses_in_bounds_witness :
    (worldWith (ascii "AT\r\n\r\nOK\r\n")).ring.Ok ∧
    (ESP8266_WaitForResponse (worldWith (ascii "AT\r\n\r\nOK\r\n"))).2.ring.Ok ∧
    ∀ a ∈ waitAccesses (worldWith (ascii "AT\r\n\r\nOK\r\n")), a.inBounds :=
  have hok := (worldWith_ring (ascii "AT\r\n\r\nOK\r\n") (by decide)).1
  ⟨hok, (C20_accesses_in_bounds.2.2.1 _ hok).2.1, (C20_accesses_in_bounds.2.2.2.2.1 _).2⟩

/-- C16, as stated, fails for `ESP8266_Init` and `ESP8266_Restart`: with two bytes stored
(head index 2) and nothing arriving, so that the handler never runs, each of them leaves the
head index at 0. -/
theorem C16_disjoint_index_writers_counterexample :
    (worldWith [79, 75]).ring.head = 2 ∧ (worldWith [79, 75]).rx = [] ∧
    (ESP8266_Init (worldWith [79, 75])).ring.head = 0 ∧
    (ESP8266_Restart (worldWith [79, 75])).ring.head = 0 :=
  ⟨by decide, rfl, (init_ok_head _).2 rfl, (restart_ok_head _).2 rfl⟩

/-- C16, amended: the handler never writes the tail index, and `USART1_ReadByte`,
`ESP8266_WaitForResponse` and `ESP8266_Receive_http_response` never write the head index
(it is the same after them whenever nothing has arrived in between); `ESP8266_Init` does
write the head index, setting both indices to 0 before its first command, and
`ESP8266_Restart` does so through it. -/
theorem C16_index_writers :
    (∀ (rxne : Bool) (dr : Nat) (s : Ring), (USART1_IRQHandler rxne dr s).tail = s.tail) ∧
    (∀ s : Ring, (USART1_ReadByte s).2.head = s.head) ∧
    (∀ w : World, w.rx = [] → (ESP8266_WaitForResponse w).2.ring.head = w.ring.head) ∧
    (∀ w : World, w.ring.Ok → w.rx = [] →
      (ESP8266_Receive_http_response w).2.ring.head = w.ring.head) ∧
    (∀ w : World, (clearRx w).ring.head = 0 ∧ (clearRx w).ring.tail = 0) ∧
    (∀ w : World, w.rx = [] →
      (ESP8266_Init w).ring.head = 0 ∧ (ESP8266_Restart w).ring.head = 0) := by
  refine ⟨irq_tail, read_head, fun w hq => (wait_head w hq).2,
    fun w hok hq => (receive_quiet w hok hq).2.2.2.2.1, fun w => ⟨rfl, rfl⟩, ?_⟩
  intro w hq
  exact ⟨(init_ok_head w).2 hq, (restart_ok_head w).2 hq⟩

/-- C16, amended, on a channel that stores two bytes and receives nothing more. -/
theorem C16_index_writers_witness :
    (worldWith [79, 75]).ring.Ok ∧ (worldWith [79, 75]).rx = [] ∧
    (ESP8266_WaitForResponse (worldWith [79, 75])).2.ring.head =
      (worldWith [79, 75]).ring.head ∧
    (ESP8266_Receive_http_response (worldWith [79, 75])).2.ring.head =
      (worldWith [79, 75]).ring.head :=
  have hok := (worldWith_ring [79, 75] (by decide)).1
  ⟨hok, rfl, C16_index_writers.2.2.1 _ rfl, C16_index_writers.2.2.2.1 _ hok rfl⟩

/-! ## DHT11 line lemmas -/

theorem waitLevel_stuck (level : Bool) (fuel : Nat) : ∀ (timeout : Nat) (p : Pin),
    p.samples = [] → p.rest = level → timeout ≤ DHT_TIMEOUT_VALUE →
    DHT_TIMEOUT_VALUE + 1 - timeout ≤ fuel →
    waitLevel level fuel timeout p = (false, p) := by
  unfold DHT_TIMEOUT_VALUE
  induction fuel with
  | zero => intro timeout p _ _ ht hf; omega
  | succ fuel ih =>
    intro timeout p hs hr ht hf
    have hread : GPIO_ReadInputDataBit p = (level, p) := by
      unfold GPIO_ReadInputDataBit
      rw [hs, hr]
    have hm : (timeout + 1) % 65536 = timeout + 1 := Nat.mod_eq_of_lt (by omega)
    rw [waitLevel, hread]
    simp only [if_true, hm]
    by_cases hlast : timeout + 1 > DHT_TIMEOUT_VALUE
    · rw [if_pos hlast]
    · rw [if_neg hlast]
      unfold DHT_TIMEOUT_VALUE at hlast
      exact ih (timeout + 1) p hs hr (by omega) (by omega)

theorem waitLevel_leave (level b : Bool) (fuel timeout : Nat) (p p1 : Pin)
    (hread : GPIO_ReadInputDataBit p = (b, p1)) (hb : b ≠ level) :
    waitLevel level (fuel + 1) timeout p = (true, p1) := by
  rw [waitLevel, hread]
  simp only [if_neg hb]

theorem start_answered (idle : Bool) :
    DHT_Start (answerThenStop idle) = (true, { samples := [], rest := idle }) := by
  unfold DHT_Start dhtWaitBound answerThenStop
  rw [waitLevel_leave true false DHT_TIMEOUT_VALUE 0
    { samples := [false, true, false], rest := idle }
    { samples := [true, false], rest := idle } rfl (by decide)]
  simp only
  rw [waitLevel_leave false true DHT_TIMEOUT_VALUE 0 { samples := [true, false], rest := idle }
    { samples := [false], rest := idle } rfl (by decide)]
  simp only
  rw [waitLevel_leave true false DHT_TIMEOUT_VALUE 0 { samples := [false], rest := idle }
    { samples := [], rest := idle } rfl (by decide)]

theorem byte_stopped (idle : Bool) :
    DHT_Get_Byte_Data { samples := [], rest := idle } =
      (0, true, { samples := [], rest := idle }) := by
  unfold DHT_Get_Byte_Data
  rw [DHT_Get_Byte_loop]
  cases idle with
  | false =>
    rw [waitLevel_stuck false dhtWaitBound 0 { samples := [], rest := false } rfl rfl
      (by decide) (by decide)]
  | true =>
    have h1 : waitLevel false dhtWaitBound 0 { samples := [], rest := true } =
        (true, { samples := [], rest := true }) :=
      waitLevel_leave false true DHT_TIMEOUT_VALUE 0 { samples := [], rest := true }
        { samples := [], rest := true } rfl (by decide)
    have h2 : GPIO_ReadInputDataBit { samples := [], rest := true } =
        (true, { samples := [], rest := true }) := rfl
    rw [h1]
    simp only
    rw [h2]
    simp only
    rw [waitLevel_stuck true dhtWaitBound 0 { samples := [], rest := true } rfl rfl
      (by decide) (by decide)]

/-- C17 fails in the code: when the sensor answers the start signal and then stops, with the
line staying low or staying high, every one of the five byte receptions times out and gives
0, the test 0 + 0 + 0 + 0 == 0 holds, and `DHT_Get_Temp_Humi_Data` returns 1 with five
zero bytes. -/
theorem C17_timeouts_pass_the_checksum (idle : Bool) :
    (DHT_Start (answerThenStop idle)).1 = true ∧
    (DHT_Get_Temp_Humi_Data (answerThenStop idle)).timedOut = [true, true, true, true, true] ∧
    (DHT_Get_Temp_Humi_Data (answerThenStop idle)).buffer = [0, 0, 0, 0, 0] ∧
    (DHT_Get_Temp_Humi_Data (answerThenStop idle)).ret = 1 := by
  have hd : DHT_Get_Temp_Humi_Data (answerThenStop idle) =
      { ret := 1, buffer := [0, 0, 0, 0, 0], timedOut := [true, true, true, true, true],
        pin := { samples := [], rest := idle } } := by
    unfold DHT_Get_Temp_Humi_Data
    rw [start_answered]
    simp only [byte_stopped]
    rfl
  rw [hd, start_answered]
  exact ⟨rfl, rfl, rfl, rfl⟩

/-! ## DHT11 decoding -/

theorem scaleDecimal_fuel (n : Nat) : ∀ (d : ℚ), d ≤ 10 ^ n →
    scaleDecimal n d ≤ 1 ∧ ∀ m, n ≤ m → scaleDecimal m d = scaleDecimal n d := by
  induction n with
  | zero =>
    intro d hd
    have hd1 : d ≤ 1 := by simpa using hd
    refine ⟨by simpa [scaleDecimal] using hd1, ?_⟩
    intro m _
    cases m with
    | zero => rfl
    | succ m => simp [scaleDecimal, not_lt.2 hd1]
  | succ n ih =>
    intro d hd
    by_cases h1 : d > 1
    · have hd10 : d / 10 ≤ 10 ^ n := by
        rw [div_le_iff₀ (by norm_num)]
        calc d ≤ 10 ^ (n + 1) := hd
          _ = 10 ^ n * 10 := by ring
      obtain ⟨i1, i2⟩ := ih (d / 10) hd10
      refine ⟨by simpa [scaleDecimal, h1] using i1, ?_⟩
      intro m hm
      obtain ⟨k, rfl⟩ : ∃ k, m = k + 1 := ⟨m - 1, by omega⟩
      simp only [scaleDecimal, h1, if_true]
      exact i2 k (by omega)
    · refine ⟨by simpa [scaleDecimal, h1] using not_lt.1 h1, ?_⟩
      intro m _
      cases m with
      | zero => simp [scaleDecimal, h1]
      | succ m => simp [scaleDecimal, h1]

theorem scaleDecimal_form (n : Nat) : ∀ (d : ℚ), ∃ k, k ≤ n ∧ scaleDecimal n d = d / 10 ^ k := by
  induction n with
  | zero => intro d; exact ⟨0, Nat.le_refl _, by simp [scaleDecimal]⟩
  | succ n ih =>
    intro d
    by_cases h1 : d > 1
    · obtain ⟨k, hk, he⟩ := ih (d / 10)
      refine ⟨k + 1, by omega, ?_⟩
      simp only [scaleDecimal, h1, if_true]
      rw [he, pow_succ, div_div]
      ring_nf
    · exact ⟨0, Nat.zero_le _, by simp [scaleDecimal, h1]⟩

theorem rawValue_range (i f : Nat) (hf : f ≤ 255) :
    (i : ℚ) ≤ rawValue i f ∧ rawValue i f ≤ i + 1 ∧
    (rawValue i f = i + 1 ↔ f = 1 ∨ f = 10 ∨ f = 100) := by
  by_cases h0 : f = 0
  · subst h0
    simp [rawValue]
  · have hle : (f : ℚ) ≤ 10 ^ 3 := by
      have : (f : ℚ) ≤ 255 := by exact_mod_cast hf
      linarith
    obtain ⟨i1, -⟩ := scaleDecimal_fuel 3 (f : ℚ) hle
    obtain ⟨k, hk, he⟩ := scaleDecimal_form 3 (f : ℚ)
    have hpos : (0 : ℚ) ≤ scaleDecimal 3 (f : ℚ) := by
      rw [he]; positivity
    simp only [rawValue, if_neg h0]
    refine ⟨by linarith, by linarith, ?_⟩
    constructor
    · intro h
      have h1 : scaleDecimal 3 (f : ℚ) = 1 := by linarith
      rw [he, div_eq_one_iff_eq (by positivity)] at h1
      have h2 : f = 10 ^ k := by exact_mod_cast h1
      interval_cases k <;> omega
    · rintro (h | h | h) <;> subst h <;> norm_num [scaleDecimal]

/-- C18 fails in the code: the loop `while (temp_decimal > 1)` stops at 1, so the
fractional bytes 1, 10 and 100 contribute exactly 1.  For the frame 50, 0, 25, 1, 76, whose
checksum holds, `DHT_Get_Filtered_Data` succeeds with the raw temperature 26 = buffer[2] + 1,
and for the frame 50, 10, 25, 0, 85 with the raw humidity 51 = buffer[0] + 1.  For every
byte pair the raw value lies between the integer byte and the integer byte plus 1, and
it is the integer byte plus 1 exactly for the fractional bytes 1, 10 and 100; three
iterations are all the loop makes on a byte. -/
theorem C18_fraction_byte_one_gives_whole_degree :
    (∀ s : DhtDriver,
      (DHT_Get_Filtered_Data [50, 0, 25, 1, 76] s).1.map (fun d => (d.raw_temp, d.raw_humi)) =
        some (26, 50)) ∧
    (∀ s : DhtDriver,
      (DHT_Get_Filtered_Data [50, 10, 25, 0, 85] s).1.map (fun d => (d.raw_temp, d.raw_humi)) =
        some (25, 51)) ∧
    (∀ i f : Nat, f ≤ 255 →
      (i : ℚ) ≤ rawValue i f ∧ rawValue i f ≤ i + 1 ∧
      (rawValue i f = i + 1 ↔ f = 1 ∨ f = 10 ∨ f = 100)) ∧
    (∀ b fuel : Nat, b ≤ 255 → 3 ≤ fuel →
      scaleDecimal fuel (b : ℚ) = scaleDecimal 3 (b : ℚ) ∧ scaleDecimal 3 (b : ℚ) ≤ 1) := by
  have r1 : rawValue 25 1 = 26 := by norm_num [rawValue, scaleDecimal]
  have r2 : rawValue 50 0 = 50 := by norm_num [rawValue]
  have r3 : rawValue 25 0 = 25 := by norm_num [rawValue]
  have r4 : rawValue 50 10 = 51 := by norm_num [rawValue, scaleDecimal]
  refine ⟨?_, ?_, rawValue_range, ?_⟩
  · intro s
    unfold DHT_Get_Filtered_Data
    rw [if_neg (by decide)]
    show some (rawValue 25 1, rawValue 50 0) = some (26, 50)
    rw [r1, r2]
  · intro s
    unfold DHT_Get_Filtered_Data
    rw [if_neg (by decide)]
    show some (rawValue 25 0, rawValue 50 10) = some (25, 51)
    rw [r3, r4]
  · intro b fuel hb hf
    have hle : (b : ℚ) ≤ 10 ^ 3 := by
      have : (b : ℚ) ≤ 255 := by exact_mod_cast hb
      linarith
    obtain ⟨i1, i2⟩ := scaleDecimal_fuel 3 (b : ℚ) hle
    exact ⟨i2 fuel hf, i1⟩

/-- The code of C18 at the fractional byte 1 beside the integer byte 25, and its loop at the byte
255 with 7 iterations allowed. -/
theorem C18_fraction_byte_one_gives_whole_degree_witness :
    (1 : Nat) ≤ 255 ∧
    (((25 : Nat) : ℚ) ≤ rawValue 25 1 ∧ rawValue 25 1 ≤ ((25 : Nat) : ℚ) + 1 ∧
      (rawValue 25 1 = ((25 : Nat) : ℚ) + 1 ↔ 1 = 1 ∨ 1 = 10 ∨ 1 = 100)) ∧
    (255 : Nat) ≤ 255 ∧ 3 ≤ 7 ∧
    scaleDecimal 7 ((255 : Nat) : ℚ) = scaleDecimal 3 ((255 : Nat) : ℚ) ∧
    scaleDecimal 3 ((255 : Nat) : ℚ) ≤ 1 :=
  ⟨by decide, C18_fraction_byte_one_gives_whole_degree.2.2.1 25 1 (by decide),
    by decide, by decide,
    C18_fraction_byte_one_gives_whole_degree.2.2.2 255 7 (by decide) (by decide)⟩

/-! ## Upload cycle lemmas -/

theorem upload_eq (json : List Nat) (a : App) :
    Upload_Data json a = App_UploadData MAX_ERROR_COUNT NETWORK_RETRY_INTERVAL POST HOST json a :=
  rfl

theorem receive_trace (w : World) : (ESP8266_Receive_http_response w).2.trace = w.trace := by
  obtain ⟨rs, -, g2, -⟩ := recv_loop_inv (recvBound 0 0) [] 0 [] w (by decide)
  rw [listBuf_nil] at g2
  exact g2

/-- With the gate closed, a call only shows "wait to retry". -/
theorem app_closed (maxErrorCount retryInterval : Nat) (postPath serverHost json : List Nat)
    (a : App) (hc : a.network_error_count ≠ 0) (hl : a.last_successful_time = 0) :
    App_UploadData maxErrorCount retryInterval postPath serverHost json a =
      { a with shown := a.shown ++ [Status.waitToRetry] } := by
  unfold App_UploadData
  rw [if_neg]
  rw [hl]
  simp [hc]

/-- A first call whose response is not parsed, below a threshold of at least 2. -/
theorem app_first_failure (maxErrorCount retryInterval : Nat)
    (postPath serverHost json : List Nat) (a : App) (h0 : a.network_error_count = 0)
    (hm : 2 ≤ maxErrorCount)
    (hfail : (ESP8266_Receive_http_response
      (printf (httpRequest postPath serverHost json) a.world)).1 = none) :
    (App_UploadData maxErrorCount retryInterval postPath serverHost json a).network_error_count
      = 1 ∧
    (App_UploadData maxErrorCount retryInterval postPath serverHost json a).last_successful_time
      = a.last_successful_time ∧
    (App_UploadData maxErrorCount retryInterval postPath serverHost json a).restarts
      = a.restarts ∧
    (App_UploadData maxErrorCount retryInterval postPath serverHost json a).world.trace
      = a.world.trace ++ [Effect.write (httpRequest postPath serverHost json)] ∧
    (App_UploadData maxErrorCount retryInterval postPath serverHost json a).shown.length
      = a.shown.length + 1 := by
  have ht := receive_trace (printf (httpRequest postPath serverHost json) a.world)
  rcases hr : ESP8266_Receive_http_response
    (printf (httpRequest postPath serverHost json) a.world) with ⟨c, w2⟩
  rw [hr] at hfail ht
  dsimp only at hfail ht
  subst hfail
  have hnot : ¬ (1 ≥ maxErrorCount) := by omega
  unfold App_UploadData ESP8266_Send_http_post
  rw [if_pos (Or.inl h0)]
  dsimp only
  by_cases hs : (if toInt32 (httpRequest postPath serverHost json).length > 0 then 1 else 0) ≠ 0
  · rw [if_pos hs, hr]
    simp only [h0, Nat.zero_add, Nat.one_mod, if_neg hnot]
    exact ⟨trivial, trivial, trivial, ht, by simp⟩
  · rw [if_neg hs]
    simp only [h0, Nat.zero_add, Nat.one_mod]
    exact ⟨trivial, trivial, trivial, rfl, by simp⟩

/-- Once the counter is not 0, with `last_successful_time` at 0, no later cycle writes a
request, reads the channel, changes the counter or restarts the link, whatever arrives. -/
theorem cycles_closed (maxErrorCount retryInterval : Nat) (postPath serverHost json : List Nat)
    (sched : List (List (List Nat))) : ∀ (a : App),
    a.network_error_count ≠ 0 → a.last_successful_time = 0 →
    (uploadCycles (App_UploadData maxErrorCount retryInterval postPath serverHost json)
      sched a).network_error_count = a.network_error_count ∧
    (uploadCycles (App_UploadData maxErrorCount retryInterval postPath serverHost json)
      sched a).last_successful_time = 0 ∧
    (uploadCycles (App_UploadData maxErrorCount retryInterval postPath serverHost json)
      sched a).restarts = a.restarts ∧
    (uploadCycles (App_UploadData maxErrorCount retryInterval postPath serverHost json)
      sched a).world.trace = a.world.trace ∧
    (uploadCycles (App_UploadData maxErrorCount retryInterval postPath serverHost json)
      sched a).world.reads = a.world.reads ∧
    (uploadCycles (App_UploadData maxErrorCount retryInterval postPath serverHost json)
      sched a).shown = a.shown ++ List.replicate sched.length Status.waitToRetry := by
  induction sched with
  | nil => intro a _ hl; exact ⟨rfl, hl, rfl, rfl, rfl, by simp [uploadCycles]⟩
  | cons arrivals later ih =>
    intro a hc hl
    have hstep := app_closed maxErrorCount retryInterval postPath serverHost json
      { a with world := { a.world with rx := arrivals } } hc hl
    rw [uploadCycles, hstep]
    obtain ⟨i1, i2, i3, i4, i5, i6⟩ := ih
      { a with world := { a.world with rx := arrivals },
               shown := a.shown ++ [Status.waitToRetry] } hc hl
    refine ⟨i1, i2, i3, i4, i5, ?_⟩
    rw [i6]
    simp [List.replicate_succ]

/-- On a silent line with an empty channel the response is not parsed. -/
theorem silent_exchange_fails (out : List Nat) :
    (ESP8266_Receive_http_response (printf out (worldWith []))).1 = none := by
  have hw := worldWith_ring [] (by decide)
  have hok : (printf out (worldWith [])).ring.Ok := hw.1
  have hc : (printf out (worldWith [])).ring.contents = [] := hw.2
  rw [(receive_quiet _ hok rfl).1, hc]
  rfl

theorem silent_cycles (maxErrorCount retryInterval : Nat) (postPath serverHost json : List Nat)
    (hm : 2 ≤ maxErrorCount) (n : Nat) :
    (silentCycles (App_UploadData maxErrorCount retryInterval postPath serverHost json)
      (n + 1)).network_error_count = 1 ∧
    (silentCycles (App_UploadData maxErrorCount retryInterval postPath serverHost json)
      (n + 1)).restarts = 0 ∧
    (silentCycles (App_UploadData maxErrorCount retryInterval postPath serverHost json)
      (n + 1)).world.trace = [Effect.write (httpRequest postPath serverHost json)] ∧
    (silentCycles (App_UploadData maxErrorCount retryInterval postPath serverHost json)
      (n + 1)).shown.drop 1 = List.replicate n Status.waitToRetry := by
  have hstart : ({ appStart (worldWith []) with
      world := { (appStart (worldWith [])).world with rx := [] } } : App) =
      appStart (worldWith []) := rfl
  obtain ⟨f1, f2, f3, f4, f5⟩ := app_first_failure maxErrorCount retryInterval postPath serverHost
    json (appStart (worldWith [])) rfl hm (silent_exchange_fails _)
  obtain ⟨c1, -, c3, c4, -, c6⟩ := cycles_closed maxErrorCount retryInterval postPath
    serverHost json (List.replicate n [])
    (App_UploadData maxErrorCount retryInterval postPath serverHost json
      (appStart (worldWith []))) (by rw [f1]; decide) (by rw [f2]; rfl)
  unfold silentCycles
  rw [List.replicate_succ, uploadCycles, hstart, c1, c3, c4, c6, f1, f3, f4]
  refine ⟨rfl, rfl, rfl, ?_⟩
  have hone : (App_UploadData maxErrorCount retryInterval postPath serverHost json
      (appStart (worldWith []))).shown.length = 1 := f5
  rw [List.drop_append_of_le_length (by omega), List.length_replicate]
  rw [List.drop_of_length_le (by omega)]
  simp

/-! ## The retry gate -/

/-- One call from a state with the counter at most 1 and `last_successful_time` at 0, below
a threshold of at least 2: the counter stays at most 1, `last_successful_time` stays 0 and
the link is not restarted. -/
theorem app_step_inv (maxErrorCount retryInterval : Nat) (postPath serverHost json : List Nat)
    (a : App) (hm : 2 ≤ maxErrorCount) (hc : a.network_error_count ≤ 1)
    (hl : a.last_successful_time = 0) :
    (App_UploadData maxErrorCount retryInterval postPath serverHost json a).network_error_count
      ≤ 1 ∧
    (App_UploadData maxErrorCount retryInterval postPath serverHost json a).last_successful_time
      = 0 ∧
    (App_UploadData maxErrorCount retryInterval postPath serverHost json a).restarts
      = a.restarts := by
  by_cases h0 : a.network_error_count = 0
  · have hnot : ¬ (1 ≥ maxErrorCount) := by omega
    unfold App_UploadData ESP8266_Send_http_post
    rw [if_pos (Or.inl h0)]
    dsimp only
    by_cases hs : (if toInt32 (httpRequest postPath serverHost json).length > 0 then 1 else 0) ≠ 0
    · rw [if_pos hs]
      rcases hr : ESP8266_Receive_http_response
        (printf (httpRequest postPath serverHost json) a.world) with ⟨c, w2⟩
      cases c with
      | none =>
        simp only [h0, Nat.zero_add, Nat.one_mod, if_neg hnot]
        exact ⟨Nat.le_refl _, hl, trivial⟩
      | some code => exact ⟨Nat.zero_le _, rfl, rfl⟩
    · rw [if_neg hs]
      simp only [h0, Nat.zero_add, Nat.one_mod]
      exact ⟨Nat.le_refl _, hl, trivial⟩
  · rw [app_closed _ _ _ _ _ _ h0 hl]
    exact ⟨hc, hl, rfl⟩

/-- Over every sequence of calls the counter stays at most 1 and the link is not
restarted. -/
theorem calls_inv (maxErrorCount retryInterval : Nat) (postPath serverHost : List Nat)
    (hm : 2 ≤ maxErrorCount) (calls : List (List Nat × List (List Nat))) : ∀ (a : App),
    a.network_error_count ≤ 1 → a.last_successful_time = 0 →
    (uploadCalls (App_UploadData maxErrorCount retryInterval postPath serverHost)
      calls a).network_error_count ≤ 1 ∧
    (uploadCalls (App_UploadData maxErrorCount retryInterval postPath serverHost)
      calls a).last_successful_time = 0 ∧
    (uploadCalls (App_UploadData maxErrorCount retryInterval postPath serverHost)
      calls a).restarts = a.restarts := by
  induction calls with
  | nil => intro a hc hl; exact ⟨hc, hl, rfl⟩
  | cons call later ih =>
    intro a hc hl
    obtain ⟨json, arrivals⟩ := call
    obtain ⟨s1, s2, s3⟩ := app_step_inv maxErrorCount retryInterval postPath serverHost json
      { a with world := { a.world with rx := arrivals } } hm hc hl
    obtain ⟨i1, i2, i3⟩ := ih _ s1 s2
    rw [uploadCalls]
    exact ⟨i1, i2, by rw [i3, s3]⟩

/-- Once the counter is not 0, no later call of a sequence writes a request, reads the
channel, changes the counter or restarts the link, whatever arrives and whatever is to be
sent. -/
theorem calls_closed (maxErrorCount retryInterval : Nat) (postPath serverHost : List Nat)
    (calls : List (List Nat × List (List Nat))) : ∀ (a : App),
    a.network_error_count ≠ 0 → a.last_successful_time = 0 →
    (uploadCalls (App_UploadData maxErrorCount retryInterval postPath serverHost)
      calls a).network_error_count = a.network_error_count ∧
    (uploadCalls (App_UploadData maxErrorCount retryInterval postPath serverHost)
      calls a).world.trace = a.world.trace ∧
    (uploadCalls (App_UploadData maxErrorCount retryInterval postPath serverHost)
      calls a).world.reads = a.world.reads ∧
    (uploadCalls (App_UploadData maxErrorCount retryInterval postPath serverHost)
      calls a).world.ring = a.world.ring ∧
    (uploadCalls (App_UploadData maxErrorCount retryInterval postPath serverHost)
      calls a).restarts = a.restarts ∧
    (uploadCalls (App_UploadData maxErrorCount retryInterval postPath serverHost)
      calls a).shown = a.shown ++ List.replicate calls.length Status.waitToRetry := by
  induction calls with
  | nil => intro a _ _; exact ⟨rfl, rfl, rfl, rfl, rfl, by simp [uploadCalls]⟩
  | cons call later ih =>
    intro a hc hl
    obtain ⟨json, arrivals⟩ := call
    have hstep := app_closed maxErrorCount retryInterval postPath serverHost json
      { a with world := { a.world with rx := arrivals } } hc hl
    rw [uploadCalls, hstep]
    obtain ⟨i1, i2, i3, i4, i5, i6⟩ := ih
      { a with world := { a.world with rx := arrivals },
               shown := a.shown ++ [Status.waitToRetry] } hc hl
    refine ⟨i1, i2, i3, i4, i5, ?_⟩
    rw [i6]
    simp [List.replicate_succ]

theorem upload_fun_eq :
    Upload_Data = App_UploadData MAX_ERROR_COUNT NETWORK_RETRY_INTERVAL POST HOST := rfl

/-- C21: in `Upload_Data`, and in `App_UploadData` for every retry interval, a call made
with the counter not 0 and `last_successful_time` at 0 skips the exchange: it leaves the
channel as it is (no request written, no byte read), leaves the counter and the number of
restarts unchanged and only shows "wait to retry"; so does every later call of any
sequence of calls, whatever arrives.  Over every sequence of calls from the initial state
the counter never exceeds 1, `last_successful_time` stays 0 and `ESP8266_Restart` is never
called; for `App_UploadData`, whose threshold is a constant of a header not at hand, this
holds for every threshold of at least 2. -/
theorem C21_retry_gate_never_reopens :
    (∀ (json : List Nat) (a : App), a.network_error_count ≠ 0 → a.last_successful_time = 0 →
      Upload_Data json a = { a with shown := a.shown ++ [Status.waitToRetry] }) ∧
    (∀ (calls : List (List Nat × List (List Nat))) (a : App),
      a.network_error_count ≠ 0 → a.last_successful_time = 0 →
      (uploadCalls Upload_Data calls a).network_error_count = a.network_error_count ∧
      (uploadCalls Upload_Data calls a).world.trace = a.world.trace ∧
      (uploadCalls Upload_Data calls a).world.reads = a.world.reads ∧
      (uploadCalls Upload_Data calls a).restarts = a.restarts) ∧
    (∀ (calls : List (List Nat × List (List Nat))) (w : World),
      (uploadCalls Upload_Data calls (appStart w)).network_error_count ≤ 1 ∧
      (uploadCalls Upload_Data calls (appStart w)).last_successful_time = 0 ∧
      (uploadCalls Upload_Data calls (appStart w)).restarts = 0) ∧
    (∀ (maxErrorCount retryInterval : Nat) (postPath serverHost : List Nat),
      (∀ (json : List Nat) (a : App),
        a.network_error_count ≠ 0 → a.last_successful_time = 0 →
        App_UploadData maxErrorCount retryInterval postPath serverHost json a =
          { a with shown := a.shown ++ [Status.waitToRetry] }) ∧
      (2 ≤ maxErrorCount → ∀ (calls : List (List Nat × List (List Nat))) (w : World),
        (uploadCalls (App_UploadData maxErrorCount retryInterval postPath serverHost)
          calls (appStart w)).network_error_count ≤ 1 ∧
        (uploadCalls (App_UploadData maxErrorCount retryInterval postPath serverHost)
          calls (appStart w)).last_successful_time = 0 ∧
        (uploadCalls (App_UploadData maxErrorCount retryInterval postPath serverHost)
          calls (appStart w)).restarts = 0)) := by
  refine ⟨?_, ?_, ?_, ?_⟩
  · intro json a hc hl
    rw [upload_eq]
    exact app_closed _ _ _ _ _ _ hc hl
  · intro calls a hc hl
    rw [upload_fun_eq]
    obtain ⟨c1, c2, c3, -, c5, -⟩ :=
      calls_closed MAX_ERROR_COUNT NETWORK_RETRY_INTERVAL POST HOST calls a hc hl
    exact ⟨c1, c2, c3, c5⟩
  · intro calls w
    rw [upload_fun_eq]
    exact calls_inv MAX_ERROR_COUNT NETWORK_RETRY_INTERVAL POST HOST (by decide) calls
      (appStart w) (Nat.zero_le _) rfl
  · intro maxErrorCount retryInterval postPath serverHost
    refine ⟨fun json a hc hl => app_closed _ _ _ _ _ _ hc hl, ?_⟩
    intro hm calls w
    exact calls_inv maxErrorCount retryInterval postPath serverHost hm calls
      (appStart w) (Nat.zero_le _) rfl

/-- C21 on the state after one failed exchange on an empty channel (counter 1), for the text
"x" to be sent: the call shows "wait to retry" and changes nothing else, and two more
calls, during which "OK" arrives, leave the counter at 1 and write nothing. -/
theorem C21_retry_gate_never_reopens_witness :
    ({ appStart (worldWith []) with network_error_count := 1 } : App).network_error_count ≠ 0 ∧
    ({ appStart (worldWith []) with network_error_count := 1 } : App).last_successful_time = 0 ∧
    Upload_Data (ascii "x") { appStart (worldWith []) with network_error_count := 1 } =
      { appStart (worldWith []) with network_error_count := 1,
                                     shown := [Status.waitToRetry] } ∧
    (uploadCalls Upload_Data [(ascii "x", [[79, 75]]), (ascii "y", [])]
      { appStart (worldWith []) with network_error_count := 1 }).network_error_count = 1 ∧
    (uploadCalls Upload_Data [(ascii "x", [[79, 75]]), (ascii "y", [])]
      { appStart (worldWith []) with network_error_count := 1 }).world.trace = [] ∧
    (2 ≤ 3 ∧
      (uploadCalls (App_UploadData 3 60000 POST HOST) [(ascii "x", [])]
        (appStart (worldWith []))).restarts = 0) :=
  ⟨by decide, rfl,
    C21_retry_gate_never_reopens.1 (ascii "x")
      { appStart (worldWith []) with network_error_count := 1 } (by decide) rfl,
    (C21_retry_gate_never_reopens.2.1 [(ascii "x", [[79, 75]]), (ascii "y", [])]
      { appStart (worldWith []) with network_error_count := 1 } (by decide) rfl).1,
    (C21_retry_gate_never_reopens.2.1 [(ascii "x", [[79, 75]]), (ascii "y", [])]
      { appStart (worldWith []) with network_error_count := 1 } (by decide) rfl).2.1,
    by decide,
    ((C21_retry_gate_never_reopens.2.2.2 3 60000 POST HOST).2 (by decide) [(ascii "x", [])]
      (worldWith [])).2.2⟩

/-! ## Termination of the response reader -/

/-- The polls of the loop from any point of it, with fuel up to the bound: they are at most
`recvBound`, and the loop ends on its own conditions, either at a byte at which the test
`recvStop` holds or after the empty polls that bring the counter to 15000. -/
theorem recv_loop_polls (fuel : Nat) : ∀ (acc : List Nat) (counter : Nat) (writes : List Nat)
    (w : World), acc.length ≤ 254 → counter ≤ 15000 →
    recvBound acc.length counter ≤ fuel →
    ∃ rs : List (Option Nat),
      (ESP8266_Receive_loop fuel (listBuf acc) acc.length counter writes w).world.reads =
        w.reads ++ rs ∧
      rs.length ≤ recvBound acc.length counter ∧
      ((∃ pre ch, rs = pre ++ [some ch] ∧ recvStop (acc ++ bytesOf rs)) ∨
        rs = List.replicate (15000 - counter) none ∨
        (∃ pre ch, rs = pre ++ [some ch] ++ List.replicate 15000 none)) := by
  induction fuel with
  | zero =>
    intro acc counter writes w hlen hcl hb
    have hge : ¬ counter < 15000 := by
      simp only [recvBound] at hb; omega
    have h0 : 15000 - counter = 0 := by omega
    rw [recv_loop_exit _ _ _ _ _ _ hge]
    exact ⟨[], by simp, Nat.zero_le _, Or.inr (Or.inl (by rw [h0]; rfl))⟩
  | succ fuel ih =>
    intro acc counter writes w hlen hcl hb
    by_cases hc : counter < 15000
    · rcases hrb : w.readByte with ⟨o, w1⟩
      have hf := readByte_fields w
      rw [hrb] at hf
      dsimp only at hf
      cases o with
      | none =>
        rw [recv_loop_none _ _ _ _ _ _ _ hc hrb]
        obtain ⟨rs, h1, h2, h3⟩ := ih acc (counter + 1) writes w1 hlen (by omega)
          (by simp only [recvBound] at hb ⊢; omega)
        refine ⟨none :: rs, ?_, ?_, ?_⟩
        · rw [h1, hf.2.1]; simp
        · simp only [recvBound, List.length_cons] at h2 ⊢; omega
        · rcases h3 with ⟨pre, ch, e1, e2⟩ | e | ⟨pre, ch, e⟩
          · exact Or.inl ⟨none :: pre, ch, by rw [e1]; rfl,
              by simpa [bytesOf, List.reduceOption_cons_of_none] using e2⟩
          · refine Or.inr (Or.inl ?_)
            have hk : 15000 - counter = (15000 - (counter + 1)) + 1 := by omega
            rw [e, hk, List.replicate_succ]
          · exact Or.inr (Or.inr ⟨none :: pre, ch, by rw [e]; rfl⟩)
      | some ch =>
        by_cases hs : recvStop (acc ++ [ch])
        · rw [recv_loop_stop _ _ _ _ _ _ _ hc hlen hrb hs]
          refine ⟨[some ch], hf.2.1, ?_, Or.inl ⟨[], ch, rfl, ?_⟩⟩
          · simp only [recvBound, List.length_singleton]; omega
          · simpa [bytesOf, List.reduceOption_cons_of_some] using hs
        · rw [recv_loop_cont _ _ _ _ _ _ _ hc hlen hrb hs]
          have hlen2 := not_recvStop_length _ hs
          have hl : (acc ++ [ch]).length = acc.length + 1 := by simp
          rw [← hl]
          obtain ⟨rs, h1, h2, h3⟩ := ih (acc ++ [ch]) 0 (writes ++ [acc.length]) w1 hlen2
            (Nat.zero_le _) (by
              rw [hl] at hlen2 ⊢
              simp only [recvBound] at hb ⊢; omega)
          refine ⟨some ch :: rs, ?_, ?_, ?_⟩
          · rw [h1, hf.2.1]; simp
          · rw [hl] at h2 hlen2
            simp only [recvBound, List.length_cons] at h2 ⊢; omega
          · rcases h3 with ⟨pre, c2, e1, e2⟩ | e | ⟨pre, c2, e⟩
            · exact Or.inl ⟨some ch :: pre, c2, by rw [e1]; rfl,
                by simpa [bytesOf, List.reduceOption_cons_of_some] using e2⟩
            · exact Or.inr (Or.inr ⟨[], ch, by rw [e]; rfl⟩)
            · exact Or.inr (Or.inr ⟨some ch :: pre, c2, by rw [e]; rfl⟩)
    · have h0 : 15000 - counter = 0 := by omega
      rw [recv_loop_exit _ _ _ _ _ _ hc]
      exact ⟨[], by simp, Nat.zero_le _, Or.inr (Or.inl (by rw [h0]; rfl))⟩

theorem take_succ_agree (n : Nat) (l1 l2 : List (List Nat))
    (h : l1.take (n + 1) = l2.take (n + 1)) :
    l1.headD [] = l2.headD [] ∧ l1.tail.take n = l2.tail.take n := by
  cases l1 with
  | nil =>
    cases l2 with
    | nil => exact ⟨rfl, rfl⟩
    | cons b t => simp at h
  | cons a s =>
    cases l2 with
    | nil => simp at h
    | cons b t =>
      simp only [List.take_succ_cons, List.cons.injEq] at h
      exact ⟨h.1, h.2⟩

theorem readByte_arrivals (w : World) (rx2 : List (List Nat))
    (h : rx2.headD [] = w.rx.headD []) :
    ({ w with rx := rx2 } : World).readByte =
      ((w.readByte).1, { (w.readByte).2 with rx := rx2.tail }) := by
  simp only [World.readByte, h]

/-- The loop sees of the arrivals only the batches of the polls it makes: two lines that
agree on the first `fuel` batches give the same run. -/
theorem recv_loop_arrivals (fuel : Nat) : ∀ (buf : Nat → Nat) (index counter : Nat)
    (writes : List Nat) (w : World) (rx2 : List (List Nat)),
    rx2.take fuel = w.rx.take fuel →
    (ESP8266_Receive_loop fuel buf index counter writes { w with rx := rx2 }).buf =
      (ESP8266_Receive_loop fuel buf index counter writes w).buf ∧
    (ESP8266_Receive_loop fuel buf index counter writes { w with rx := rx2 }).index =
      (ESP8266_Receive_loop fuel buf index counter writes w).index ∧
    (ESP8266_Receive_loop fuel buf index counter writes { w with rx := rx2 }).writes =
      (ESP8266_Receive_loop fuel buf index counter writes w).writes ∧
    (ESP8266_Receive_loop fuel buf index counter writes { w with rx := rx2 }).world.ring =
      (ESP8266_Receive_loop fuel buf index counter writes w).world.ring ∧
    (ESP8266_Receive_loop fuel buf index counter writes { w with rx := rx2 }).world.reads =
      (ESP8266_Receive_loop fuel buf index counter writes w).world.reads ∧
    (ESP8266_Receive_loop fuel buf index counter writes { w with rx := rx2 }).world.trace =
      (ESP8266_Receive_loop fuel buf index counter writes w).world.trace := by
  induction fuel with
  | zero =>
    intro buf index counter writes w rx2 _
    simp only [ESP8266_Receive_loop]
    refine ⟨?_, ?_, ?_, ?_, ?_, ?_⟩ <;> first | rfl | trivial
  | succ fuel ih =>
    intro buf index counter writes w rx2 htake
    by_cases hc : counter < 15000
    · obtain ⟨hhead, htail⟩ := take_succ_agree fuel rx2 w.rx htake
      have hrb2 := readByte_arrivals w rx2 hhead
      rcases hrb : w.readByte with ⟨o, w1⟩
      have hf := readByte_fields w
      rw [hrb] at hrb2 hf
      dsimp only at hrb2 hf
      have htail1 : rx2.tail.take fuel = w1.rx.take fuel := by rw [hf.2.2]; exact htail
      cases o with
      | none =>
        rw [recv_loop_none _ _ _ _ _ _ _ hc hrb, recv_loop_none _ _ _ _ _ _ _ hc hrb2]
        exact ih buf index (counter + 1) writes w1 rx2.tail htail1
      | some ch =>
        simp only [ESP8266_Receive_loop, hc, if_true, hrb, hrb2]
        by_cases h255 : (index + 1) % 65536 ≥ 255
        · simp only [if_pos h255]
          refine ⟨?_, ?_, ?_, ?_, ?_, ?_⟩ <;> first | rfl | trivial
        · by_cases hend : (index + 1) % 65536 ≥ 4 ∧
              (strstr (bufferText (fun i => if i = index then ch else buf i))
                [13, 10, 13, 10]).isSome = true
          · simp only [if_neg h255, if_pos hend]
            refine ⟨?_, ?_, ?_, ?_, ?_, ?_⟩ <;> first | rfl | trivial
          · simp only [if_neg h255, if_neg hend]
            exact ih _ _ 0 _ w1 rx2.tail htail1
    · rw [recv_loop_exit _ _ _ _ _ _ hc, recv_loop_exit _ _ _ _ _ _ hc]
      exact ⟨rfl, rfl, rfl, rfl, rfl, rfl⟩

/-- The whole function sees of the arrivals at most the first 255 * 15000 batches. -/
theorem receive_arrivals (w : World) (rx2 : List (List Nat))
    (h : rx2.take (255 * 15000) = w.rx.take (255 * 15000)) :
    (ESP8266_Receive_http_response { w with rx := rx2 }).1 =
      (ESP8266_Receive_http_response w).1 ∧
    (ESP8266_Receive_http_response { w with rx := rx2 }).2.reads =
      (ESP8266_Receive_http_response w).2.reads ∧
    (ESP8266_Receive_http_response { w with rx := rx2 }).2.ring =
      (ESP8266_Receive_http_response w).2.ring := by
  obtain ⟨a1, a2, -, a4, a5, -⟩ := recv_loop_arrivals (recvBound 0 0) (fun _ => 0) 0 0 [] w rx2 h
  refine ⟨?_, a5, a4⟩
  show parseStatus (fun i => if i = (ESP8266_Receive_run { w with rx := rx2 }).index then 0
      else (ESP8266_Receive_run { w with rx := rx2 }).buf i) =
    parseStatus (fun i => if i = (ESP8266_Receive_run w).index then 0
      else (ESP8266_Receive_run w).buf i)
  unfold ESP8266_Receive_run
  rw [a1, a2]

/-- C22: `ESP8266_Receive_http_response` terminates whatever arrives and however long
bytes keep arriving.  Its loop makes at most 255 * 15000 iterations (one poll each): allowing
more changes nothing, and the loop ends on its own conditions, at a byte at which 255 bytes
are accumulated or the text contains "\r\n\r\n", or after 15000 consecutive empty polls.
It consumes at most 255 bytes, their number being the final fill index, which each byte
read has increased by 1.  What arrives after the first 255 * 15000 polls has no part in the
run, so a line on which bytes never stop arriving is a line whose first 255 * 15000
batches are given. -/
theorem C22_receive_terminates (w : World) :
    recvBound 0 0 = 255 * 15000 ∧
    (∀ fuel, recvBound 0 0 ≤ fuel →
      ESP8266_Receive_loop fuel (fun _ => 0) 0 0 [] w = ESP8266_Receive_run w) ∧
    (∀ rx2 : List (List Nat), rx2.take (255 * 15000) = w.rx.take (255 * 15000) →
      (ESP8266_Receive_http_response { w with rx := rx2 }).1 =
        (ESP8266_Receive_http_response w).1 ∧
      (ESP8266_Receive_http_response { w with rx := rx2 }).2.reads =
        (ESP8266_Receive_http_response w).2.reads ∧
      (ESP8266_Receive_http_response { w with rx := rx2 }).2.ring =
        (ESP8266_Receive_http_response w).2.ring) ∧
    ∃ rs : List (Option Nat),
      (ESP8266_Receive_http_response w).2.reads = w.reads ++ rs ∧
      rs.length ≤ 255 * 15000 ∧
      (bytesOf rs).length ≤ 255 ∧
      (ESP8266_Receive_run w).index = (bytesOf rs).length ∧
      rs.length = (bytesOf rs).length + rs.count none ∧
      ((∃ pre ch, rs = pre ++ [some ch] ∧ recvStop (bytesOf rs)) ∨
        (∃ pre, rs = pre ++ List.replicate 15000 none)) := by
  refine ⟨rfl, ?_, receive_arrivals w, ?_⟩
  · intro fuel hf
    have := recv_loop_fuel (recvBound 0 0) fuel [] 0 [] w (by decide) (by decide)
      (Nat.le_refl _) hf
    rw [listBuf_nil] at this
    exact this
  · obtain ⟨rs, p1, p2, p3⟩ := recv_loop_polls (recvBound 0 0) [] 0 [] w (by decide)
      (by decide) (Nat.le_refl _)
    obtain ⟨rs2, g1, -, -, g4, g5, -, -⟩ := recv_loop_inv (recvBound 0 0) [] 0 [] w (by decide)
    have hrs : rs2 = rs := by
      have : w.reads ++ rs2 = w.reads ++ rs := by rw [← g1]; exact p1
      exact List.append_cancel_left this
    subst hrs
    rw [listBuf_nil] at p1 g4
    simp only [List.length_nil, List.nil_append] at p1 p2 p3 g4 g5
    refine ⟨rs2, p1, p2, g5, g4, ?_, ?_⟩
    · clear p1 p2 p3 g1 g4 g5
      induction rs2 with
      | nil => rfl
      | cons o t ih =>
        cases o with
        | none =>
          simp only [bytesOf, List.reduceOption_cons_of_none, List.length_cons,
            List.count_cons_self] at ih ⊢
          omega
        | some b =>
          have hne : (some b == (none : Option Nat)) = false := rfl
          simp only [bytesOf, List.reduceOption_cons_of_some, List.length_cons,
            List.count_cons, hne] at ih ⊢
          simp only [Bool.false_eq_true, if_false] at ih ⊢
          omega
    · rcases p3 with h | h | ⟨pre, ch, h⟩
      · exact Or.inl h
      · exact Or.inr ⟨[], by rw [h]; rfl⟩
      · exact Or.inr ⟨pre ++ [some ch], h⟩

/-- C22 with one iteration more allowed than the bound, on a line on which one byte 65
arrives with each of 255 * 15000 polls, and for the same line with more arriving after
them. -/
theorem C22_receive_terminates_witness :
    recvBound 0 0 ≤ recvBound 0 0 + 1 ∧
    ESP8266_Receive_loop (recvBound 0 0 + 1) (fun _ => 0) 0 0 []
        { ring := Ring.empty, rx := List.replicate (255 * 15000) [65], trace := [],
          reads := [] } =
      ESP8266_Receive_run
        { ring := Ring.empty, rx := List.replicate (255 * 15000) [65], trace := [],
          reads := [] } ∧
    (List.replicate (255 * 15000) [65] ++ [[13, 10, 13, 10]]).take (255 * 15000) =
      (List.replicate (255 * 15000) [65]).take (255 * 15000) ∧
    (ESP8266_Receive_http_response
        { ring := Ring.empty, rx := List.replicate (255 * 15000) [65] ++ [[13, 10, 13, 10]],
          trace := [], reads := [] }).1 =
      (ESP8266_Receive_http_response
        { ring := Ring.empty, rx := List.replicate (255 * 15000) [65], trace := [],
          reads := [] }).1 :=
  have htake : (List.replicate (255 * 15000) [65] ++ [[13, 10, 13, 10]]).take (255 * 15000) =
      (List.replicate (255 * 15000) [65]).take (255 * 15000) :=
    (List.take_left' (List.length_replicate _ _)).trans
      (List.take_of_length_le (Nat.le_of_eq (List.length_replicate _ _))).symm
  ⟨Nat.le_succ _,
    (C22_receive_terminates
      { ring := Ring.empty, rx := List.replicate (255 * 15000) [65], trace := [],
        reads := [] }).2.1 (recvBound 0 0 + 1) (Nat.le_succ _),
    htake,
    ((C22_receive_terminates
      { ring := Ring.empty, rx := List.replicate (255 * 15000) [65], trace := [],
        reads := [] }).2.2.1 (List.replicate (255 * 15000) [65] ++ [[13, 10, 13, 10]])
      htake).1⟩

/-! ## Order of the actions of the command sequencer: lemmas -/

theorem wait_events_exit (fuel : Nat) (response : Nat → Nat) (index timeout : Nat)
    (w : World) (ev : List Event) (h : ¬ timeout < 1000) :
    ESP8266_WaitForResponse_events fuel response index timeout w ev = ((false, w), ev) := by
  cases fuel <;> simp [ESP8266_WaitForResponse_events, ESP8266_TIMEOUT, h]

theorem wait_events_some (fuel : Nat) (response : Nat → Nat) (index timeout d : Nat)
    (w w1 : World) (ev : List Event) (hlt : timeout < 1000)
    (hrb : w.readByte = (some d, w1)) :
    ESP8266_WaitForResponse_events (fuel + 1) response index timeout w ev =
      if tokenSeen (storeByte response index d) (nextIndex index) then
        ((true, w1), ev ++ [Event.poll (some d)])
      else ESP8266_WaitForResponse_events fuel (storeByte response index d) (nextIndex index)
        timeout w1 (ev ++ [Event.poll (some d)]) := by
  simp only [ESP8266_WaitForResponse_events, ESP8266_TIMEOUT, hlt, if_true, hrb]
  rfl

theorem wait_events_none (fuel : Nat) (response : Nat → Nat) (index timeout : Nat)
    (w w1 : World) (ev : List Event) (hlt : timeout < 1000)
    (hrb : w.readByte = (none, w1)) :
    ESP8266_WaitForResponse_events (fuel + 1) response index timeout w ev =
      ESP8266_WaitForResponse_events fuel response index (timeout + 1) (Delay_ms 1 w1)
        (ev ++ [Event.poll none, Event.delay 1]) := by
  have hwrap : (timeout + 1) % 65536 = timeout + 1 := by omega
  simp only [ESP8266_WaitForResponse_events, ESP8266_TIMEOUT, hlt, if_true, hrb, hwrap]

theorem waitEvents_cons_some (d : Nat) (rs : List (Option Nat)) :
    waitEvents (some d :: rs) = Event.poll (some d) :: waitEvents rs := by
  simp [waitEvents]

theorem waitEvents_cons_none (rs : List (Option Nat)) :
    waitEvents (none :: rs) = Event.poll none :: Event.delay 1 :: waitEvents rs := by
  simp [waitEvents]

/-- The loop with its list of calls computes what the loop computes; the calls are the polls
in the order of the log of reads, each poll that gave no byte followed by its 1 ms sleep, and
the sleeps are all that the loop adds to the trace. -/
theorem wait_events_spec (fuel : Nat) : ∀ (response : Nat → Nat) (index timeout : Nat)
    (w : World) (ev : List Event),
    (ESP8266_WaitForResponse_events fuel response index timeout w ev).1 =
      ESP8266_WaitForResponse_loop fuel response index timeout w ∧
    ∃ rs : List (Option Nat),
      (ESP8266_WaitForResponse_loop fuel response index timeout w).2.reads = w.reads ++ rs ∧
      (ESP8266_WaitForResponse_loop fuel response index timeout w).2.trace =
        w.trace ++ List.replicate (rs.count none) (Effect.delay 1) ∧
      (ESP8266_WaitForResponse_events fuel response index timeout w ev).2 =
        ev ++ waitEvents rs := by
  induction fuel with
  | zero =>
    intro _ _ _ w ev
    exact ⟨rfl, [], by simp [ESP8266_WaitForResponse_loop],
      by simp [ESP8266_WaitForResponse_loop],
      by simp [ESP8266_WaitForResponse_events, waitEvents]⟩
  | succ fuel ih =>
    intro response index timeout w ev
    by_cases hlt : timeout < 1000
    · rcases hrb : w.readByte with ⟨o, w1⟩
      have hf := readByte_fields w
      rw [hrb] at hf
      dsimp only at hf
      cases o with
      | none =>
        rw [wait_events_none _ _ _ _ _ _ _ hlt hrb, wait_loop_none _ _ _ _ _ _ hlt hrb]
        obtain ⟨i1, rs, i2, i3, i4⟩ := ih response index (timeout + 1) (Delay_ms 1 w1)
          (ev ++ [Event.poll none, Event.delay 1])
        refine ⟨i1, none :: rs, ?_, ?_, ?_⟩
        · rw [i2]; simp [Delay_ms, hf.2.1]
        · rw [i3]; simp [Delay_ms, hf.1, List.replicate_succ]
        · rw [i4, waitEvents_cons_none]; simp
      | some d =>
        rw [wait_events_some _ _ _ _ _ _ _ _ hlt hrb, wait_loop_some _ _ _ _ _ _ _ hlt hrb]
        by_cases hseen : tokenSeen (storeByte response index d) (nextIndex index)
        · rw [if_pos hseen, if_pos hseen]
          exact ⟨rfl, [some d], hf.2.1, by simp [hf.1], by simp [waitEvents]⟩
        · rw [if_neg hseen, if_neg hseen]
          obtain ⟨i1, rs, i2, i3, i4⟩ := ih (storeByte response index d) (nextIndex index)
            timeout w1 (ev ++ [Event.poll (some d)])
          refine ⟨i1, some d :: rs, ?_, ?_, ?_⟩
          · rw [i2, hf.2.1]; simp
          · rw [i3, hf.1]; simp
          · rw [i4, waitEvents_cons_some]; simp
    · rw [wait_events_exit _ _ _ _ _ _ hlt, wait_loop_exit _ _ _ _ _ hlt]
      exact ⟨rfl, [], by simp, by simp, by simp [waitEvents]⟩

/-- One step with its list of calls: the same result and state as the step, and the calls
are the write of the command, the settle delay and then the calls of the wait. -/
theorem step_events_spec (cmdIndex : Nat) (w : World) (ev : List Event) :
    (ESP8266_Init_step_events cmdIndex w ev).1 = ESP8266_Init_step cmdIndex w ∧
    ∃ rs : List (Option Nat),
      (ESP8266_Init_step cmdIndex w).2.reads = w.reads ++ rs ∧
      (ESP8266_Init_step cmdIndex w).2.trace =
        w.trace ++ ([Effect.write (commands.getD cmdIndex []), Effect.delay 1000] ++
          List.replicate (rs.count none) (Effect.delay 1)) ∧
      (ESP8266_Init_step_events cmdIndex w ev).2 =
        ev ++ ([Event.write (commands.getD cmdIndex []), Event.delay 1000] ++
          waitEvents rs) := by
  obtain ⟨i1, rs, i2, i3, i4⟩ := wait_events_spec
    (waitBound 0 (Delay_ms 1000 (printf (commands.getD cmdIndex []) w))) (fun _ => 0) 0 0
    (Delay_ms 1000 (printf (commands.getD cmdIndex []) w))
    (ev ++ [Event.write (commands.getD cmdIndex [])] ++ [Event.delay 1000])
  refine ⟨i1, rs, i2, ?_, ?_⟩
  · unfold ESP8266_Init_step ESP8266_WaitForResponse
    rw [i3]
    simp [Delay_ms, printf]
  · unfold ESP8266_Init_step_events
    dsimp only
    rw [i4]
    simp

theorem inner_events_fst (fuel : Nat) : ∀ (cmdIndex : Nat) (w : World) (ev : List Event),
    (ESP8266_Init_inner_events fuel cmdIndex w ev).1 = ESP8266_Init_inner fuel cmdIndex w := by
  induction fuel with
  | zero => intro _ _ _; rfl
  | succ fuel ih =>
    intro cmdIndex w ev
    by_cases hlt : cmdIndex < cmdCount
    · have hs := (step_events_spec cmdIndex w ev).1
      rcases he : ESP8266_Init_step_events cmdIndex w ev with ⟨⟨b, w1⟩, ev1⟩
      rw [he] at hs
      dsimp only at hs
      rw [ESP8266_Init_inner_events, if_pos hlt, he, ESP8266_Init_inner, if_pos hlt, ← hs]
      cases b with
      | false => rfl
      | true => exact ih _ _ _
    · rw [ESP8266_Init_inner_events, if_neg hlt, ESP8266_Init_inner, if_neg hlt]

theorem outer_events_fst (fuel : Nat) : ∀ (retryCount : Nat) (success : Bool) (w : World)
    (ev : List Event),
    (ESP8266_Init_outer_events fuel retryCount success w ev).1 =
      ESP8266_Init_outer fuel retryCount success w := by
  induction fuel with
  | zero => intro _ _ _ _; rfl
  | succ fuel ih =>
    intro retryCount success w ev
    by_cases hc : retryCount < ESP8266_MAX_RETRIES ∧ success = false
    · have hs := inner_events_fst cmdCount 0 w ev
      rcases he : ESP8266_Init_inner_events cmdCount 0 w ev with ⟨⟨b, i, w1⟩, ev1⟩
      rw [he] at hs
      dsimp only at hs
      rw [ESP8266_Init_outer_events, if_pos hc, he, ESP8266_Init_outer, if_pos hc, ← hs]
      cases b with
      | false => exact ih _ _ _ _
      | true => exact ih _ _ _ _
    · rw [ESP8266_Init_outer_events, if_neg hc, ESP8266_Init_outer, if_neg hc]

/-- The sequencer with its list of calls computes what the sequencer computes. -/
theorem init_events_fst (w : World) : (ESP8266_Init_events w).1 = ESP8266_Init_run w :=
  outer_events_fst _ _ _ _ _

/-- The calls of `n` steps whose waits all see the token, up to the last step of the
sequence: for each step in turn the write, the settle delay and the calls of its wait. -/
theorem inner_events_success (n : Nat) : ∀ (fuel cmdIndex : Nat) (w : World) (ev : List Event),
    cmdIndex + n = 4 → n ≤ fuel → waitsSucceed n cmdIndex w = true →
    ∃ rss : List (List (Option Nat)), rss.length = n ∧
      (afterSteps n cmdIndex w).reads = w.reads ++ rss.flatten ∧
      (afterSteps n cmdIndex w).trace = w.trace ++ stepsTrace cmdIndex rss ∧
      (ESP8266_Init_inner_events fuel cmdIndex w ev).2 = ev ++ stepsEvents cmdIndex rss := by
  induction n with
  | zero =>
    intro fuel cmdIndex w ev hi _ _
    have : cmdIndex = 4 := by omega
    subst this
    refine ⟨[], rfl, by simp [afterSteps], by simp [afterSteps, stepsTrace], ?_⟩
    cases fuel <;> simp [ESP8266_Init_inner_events, cmdCount, stepsEvents]
  | succ n ih =>
    intro fuel cmdIndex w ev hi hf hs
    cases fuel with
    | zero => omega
    | succ fuel =>
      simp only [waitsSucceed, Bool.and_eq_true] at hs
      have hlt : cmdIndex < cmdCount := by unfold cmdCount; omega
      obtain ⟨s1, rs, s2, s3, s4⟩ := step_events_spec cmdIndex w ev
      rcases he : ESP8266_Init_step_events cmdIndex w ev with ⟨⟨b, w1⟩, ev1⟩
      rw [he] at s1 s4
      dsimp only at s1 s4
      have hb : b = true := by
        have := congrArg Prod.fst s1
        dsimp only at this
        rw [this]; exact hs.1
      have hw1 : w1 = (ESP8266_Init_step cmdIndex w).2 := by
        have := congrArg Prod.snd s1
        exact this
      subst hb
      obtain ⟨rss, r1, r2, r3, r4⟩ := ih fuel (cmdIndex + 1) w1 ev1 (by omega) (by omega)
        (by rw [hw1]; exact hs.2)
      refine ⟨rs :: rss, by simp [r1], ?_, ?_, ?_⟩
      · rw [afterSteps, ← hw1, r2, hw1, s2]; simp
      · rw [afterSteps, ← hw1, r3, hw1, s3]; simp [stepsTrace]
      · rw [ESP8266_Init_inner_events, if_pos hlt, he]
        dsimp only
        rw [r4, s4]; simp [stepsEvents]

/-! ## The command sequencer: a first attempt that succeeds -/

/-- C7: if the four waits of the first attempt all see the token, `ESP8266_Init` ends with
`retryCount = 0` and `success = 1` after that one attempt.  The calls it has made on the
serial line are, in this order and with nothing else: the write of "AT\r\n", `Delay_ms(1000)`,
the polls of the first wait (each poll that got no byte followed by its 1 ms sleep); the write
of the AT+CIPSTART command, `Delay_ms(1000)`, the polls of the second wait; the write of
"AT+CIPMODE=1\r\n", `Delay_ms(1000)`, the polls of the third wait; the write of
"AT+CIPSEND\r\n", `Delay_ms(1000)`, the polls of the fourth wait.  So each command is written
once, its settle delay comes before every poll of its wait, and there is no backoff delay, no
further attempt and no further write.  The log of reads and the trace of the state say the
same. -/
theorem C7_first_attempt_succeeds (w : World) (h : waitsSucceed 4 0 (clearRx w) = true) :
    ESP8266_Init_run w = (0, true, afterSteps 4 0 (clearRx w)) ∧
    (ESP8266_Init_events w).1 = ESP8266_Init_run w ∧
    (∃ rs1 rs2 rs3 rs4 : List (Option Nat),
      (ESP8266_Init_events w).2 =
        [Event.write (ascii "AT\r\n"), Event.delay 1000] ++ waitEvents rs1 ++
        [Event.write (ascii "AT+CIPSTART=\"TCP\",\"117.72.118.76\",3000\r\n"),
          Event.delay 1000] ++ waitEvents rs2 ++
        [Event.write (ascii "AT+CIPMODE=1\r\n"), Event.delay 1000] ++ waitEvents rs3 ++
        [Event.write (ascii "AT+CIPSEND\r\n"), Event.delay 1000] ++ waitEvents rs4 ∧
      (ESP8266_Init w).reads = w.reads ++ rs1 ++ rs2 ++ rs3 ++ rs4 ∧
      (ESP8266_Init w).trace =
        w.trace ++
        [Effect.write (ascii "AT\r\n"), Effect.delay 1000] ++
          List.replicate (rs1.count none) (Effect.delay 1) ++
        [Effect.write (ascii "AT+CIPSTART=\"TCP\",\"117.72.118.76\",3000\r\n"),
          Effect.delay 1000] ++ List.replicate (rs2.count none) (Effect.delay 1) ++
        [Effect.write (ascii "AT+CIPMODE=1\r\n"), Effect.delay 1000] ++
          List.replicate (rs3.count none) (Effect.delay 1) ++
        [Effect.write (ascii "AT+CIPSEND\r\n"), Effect.delay 1000] ++
          List.replicate (rs4.count none) (Effect.delay 1)) ∧
    visible (ESP8266_Init w).trace =
      visible w.trace ++
        [ Effect.write (ascii "AT\r\n"), Effect.delay 1000,
          Effect.write (ascii "AT+CIPSTART=\"TCP\",\"117.72.118.76\",3000\r\n"),
          Effect.delay 1000,
          Effect.write (ascii "AT+CIPMODE=1\r\n"), Effect.delay 1000,
          Effect.write (ascii "AT+CIPSEND\r\n"), Effect.delay 1000 ] := by
  have hin := inner_success 4 cmdCount 0 (clearRx w) (by decide) (by decide) h
  have hrun : ESP8266_Init_run w = (0, true, afterSteps 4 0 (clearRx w)) := by
    unfold ESP8266_Init_run
    rw [show ESP8266_MAX_RETRIES = 2 + 1 from rfl, ESP8266_Init_outer,
      if_pos ⟨by decide, rfl⟩, hin]
    simp [ESP8266_Init_outer]
  have hfst := inner_events_fst cmdCount 0 (clearRx w) []
  rw [hin] at hfst
  obtain ⟨rss, r1, r2, r3, r4⟩ :=
    inner_events_success 4 cmdCount 0 (clearRx w) [] (by decide) (by decide) h
  have hev : (ESP8266_Init_events w).2 = stepsEvents 0 rss := by
    unfold ESP8266_Init_events
    rcases he : ESP8266_Init_inner_events cmdCount 0 (clearRx w) [] with ⟨⟨b, i, w1⟩, ev1⟩
    rw [he] at hfst r4
    dsimp only at hfst r4
    have hb : b = true := congrArg Prod.fst hfst
    subst hb
    rw [show ESP8266_MAX_RETRIES = 2 + 1 from rfl, ESP8266_Init_outer_events,
      if_pos ⟨by decide, rfl⟩, he]
    simp [ESP8266_Init_outer_events, r4]
  have hreads : (ESP8266_Init w).reads = w.reads ++ rss.flatten := by
    unfold ESP8266_Init
    rw [hrun]
    exact r2
  have htrace : (ESP8266_Init w).trace = w.trace ++ stepsTrace 0 rss := by
    unfold ESP8266_Init
    rw [hrun]
    exact r3
  refine ⟨hrun, init_events_fst w, ?_, ?_⟩
  · rcases rss with _ | ⟨rs1, _ | ⟨rs2, _ | ⟨rs3, _ | ⟨rs4, _ | ⟨rs5, rest⟩⟩⟩⟩⟩ <;>
      first
      | (simp only [List.length_cons, List.length_nil] at r1; omega)
      | skip
    refine ⟨rs1, rs2, rs3, rs4, ?_, ?_, ?_⟩
    · rw [hev]
      simp [stepsEvents, commands]
    · rw [hreads]
      simp
    · rw [htrace]
      simp [stepsTrace, commands]
  · unfold ESP8266_Init
    rw [hrun]
    dsimp only
    rw [afterSteps_visible]
    simp [clearRx, commands, List.range'_succ]

/-- C7 on a line where the modem answers each of the four commands with the token: the
calls made are each command, its settle delay and the two polls that take O and K. -/
theorem C7_first_attempt_succeeds_witness :
    waitsSucceed 4 0 (clearRx allReplies) = true ∧
      (ESP8266_Init_run allReplies).1 = 0 ∧ (ESP8266_Init_run allReplies).2.1 = true ∧
      (ESP8266_Init_events allReplies).1 = ESP8266_Init_run allReplies ∧
      (ESP8266_Init_events allReplies).2 =
        [ Event.write (ascii "AT\r\n"), Event.delay 1000,
          Event.poll (some 79), Event.poll (some 75),
          Event.write (ascii "AT+CIPSTART=\"TCP\",\"117.72.118.76\",3000\r\n"),
          Event.delay 1000, Event.poll (some 79), Event.poll (some 75),
          Event.write (ascii "AT+CIPMODE=1\r\n"), Event.delay 1000,
          Event.poll (some 79), Event.poll (some 75),
          Event.write (ascii "AT+CIPSEND\r\n"), Event.delay 1000,
          Event.poll (some 79), Event.poll (some 75) ] :=
  have h := C7_first_attempt_succeeds allReplies (by decide)
  ⟨by decide, by rw [h.1], by rw [h.1], h.2.1, by decide⟩

/-! ## The upload cycle: an exchange that fails -/

theorem send_result (postPath serverHost json : List Nat) (w w2 : World) :
    (ESP8266_Send_http_post postPath serverHost json w).1 =
      (ESP8266_Send_http_post postPath serverHost json w2).1 := rfl

/-- C9: for every path, host and body (of fewer than 2^31 bytes, so that its length fits the
`int` it is stored in), the request written by `ESP8266_Send_http_post` ends with the header
line `Content-Length: ` and digits, the blank line, the bytes of the body and a CR LF, and
the digits, read back as a decimal number, give exactly the number of body bytes written.
The body bytes are the bytes of `json` up to its first zero byte, all of them when it has
none, and their number is `strlen(json)`.  When the path and the host hold no CR, the bytes
that follow the first CR LF CR LF of the request are these body bytes and the CR LF, so the
body measured in the request has the length the header gives. -/
theorem C9_content_length_is_body_length (POST Host json : List Nat) (w : World)
    (hL : (cstr json).length < 2 ^ 31) :
    ∃ pre digits body : List Nat,
      (ESP8266_Send_http_post POST Host json w).2.trace =
        w.trace ++ [Effect.write (pre ++ ascii "\r\nContent-Length: " ++ digits ++
          ascii "\r\n\r\n" ++ body ++ ascii "\r\n")] ∧
      parseDecimal digits = some body.length ∧
      body = cstr json ∧
      body.length = strlen json ∧
      (0 ∉ json → body = json) ∧
      (13 ∉ cstr POST → 13 ∉ cstr Host →
        afterHeaderEnd (pre ++ ascii "\r\nContent-Length: " ++ digits ++
          ascii "\r\n\r\n" ++ body ++ ascii "\r\n") = some (body ++ ascii "\r\n")) := by
  have hreq : httpRequest POST Host json =
      ascii "POST " ++ cstr POST ++ ascii " HTTP/1.1\r\n" ++ ascii "Host: " ++ cstr Host ++
      ascii "\r\n" ++ ascii "Connection: keep-alive\r\n" ++ ascii "User-Agent: ESP8266\r\n" ++
      ascii "Content-Type: application/json" ++ ascii "\r\nContent-Length: " ++
      fmt_d (toInt32 (strlen json)) ++ ascii "\r\n\r\n" ++ cstr json ++ ascii "\r\n" := by
    simp [httpRequest, ascii]
  refine ⟨ascii "POST " ++ cstr POST ++ ascii " HTTP/1.1\r\n" ++ ascii "Host: " ++ cstr Host ++
    ascii "\r\n" ++ ascii "Connection: keep-alive\r\n" ++ ascii "User-Agent: ESP8266\r\n" ++
    ascii "Content-Type: application/json", fmt_d (toInt32 (strlen json)), cstr json, ?_,
    parse_fmt_d _ hL, rfl, rfl, cstr_no_zero json, ?_⟩
  · rw [← hreq]
    rfl
  · intro hP hH
    rw [← hreq]
    exact afterHeaderEnd_request POST Host json hP hH

/-- C9 for the path and host of `main.c` and the two-byte body 123 125: the digits written
read back as 2, the number of body bytes. -/
theorem C9_content_length_is_body_length_witness :
    (cstr [123, 125]).length < 2 ^ 31 ∧
    ∃ pre digits body : List Nat,
      (ESP8266_Send_http_post (ascii "/api/data") (ascii "117.72.118.76:3000") [123, 125]
          allReplies).2.trace =
        allReplies.trace ++ [Effect.write (pre ++ ascii "\r\nContent-Length: " ++ digits ++
          ascii "\r\n\r\n" ++ body ++ ascii "\r\n")] ∧
      parseDecimal digits = some 2 ∧
      body = [123, 125] :=
  match C9_content_length_is_body_length (ascii "/api/data") (ascii "117.72.118.76:3000")
    [123, 125] allReplies (by decide) with
  | ⟨pre, digits, body, h1, h2, h3, _, _, _⟩ =>
    ⟨by decide, pre, digits, body, h1,
      h2.trans (congrArg (fun b : List Nat => some b.length) h3), h3⟩

end MotStm
